import Mathlib

/-!
Verification of the netnet_tools spreadsheet-synchronization core
(`netnet_updater.py`, `netnet_validator.py`, `netnet_autoscore.py`).

Shallow embedding conventions:
* a worksheet is a total function from (row, column) to a cell value;
* a workbook is an ordered association list of sheet names to worksheets,
  mirroring openpyxl's ordered sheet list;
* Python numbers are embedded as `Int` (int cells) and `Rat` (float cells);
  float arithmetic is modelled exactly over `Rat`, and the textual `str()`
  rendering of float and datetime cells is modelled by a fixed function
  (the claims checked here never depend on the precise float rendering);
* Python exceptions (`KeyError`, `ValueError`, stack exhaustion) are
  modelled with `Except String`; recursion is bounded by explicit fuel,
  one unit per `evaluate_cell` call, mirroring the Python call stack;
* the regular-expression substitutions of `adjust_formula_column` are
  embedded as left-to-right, leftmost-match, non-overlapping scanners over
  character lists, following the exact patterns of the source (including
  the one backtracking case of the trailing negative lookahead).
-/

/-! ## Character classes (ASCII, as used by the source regexes) -/

def isUpperC (c : Char) : Bool := 65 ≤ c.toNat && c.toNat ≤ 90

def isLowerC (c : Char) : Bool := 97 ≤ c.toNat && c.toNat ≤ 122

def isDigitC (c : Char) : Bool := 48 ≤ c.toNat && c.toNat ≤ 57

/-- Python regex `\w` restricted to ASCII (formulas in this domain are ASCII). -/
def isWordC (c : Char) : Bool := isUpperC c || isLowerC c || isDigitC c || c == '_'

def isSpaceC (c : Char) : Bool := c == ' ' || c == '\t' || c == '\n' || c == '\r'

/-- Python `str.strip()` (whitespace from both ends). -/
def pyStrip (s : String) : String :=
  String.mk (((s.data.dropWhile isSpaceC).reverse.dropWhile isSpaceC).reverse)

/-- Python `str.lower()` for ASCII. -/
def lowerChar (c : Char) : Char :=
  if isUpperC c then Char.ofNat (c.toNat + 32) else c

def pyLower (s : String) : String := String.mk (s.data.map lowerChar)

/-- Python `str.split()` with no argument: split on whitespace runs, no empties. -/
def pyWordsGo : List Char → List Char → List String → List String
  | [], cur, acc => if cur.isEmpty then acc.reverse else (String.mk cur.reverse :: acc).reverse
  | c :: cs, cur, acc =>
      if isSpaceC c then
        if cur.isEmpty then pyWordsGo cs [] acc
        else pyWordsGo cs [] (String.mk cur.reverse :: acc)
      else pyWordsGo cs (c :: cur) acc

def pyWords (s : String) : List String := pyWordsGo s.data [] []

/-- `" ".join(parts)`. -/
def joinSpace : List String → String
  | [] => ""
  | [s] => s
  | s :: rest => s ++ " " ++ joinSpace rest

/-- `normalize_label` from netnet_updater.py: lowercase, strip, collapse spaces.
The Python `if not label` guard returns "" for the empty string; the
word-splitting pipeline returns "" there as well. -/
def normalize_label (label : String) : String :=
  joinSpace (pyWords (pyStrip (pyLower label)))

/-- Python substring containment (`pat in s`) for a nonempty pattern. -/
def hasSubList : List Char → List Char → Bool
  | _, [] => false
  | pat, c :: cs => (pat.isPrefixOf (c :: cs)) || hasSubList pat cs

def hasSub (pat s : String) : Bool :=
  pat.data.isPrefixOf s.data || hasSubList pat.data s.data

/-- Python `str.replace(old, new)`: leftmost, non-overlapping, all
occurrences; `old` is nonempty in every call site embedded here. -/
def pyReplaceGo (pat repl : List Char) : Nat → List Char → List Char
  | 0, l => l
  | _ + 1, [] => []
  | fuel + 1, c :: cs =>
      if pat.isPrefixOf (c :: cs) && !pat.isEmpty then
        repl ++ pyReplaceGo pat repl fuel ((c :: cs).drop pat.length)
      else
        c :: pyReplaceGo pat repl fuel cs

def pyReplace (s pat repl : String) : String :=
  String.mk (pyReplaceGo pat.data repl.data s.data.length s.data)

/-! ## Decimal rendering of naturals (digit strings of row numbers) -/

def decDigits : List Char := ['0','1','2','3','4','5','6','7','8','9']

def digitChar (d : Nat) : Char := decDigits.getD (d % 10) '0'

/-- Digit accumulation with explicit fuel (`fuel = n` always suffices,
proved below); fuel keeps the recursion structural so that the kernel can
evaluate concrete witnesses. -/
def natDigitsCore : Nat → Nat → List Char → List Char
  | 0, _, acc => acc
  | _ + 1, 0, acc => acc
  | fuel + 1, n + 1, acc =>
      natDigitsCore fuel ((n + 1) / 10) (digitChar ((n + 1) % 10) :: acc)

def natDigits (n : Nat) : List Char :=
  if n = 0 then ['0'] else natDigitsCore n n []

/-! ## openpyxl's `get_column_letter` / `column_index_from_string`
(bijective base-26 column numeration). -/

def upAlphabet : List Char :=
  ['A','B','C','D','E','F','G','H','I','J','K','L','M',
   'N','O','P','Q','R','S','T','U','V','W','X','Y','Z']

def upChar (r : Nat) : Char := upAlphabet.getD (r % 26) 'A'

/-- Bijective base-26 letters with explicit fuel (`fuel = n` always
suffices, proved below). -/
def colLettersAux : Nat → Nat → List Char
  | 0, _ => []
  | _ + 1, 0 => []
  | fuel + 1, n + 1 => colLettersAux fuel (n / 26) ++ [upChar n]

/-- `get_column_letter(n)` as a character list (empty for n = 0; the source
only calls it with n ≥ 1). -/
def colLetters (n : Nat) : List Char := colLettersAux n n

def get_column_letter (n : Nat) : String := String.mk (colLetters n)

/-- openpyxl's `column_index_from_string` (on an uppercase letter run). -/
def column_index_from_string (l : List Char) : Nat :=
  l.foldl (fun a c => a * 26 + (c.toNat - 64)) 0

/-! ## Cell values -/

/-- A cell value as stored by openpyxl: `None`, a string, an int, a float,
or a datetime (carried here as its ISO `YYYY-MM-DD` date string). -/
inductive CellValue where
  | none : CellValue
  | str : String → CellValue
  | int : Int → CellValue
  | float : Rat → CellValue
  | date : String → CellValue
deriving DecidableEq

/-- Python truthiness of a cell value. -/
def truthy : CellValue → Bool
  | .none => false
  | .str s => s ≠ ""
  | .int n => n ≠ 0
  | .float q => q ≠ 0
  | .date _ => true

/-- Python `str()` of a cell value.  The float and datetime renderings are
modelled by fixed functions (the claims verified here are never sensitive
to their exact spelling; concrete witnesses avoid float and date cells). -/
def pyStr : CellValue → String
  | .none => "None"
  | .str s => s
  | .int n => toString n
  | .float q => toString q
  | .date d => d ++ " 00:00:00"

/-- Python `s.startswith(p)`. -/
def startsEq (s p : String) : Bool := p.data.isPrefixOf s.data

/-- Python `s.endswith(p)`. -/
def endsEq (s p : String) : Bool := p.data.reverse.isPrefixOf s.data.reverse

/-- Python `s.split(sep)` for a nonempty separator: fuelled leftmost,
non-overlapping scan. -/
def splitSepGo (sep : List Char) : Nat → List Char → List Char → List (List Char)
  | 0, l, cur => [cur.reverse ++ l]
  | fuel + 1, l, cur =>
      match l with
      | [] => [cur.reverse]
      | c :: cs =>
          if sep.isPrefixOf l then
            cur.reverse :: splitSepGo sep fuel (l.drop sep.length) []
          else splitSepGo sep fuel cs (c :: cur)

/-- Python `s.split(sep)`. -/
def splitStr (s sep : String) : List String :=
  (splitSepGo sep.data (s.data.length + 1) s.data []).map String.mk

/-- `is_formula` from netnet_updater.py. -/
def is_formula : CellValue → Bool
  | .str s => startsEq s "="
  | _ => false

/-- A worksheet: total map from (row, column) to a value; absent cells are
`CellValue.none`, exactly as openpyxl's `cell(...).value` returns `None`. -/
def Ws : Type := Nat → Nat → CellValue

/-- Write one cell. -/
def wsW (ws : Ws) (r c : Nat) (v : CellValue) : Ws :=
  fun r' c' => if r' = r && c' = c then v else ws r' c'

/-- A workbook: ordered sheets, as in openpyxl. -/
def Workbook : Type := List (String × Ws)

def wbNames (wb : Workbook) : List String := wb.map Prod.fst

def wbGet (wb : Workbook) (name : String) : Option Ws :=
  (wb.find? (fun p => p.1 == name)).map Prod.snd

/-- Replace the worksheet stored under `name` (position preserved). -/
def wbSet (wb : Workbook) (name : String) (ws : Ws) : Workbook :=
  wb.map (fun p => if p.1 == name then (p.1, ws) else p)

/-- Rename a sheet (`workbook[old].title = new`), position preserved. -/
def wbRename (wb : Workbook) (old new : String) : Workbook :=
  wb.map (fun p => if p.1 == old then (new, p.2) else p)

/-! ## `adjust_formula_column` (netnet_updater.py, lines 180–233)

The three `re.sub` passes are embedded as leftmost-match scanners.  Each
scanner carries fuel equal to the input length; every step consumes at
least one input character, so that fuel always suffices (proved below). -/

/-- Match data for pass 1, pattern `(\w+)!([A-Z]+)(\d+)` at the scan head. -/
structure M1 where
  sheet : List Char
  col : List Char
  row : List Char
  rest : List Char

/-- Leftmost-anchored match of `(\w+)!([A-Z]+)(\d+)`.  The greedy `\w+`,
`[A-Z]+` and `\d+` need no backtracking: each is followed by a character
its own class excludes, so the maximal run is the only candidate. -/
def tryM1 (l : List Char) : Option M1 :=
  let w := l.takeWhile isWordC
  match l.dropWhile isWordC with
  | '!' :: r2 =>
      let cl := r2.takeWhile isUpperC
      let r3 := r2.dropWhile isUpperC
      let dg := r3.takeWhile isDigitC
      let r4 := r3.dropWhile isDigitC
      if w.isEmpty || cl.isEmpty || dg.isEmpty then none
      else some ⟨w, cl, dg, r4⟩
  | _ => none

/-- `replace_sheet_ref`: rewrite the column letter when it equals the
source letter, otherwise emit the match unchanged. -/
def repl1 (sL tL : List Char) (m : M1) : List Char :=
  m.sheet ++ '!' :: (if m.col = sL then tL else m.col) ++ m.row

def pass1Aux (sL tL : List Char) : Nat → List Char → List Char
  | 0, l => l
  | _ + 1, [] => []
  | fuel + 1, c :: cs =>
      match tryM1 (c :: cs) with
      | some m => repl1 sL tL m ++ pass1Aux sL tL fuel m.rest
      | none => c :: pass1Aux sL tL fuel cs

def pass1 (sL tL : List Char) (l : List Char) : List Char :=
  pass1Aux sL tL l.length l

/-- Match data for pass 2, pattern `([A-Z]+)(\d+):([A-Z]+)(\d+)`. -/
structure M2 where
  col1 : List Char
  row1 : List Char
  col2 : List Char
  row2 : List Char
  rest : List Char

def tryM2 (l : List Char) : Option M2 :=
  let c1 := l.takeWhile isUpperC
  let r1 := l.dropWhile isUpperC
  let d1 := r1.takeWhile isDigitC
  match r1.dropWhile isDigitC with
  | ':' :: r3 =>
      let c2 := r3.takeWhile isUpperC
      let r4 := r3.dropWhile isUpperC
      let d2 := r4.takeWhile isDigitC
      let r5 := r4.dropWhile isDigitC
      if c1.isEmpty || d1.isEmpty || c2.isEmpty || d2.isEmpty then none
      else some ⟨c1, d1, c2, d2, r5⟩
  | _ => none

/-- `replace_range_ref`: rewrite either endpoint whose column letter equals
the source letter (no `$` guard, faithfully to the source pattern). -/
def repl2 (sL tL : List Char) (m : M2) : List Char :=
  (if m.col1 = sL then tL else m.col1) ++ m.row1 ++
    ':' :: (if m.col2 = sL then tL else m.col2) ++ m.row2

def pass2Aux (sL tL : List Char) : Nat → List Char → List Char
  | 0, l => l
  | _ + 1, [] => []
  | fuel + 1, c :: cs =>
      match tryM2 (c :: cs) with
      | some m => repl2 sL tL m ++ pass2Aux sL tL fuel m.rest
      | none => c :: pass2Aux sL tL fuel cs

def pass2 (sL tL : List Char) (l : List Char) : List Char :=
  pass2Aux sL tL l.length l

/-- Match data for the `([A-Z]+)(\d+)(?![A-Z])` core of pass 3. -/
structure M3 where
  col : List Char
  row : List Char
  rest : List Char

/-- Core of pattern 3 at the scan head.  When the character after the
maximal digit run is uppercase the lookahead fails; the engine then
backtracks one digit (possible only when the run has length ≥ 2), after
which the lookahead sees a digit and succeeds. -/
def coreM3 (l : List Char) : Option M3 :=
  let cl := l.takeWhile isUpperC
  let r1 := l.dropWhile isUpperC
  let dg := r1.takeWhile isDigitC
  let r2 := r1.dropWhile isDigitC
  if cl.isEmpty || dg.isEmpty then none
  else
    match r2 with
    | [] => some ⟨cl, dg, []⟩
    | c :: _ =>
        if isUpperC c then
          if 2 ≤ dg.length then
            some ⟨cl, dg.dropLast, dg.getLast?.getD '0' :: r2⟩
          else none
        else some ⟨cl, dg, r2⟩

/-- `replace_simple_ref` body (without the prefix character). -/
def repl3 (sL tL : List Char) (m : M3) : List Char :=
  (if m.col = sL then tL else m.col) ++ m.row

/-- Is a character admissible as the `[^A-Z$]` prefix of pattern 3? -/
def allowPre (c : Char) : Bool := !isUpperC c && c != '$'

/-- Pass 3 scanner.  `atStart` is true only at position 0, where the `^`
alternative allows a match with an empty prefix group. -/
def pass3Aux (sL tL : List Char) : Bool → Nat → List Char → List Char
  | _, 0, l => l
  | _, _ + 1, [] => []
  | atStart, fuel + 1, c :: cs =>
      match (if atStart then coreM3 (c :: cs) else none) with
      | some m => repl3 sL tL m ++ pass3Aux sL tL false fuel m.rest
      | none =>
          if allowPre c then
            match coreM3 cs with
            | some m => c :: (repl3 sL tL m ++ pass3Aux sL tL false fuel m.rest)
            | none => c :: pass3Aux sL tL false fuel cs
          else c :: pass3Aux sL tL false fuel cs

def pass3 (sL tL : List Char) (l : List Char) : List Char :=
  pass3Aux sL tL true l.length l

/-- `pass3Aux` with exactly enough fuel, from an arbitrary start flag
(used by the correctness proof; `pass3 = pass3Run true`). -/
def pass3Run (sL tL : List Char) (b : Bool) (l : List Char) : List Char :=
  pass3Aux sL tL b l.length l

/-- `adjust_formula_column(formula, source_col, target_col)`. -/
def adjust_formula_column (formula : String) (source_col target_col : Nat) : String :=
  let sL := colLetters source_col
  let tL := colLetters target_col
  String.mk (pass3 sL tL (pass2 sL tL (pass1 sL tL formula.data)))

/-! ## Token grammar for the rewrite-correctness claim

`FTok` describes the lexical shapes the spec's correctness statement is
about: separator characters, fully absolute references `$X$n`, relative
references `Xn`, sheet-qualified relative references `name!Xn`, and
relative ranges `Xn:Ym`. -/

inductive FTok where
  | sep : Char → FTok
  | rel : Nat → Nat → FTok
  | abs : Nat → Nat → FTok
  | sheet : List Char → Nat → Nat → FTok
  | rng : Nat → Nat → Nat → Nat → FTok
deriving DecidableEq

def renderT : FTok → List Char
  | .sep c => [c]
  | .rel col row => colLetters col ++ natDigits row
  | .abs col row => '$' :: (colLetters col ++ '$' :: natDigits row)
  | .sheet n col row => n ++ '!' :: (colLetters col ++ natDigits row)
  | .rng c1 r1 c2 r2 =>
      colLetters c1 ++ natDigits r1 ++ ':' :: (colLetters c2 ++ natDigits r2)

def renderL (ts : List FTok) : List Char := (ts.map renderT).flatten

/-- The shift the source intends for pass 1 (sheet-qualified references). -/
def shift1 (src tgt : Nat) : FTok → FTok
  | .sheet n col row => .sheet n (if col = src then tgt else col) row
  | t => t

/-- The shift the source intends for pass 2 (range endpoints). -/
def shift2 (src tgt : Nat) : FTok → FTok
  | .rng c1 r1 c2 r2 =>
      .rng (if c1 = src then tgt else c1) r1 (if c2 = src then tgt else c2) r2
  | t => t

/-- The shift the source intends for pass 3 (bare relative references). -/
def shift3 (src tgt : Nat) : FTok → FTok
  | .rel col row => .rel (if col = src then tgt else col) row
  | t => t

/-- The whole rewrite: relative, sheet-qualified and range references from
the source column move to the target column; absolute references and
separators stay. -/
def shiftTok (src tgt : Nat) : FTok → FTok
  | .rel col row => .rel (if col = src then tgt else col) row
  | .sheet n col row => .sheet n (if col = src then tgt else col) row
  | .rng c1 r1 c2 r2 =>
      .rng (if c1 = src then tgt else c1) r1 (if c2 = src then tgt else c2) r2
  | t => t

/-- Separator characters admissible between references: the punctuation
of the formula dialect.  All are outside `\w`, `[A-Z]`, `\d` and are
distinct from `$`, `!` and `:`. -/
def sepOK (c : Char) : Bool :=
  c == '=' || c == '(' || c == ')' || c == '+' || c == '-' ||
  c == '*' || c == '/' || c == ',' || c == ' '

/-- Characters admissible in a sheet name for the correctness statement:
lowercase word characters (as in `almedio_bs`). -/
def sheetChar (c : Char) : Bool := isLowerC c || isDigitC c || c == '_'

def refOK : FTok → Bool
  | .sep _ => false
  | .rel col _ => 1 ≤ col
  | .abs col _ => 1 ≤ col
  | .sheet n col _ => 1 ≤ col && !n.isEmpty && n.all sheetChar
  | .rng c1 _ c2 _ => 1 ≤ c1 && 1 ≤ c2

/-- No sheet-qualified or range reference names the source column: the
state of a token list after passes 1 and 2 have run. -/
def NoSrcT (sL : List Char) : FTok → Prop
  | .sheet _ col _ => colLetters col ≠ sL
  | .rng c1 _ c2 _ => colLetters c1 ≠ sL ∧ colLetters c2 ≠ sL
  | _ => True

/-- Well-formed token lists: every reference token is immediately preceded
by a separator and immediately followed by a separator or the end. -/
inductive WfT : List FTok → Prop
  | nil : WfT []
  | sep (c : Char) (ts : List FTok) : sepOK c = true → WfT ts → WfT (.sep c :: ts)
  | ref (c : Char) (t : FTok) (ts : List FTok) :
      sepOK c = true → refOK t = true → WfT ts → WfT (.sep c :: t :: ts)

/-! ## `_parse_value` (netnet_autoscore.py, lines 116–133) -/

def digitsVal (l : List Char) : Nat :=
  l.foldl (fun a c => a * 10 + (c.toNat - 48)) 0

/-- Mantissa value of an integer digit run and a fraction digit run. -/
def mantVal (ip fp : List Char) : Rat :=
  (digitsVal ip : Rat) + (digitsVal fp : Rat) / ((10 : Rat) ^ fp.length)

/-- Exponent-and-end stage of the Python `float()` literal grammar. -/
def pyFloatExp (m : Rat) : List Char → Option Rat
  | [] => some m
  | e :: r =>
      if e == 'e' || e == 'E' then
        let (esgn, r1) : Int × List Char :=
          match r with
          | '+' :: t => (1, t)
          | '-' :: t => (-1, t)
          | _ => (1, r)
        let ed := r1.takeWhile isDigitC
        let r2 := r1.dropWhile isDigitC
        if ed.isEmpty || !r2.isEmpty then none
        else some (m * (10 : Rat) ^ (esgn * (digitsVal ed : Int)))
      else none

/-- Python `float(s)` on an already-stripped string, modelling the decimal
literal grammar `[sign] (digits [. digits] | . digits) [e [sign] digits]`
exactly over `Rat`.  The non-finite literals (`inf`, `nan`) and underscore
digit grouping are outside this numeric model; no claim checked here
depends on them, and binary-double rounding is deliberately not modelled. -/
def pyFloat (s : String) : Option Rat :=
  let (sgn, l1) : Rat × List Char :=
    match s.data with
    | '+' :: r => (1, r)
    | '-' :: r => (-1, r)
    | l => (1, l)
  let ip := l1.takeWhile isDigitC
  let l2 := l1.dropWhile isDigitC
  match l2 with
  | '.' :: l3 =>
      let fp := l3.takeWhile isDigitC
      let l4 := l3.dropWhile isDigitC
      if ip.isEmpty && fp.isEmpty then none
      else (pyFloatExp (mantVal ip fp) l4).map (sgn * ·)
  | _ => if ip.isEmpty then none else (pyFloatExp (mantVal ip []) l2).map (sgn * ·)

/-- `cleaned = val.replace('%', '').replace(',', '').strip()`. -/
def cleanNumStr (s : String) : String :=
  pyStrip (String.mk (s.data.filter (fun c => !(c == '%' || c == ','))))

/-- `WorkbookEvaluator._parse_value`. -/
def _parse_value (val : CellValue) : Option Rat :=
  match val with
  | .none => none
  | .int n => some (n : Rat)
  | .float q => some q
  | .str s =>
      if s = "" || s = "NA" || s = "-" then none
      else
        match pyFloat (cleanNumStr s) with
        | some r => some (if s.data.contains '%' then r / 100 else r)
        | none => none
  | .date _ => none

/-- `parseValue` as worded by the spec (§4.1): null for empty/`NA`/`-`,
numeric input passed through, strings cleaned of `%`/commas/whitespace and
parsed as a float with a `%` post-division, null on parse failure. -/
def parseValueSpec (val : CellValue) : Option Rat :=
  match val with
  | .none => none
  | .int n => some (n : Rat)
  | .float q => some q
  | .str s =>
      if s = "" || s = "NA" || s = "-" then none
      else (pyFloat (cleanNumStr s)).map
        (fun r => if s.data.contains '%' then r / 100 else r)
  | .date _ => none

/-! ## Formula micro-evaluator (netnet_autoscore.py, lines 135–252)

Exceptions are modelled with `Except String`: `"KeyError"` for a missing
sheet, `"ValueError"` for the two-argument unpacking of `ref.split('!')`,
`"RecursionError"` for fuel exhaustion (the Python call stack). -/

/-- The evaluator abstracted over the recursive `evaluate_cell` call. -/
def Ev : Type := String → Nat → Nat → Except String (Option Rat)

/-- `$`-anchored end of a Python regex: end of string, or just before a
final newline. -/
def endsDollar (l : List Char) : Bool := l.isEmpty || l == ['\n']

/-- The full-match `^([A-Z]+)(\d+)$` used for cell references. -/
def matchFullRef (l : List Char) : Option (List Char × List Char) :=
  let cl := l.takeWhile isUpperC
  let r1 := l.dropWhile isUpperC
  let dg := r1.takeWhile isDigitC
  let r2 := r1.dropWhile isDigitC
  if cl.isEmpty || dg.isEmpty || !endsDollar r2 then none else some (cl, dg)

/-- The group `([A-Z]+\d+)` inside the compound patterns; returns the
matched reference text and the remainder. -/
def parseRef (l : List Char) : Option (List Char × List Char) :=
  let cl := l.takeWhile isUpperC
  let r1 := l.dropWhile isUpperC
  let dg := r1.takeWhile isDigitC
  let r2 := r1.dropWhile isDigitC
  if cl.isEmpty || dg.isEmpty then none else some (cl ++ dg, r2)

/-- The group `(\d+\.?\d*)`, converted by `float(...)`. -/
def parseConst (l : List Char) : Option (Rat × List Char) :=
  let ip := l.takeWhile isDigitC
  let r1 := l.dropWhile isDigitC
  if ip.isEmpty then none
  else
    match r1 with
    | '.' :: r2 =>
        let fp := r2.takeWhile isDigitC
        some (mantVal ip fp, r2.dropWhile isDigitC)
    | _ => some (mantVal ip [], r1)

def nvPat : List Char := "_xlfn.NUMBERVALUE(".data

def avgPat : List Char := "AVERAGE(".data

/-- `re.match(r'_xlfn\.NUMBERVALUE\(([^)]+)\)', f)`: anchored at the start,
trailing characters permitted, group up to the first closing parenthesis. -/
def matchNV (f : List Char) : Option (List Char) :=
  if nvPat.isPrefixOf f then
    let r := f.drop nvPat.length
    let inner := r.takeWhile (fun c => c != ')')
    let after := r.dropWhile (fun c => c != ')')
    if inner.isEmpty || after.isEmpty then none else some inner
  else none

/-- `re.match(r'AVERAGE\(([^)]+)\)', f)`. -/
def matchAvg (f : List Char) : Option (List Char) :=
  if avgPat.isPrefixOf f then
    let r := f.drop avgPat.length
    let inner := r.takeWhile (fun c => c != ')')
    let after := r.dropWhile (fun c => c != ')')
    if inner.isEmpty || after.isEmpty then none else some inner
  else none

/-- `re.match(r'^([A-Z]+\d+)\*(\d+\.?\d*)$', f)`. -/
def matchTimesConst (f : List Char) : Option (List Char × Rat) :=
  match parseRef f with
  | some (ref, '*' :: r2) =>
      match parseConst r2 with
      | some (q, r3) => if endsDollar r3 then some (ref, q) else none
      | none => none
  | _ => none

/-- `re.match(r'^([A-Z]+\d+)\*(\d+\.?\d*)/([A-Z]+\d+)$', f)`. -/
def matchConstDiv (f : List Char) : Option (List Char × Rat × List Char) :=
  match parseRef f with
  | some (ref1, '*' :: r2) =>
      match parseConst r2 with
      | some (q, '/' :: r4) =>
          match parseRef r4 with
          | some (ref2, r5) => if endsDollar r5 then some (ref1, q, ref2) else none
          | none => none
      | _ => none
  | _ => none

/-- `re.match(r'^([A-Z]+\d+)([-+*/])([A-Z]+\d+)$', f)`. -/
def matchArith (f : List Char) : Option (List Char × Char × List Char) :=
  match parseRef f with
  | some (ref1, op :: r2) =>
      if op == '-' || op == '+' || op == '*' || op == '/' then
        match parseRef r2 with
        | some (ref2, r3) => if endsDollar r3 then some (ref1, op, ref2) else none
        | none => none
      else none
  | _ => none

def apostropheChar : Char := Char.ofNat 39

/-- `sheet_name.strip("'")`. -/
def stripQuotes (l : List Char) : List Char :=
  ((l.dropWhile (· == apostropheChar)).reverse.dropWhile (· == apostropheChar)).reverse

/-- Python `ref.split('!')`. -/
def splitBang (l : List Char) : List (List Char) :=
  l.foldr (fun c acc =>
    match acc with
    | [] => if c = '!' then [[], []] else [[c]]
    | cur :: rest => if c = '!' then [] :: cur :: rest else (c :: cur) :: rest) [[]]

/-- Resolve the `^([A-Z]+)(\d+)$` side of a reference against a sheet. -/
def resolveCellRef (ev : Ev) (sheet : String) (cell_ref : List Char) :
    Except String (Option Rat) :=
  match matchFullRef cell_ref with
  | some (cl, dg) => ev sheet (digitsVal dg) (column_index_from_string cl)
  | none => .ok none

/-- `WorkbookEvaluator._resolve_reference`.  `sheet_name, cell_ref =
ref.split('!')` raises `ValueError` unless the split has exactly two
parts. -/
def _resolve_reference (ev : Ev) (ref : List Char) (current_sheet : String) :
    Except String (Option Rat) :=
  if ref.contains '!' then
    match splitBang ref with
    | [a, b] => resolveCellRef ev (String.mk (stripQuotes a)) b
    | _ => .error "ValueError"
  else resolveCellRef ev current_sheet ref

/-- `WorkbookEvaluator._evaluate_average`. -/
def _evaluate_average (ev : Ev) (range_str : List Char) (current_sheet : String) :
    Except String (Option Rat) := do
  let c1 := range_str.takeWhile isUpperC
  let r1 := range_str.dropWhile isUpperC
  let d1 := r1.takeWhile isDigitC
  match r1.dropWhile isDigitC with
  | ':' :: r3 =>
      let c2 := r3.takeWhile isUpperC
      let r4 := r3.dropWhile isUpperC
      let d2 := r4.takeWhile isDigitC
      if c1.isEmpty || d1.isEmpty || c2.isEmpty || d2.isEmpty then pure none
      else
        let col1 := column_index_from_string c1
        let col2 := column_index_from_string c2
        let row1 := digitsVal d1
        let row2 := digitsVal d2
        let rows := List.range' row1 (row2 + 1 - row1)
        let cols := List.range' col1 (col2 + 1 - col1)
        let values ← rows.foldlM (fun acc r =>
          cols.foldlM (fun acc2 c => do
            let v ← ev current_sheet r c
            match v with
            | some x => pure (acc2 ++ [x])
            | none => pure acc2) acc) ([] : List Rat)
        if values.isEmpty then pure none
        else pure (some (values.sum / (values.length : Rat)))
  | _ => pure none

/-- `WorkbookEvaluator._evaluate_formula`: strip the leading `=`, then try
the recognized shapes in source order; anything else evaluates to `None`. -/
def _evaluate_formula (ev : Ev) (formula : String) (current_sheet : String) :
    Except String (Option Rat) :=
  let f := formula.data.drop 1
  match matchNV f with
  | some ref => _resolve_reference ev ref current_sheet
  | none =>
  match matchFullRef f with
  | some (cl, dg) => ev current_sheet (digitsVal dg) (column_index_from_string cl)
  | none =>
  match matchTimesConst f with
  | some (ref, q) => do
      let v ← _resolve_reference ev ref current_sheet
      match v with
      | none => pure none
      | some x => pure (some (x * q))
  | none =>
  match matchConstDiv f with
  | some (ref1, q, ref2) => do
      let v1 ← _resolve_reference ev ref1 current_sheet
      let v2 ← _resolve_reference ev ref2 current_sheet
      match v1, v2 with
      | some a, some b => if b = 0 then pure none else pure (some (a * q / b))
      | _, _ => pure none
  | none =>
  match matchArith f with
  | some (ref1, op, ref2) => do
      let v1 ← _resolve_reference ev ref1 current_sheet
      let v2 ← _resolve_reference ev ref2 current_sheet
      match v1, v2 with
      | some a, some b =>
          if op = '-' then pure (some (a - b))
          else if op = '+' then pure (some (a + b))
          else if op = '*' then pure (some (a * b))
          else pure (if b = 0 then none else some (a / b))
      | _, _ => pure none
  | none =>
  match matchAvg f with
  | some rng => _evaluate_average ev rng current_sheet
  | none => pure none

/-- `WorkbookEvaluator.evaluate_cell`.  One unit of fuel per call models
the Python call stack; the per-instance memo cache is semantically
transparent and not modelled. -/
def evaluate_cell (wb : Workbook) : Nat → String → Nat → Nat → Except String (Option Rat)
  | 0, _, _, _ => .error "RecursionError"
  | fuel + 1, sheet, r, c =>
      match wbGet wb sheet with
      | none => .error "KeyError"
      | some ws =>
          match ws r c with
          | .none => .ok none
          | .str s =>
              if startsEq s "=" then
                _evaluate_formula (fun s' r' c' => evaluate_cell wb fuel s' r' c') s sheet
              else .ok (_parse_value (.str s))
          | v => .ok (_parse_value v)

/-! ## Structure extraction (netnet_validator.py, lines 109–154)

The extractors are embedded with their default window arguments, which are
the only values used by the code verified here: labels in rows 12–60 of
column 3, dates in row 10 of columns 4–50, period codes in row 8. -/

/-- `extract_row_labels(ws)`: rows 12–60, label column 3, keeping cells
that hold a non-blank string, stripped. -/
def extract_row_labels (ws : Ws) : List (Nat × String) :=
  (List.range' 12 49).foldr (fun r acc =>
    match ws r 3 with
    | .str s => if pyStrip s = "" then acc else (r, pyStrip s) :: acc
    | _ => acc) []

/-- `extract_column_dates(ws)`: row 10, columns 4–50; datetime cells are
formatted `YYYY-MM-DD` (the `date` constructor carries that string),
non-blank string cells are stripped, anything else is skipped. -/
def extract_column_dates (ws : Ws) : List (Nat × String) :=
  (List.range' 4 47).foldr (fun c acc =>
    match ws 10 c with
    | .date d => (c, d) :: acc
    | .str s => if pyStrip s = "" then acc else (c, pyStrip s) :: acc
    | _ => acc) []

/-- `extract_period_codes(ws)`: row 8, columns 4–50, non-blank strings. -/
def extract_period_codes (ws : Ws) : List (Nat × String) :=
  (List.range' 4 47).foldr (fun c acc =>
    match ws 8 c with
    | .str s => if pyStrip s = "" then acc else (c, pyStrip s) :: acc
    | _ => acc) []

/-- `find_sheets` (netnet_validator.py): case-sensitive suffix match,
last hit wins. -/
def find_sheets (wb : Workbook) : Option String × Option String :=
  wb.foldl (fun acc p =>
    if endsEq p.1 "_IS" then (some p.1, acc.2)
    else if endsEq p.1 "_bs" then (acc.1, some p.1)
    else acc) (none, none)

/-- `WorkbookStructure` (the schema snapshot). -/
structure WorkbookStructureR where
  company_name : CellValue
  is_sheet_name : String
  bs_sheet_name : String
  is_row_labels : List (Nat × String)
  bs_row_labels : List (Nat × String)
  is_column_dates : List (Nat × String)
  bs_column_dates : List (Nat × String)
  is_period_codes : List (Nat × String)
  bs_period_codes : List (Nat × String)
deriving DecidableEq

/-- `map_workbook_structure`: raises `ValueError` when either raw-data
sheet is missing (error text abbreviated). -/
def map_workbook_structure (wb : Workbook) : Except String WorkbookStructureR :=
  match find_sheets wb with
  | (none, _) => .error "ValueError: no IS sheet"
  | (_, none) => .error "ValueError: no BS sheet"
  | (some isn, some bsn) =>
      match wbGet wb isn, wbGet wb bsn with
      | some isw, some bsw =>
          .ok { company_name := if truthy (isw 2 3) then isw 2 3 else .str ""
                is_sheet_name := isn
                bs_sheet_name := bsn
                is_row_labels := extract_row_labels isw
                bs_row_labels := extract_row_labels bsw
                is_column_dates := extract_column_dates isw
                bs_column_dates := extract_column_dates bsw
                is_period_codes := extract_period_codes isw
                bs_period_codes := extract_period_codes bsw }
      | _, _ => .error "KeyError"

/-! ## `validate_export_against_structure` (netnet_validator.py, 220–329) -/

def lookupNat (l : List (Nat × String)) (k : Nat) : Option String :=
  (l.find? (fun p => p.1 == k)).map Prod.snd

structure ValidationResultR where
  sheet_type : String
  is_valid : Bool
  row_mismatches : List (Nat × String × String)
  missing_rows : List (Nat × String)
  new_rows : List (Nat × String)
  new_periods : List (Nat × String × String)
  removed_periods : List (Nat × String × String)
  warnings : List String
  errors : List String
deriving DecidableEq

def initValidation (sheet_type : String) : ValidationResultR :=
  { sheet_type := sheet_type, is_valid := true, row_mismatches := [],
    missing_rows := [], new_rows := [], new_periods := [],
    removed_periods := [], warnings := [], errors := [] }

/-- `ValidationResult.add_error`. -/
def add_error (r : ValidationResultR) (msg : String) : ValidationResultR :=
  { r with errors := r.errors ++ [msg], is_valid := false }

/-- Row-alignment phase: one error per missing row, one per label
mismatch (error text abbreviated; the claims do not depend on it). -/
def checkExpectedRow (export_labels : List (Nat × String)) (r : ValidationResultR)
    (p : Nat × String) : ValidationResultR :=
  match lookupNat export_labels p.1 with
  | none =>
      add_error { r with missing_rows := r.missing_rows ++ [(p.1, p.2)] }
        ("Row " ++ toString p.1 ++ " missing in export")
  | some actual =>
      if actual ≠ p.2 then
        add_error { r with row_mismatches := r.row_mismatches ++ [(p.1, p.2, actual)] }
          ("Row " ++ toString p.1 ++ " mismatch")
      else r

def checkNewRow (expected_labels : List (Nat × String)) (r : ValidationResultR)
    (p : Nat × String) : ValidationResultR :=
  if (lookupNat expected_labels p.1).isSome then r
  else
    { r with new_rows := r.new_rows ++ [(p.1, p.2)],
             warnings := r.warnings ++ ["New row " ++ toString p.1 ++ " in export"] }

def addNewPeriod (export_codes : List (Nat × String)) (expected_date_set : List String)
    (r : ValidationResultR) (p : Nat × String) : ValidationResultR :=
  if expected_date_set.contains p.2 then r
  else
    { r with new_periods := r.new_periods ++ [(p.1, p.2, (lookupNat export_codes p.1).getD "")] }

def addRemovedPeriod (expected_codes : List (Nat × String)) (export_date_set : List String)
    (r : ValidationResultR) (p : Nat × String) : ValidationResultR :=
  if export_date_set.contains p.2 then r
  else
    { r with removed_periods := r.removed_periods ++ [(p.1, p.2, (lookupNat expected_codes p.1).getD "")] }

/-- `validate_export_against_structure`.  The file read
(`map_export_structure`) is abstracted into the export worksheet value. -/
def validate_export_against_structure (st : WorkbookStructureR) (export_ws : Ws)
    (sheet_type : String) : ValidationResultR :=
  let expected_labels := if sheet_type = "is" then st.is_row_labels else st.bs_row_labels
  let expected_dates := if sheet_type = "is" then st.is_column_dates else st.bs_column_dates
  let expected_codes := if sheet_type = "is" then st.is_period_codes else st.bs_period_codes
  let export_labels := extract_row_labels export_ws
  let export_dates := extract_column_dates export_ws
  let export_codes := extract_period_codes export_ws
  let r1 := expected_labels.foldl (checkExpectedRow export_labels) (initValidation sheet_type)
  let r2 := export_labels.foldl (checkNewRow expected_labels) r1
  let export_date_set := export_dates.map Prod.snd
  let expected_date_set := expected_dates.map Prod.snd
  let r3 := export_dates.foldl (addNewPeriod export_codes expected_date_set) r2
  let r4 := expected_dates.foldl (addRemovedPeriod expected_codes export_date_set) r3
  let r5 := if r4.new_periods.isEmpty then r4
            else { r4 with warnings := r4.warnings ++
                    ["Found " ++ toString r4.new_periods.length ++ " new periods in export"] }
  if r5.removed_periods.isEmpty then r5
  else { r5 with warnings := r5.warnings ++
          ["Export missing " ++ toString r5.removed_periods.length ++ " periods"] }

/-- The pipeline of `validate_export_against_structure` over abstract
lists, for the invariant proof: `el`/`xl` expected and export labels,
`xc`/`ec` export and expected period codes, `eds`/`xds` expected and
export date sets, `xd`/`ed` export and expected dates. -/
def valPhases (sheet_type : String) (el xl xc ec : List (Nat × String))
    (eds xds : List String) (xd ed : List (Nat × String)) : ValidationResultR :=
  let r1 := el.foldl (checkExpectedRow xl) (initValidation sheet_type)
  let r2 := xl.foldl (checkNewRow el) r1
  let r3 := xd.foldl (addNewPeriod xc eds) r2
  let r4 := ed.foldl (addRemovedPeriod ec xds) r3
  let r5 := if r4.new_periods.isEmpty then r4
            else { r4 with warnings := r4.warnings ++
                    ["Found " ++ toString r4.new_periods.length ++ " new periods in export"] }
  if r5.removed_periods.isEmpty then r5
  else { r5 with warnings := r5.warnings ++
          ["Export missing " ++ toString r5.removed_periods.length ++ " periods"] }

/-! ## `update_raw_data_sheet` (netnet_updater.py, lines 256–319) -/

/-- Python `dict` built by inserting pairs in order: first-insertion key
order, later values overwrite in place. -/
def dictInsert (m : List (String × Nat)) (k : String) (v : Nat) : List (String × Nat) :=
  if m.any (fun p => p.1 == k) then m.map (fun p => if p.1 == k then (p.1, v) else p)
  else m ++ [(k, v)]

/-- `{date: col for col, date in dates.items()}`. -/
def pyDictRev (l : List (Nat × String)) : List (String × Nat) :=
  l.foldl (fun m p => dictInsert m p.2 p.1) []

def lookupStr (l : List (String × Nat)) (k : String) : Option Nat :=
  (l.find? (fun p => p.1 == k)).map Prod.snd

/-- One entry of the `changes` list. -/
structure ChangeRec where
  sheet_type : String
  row : Nat
  col : Nat
  col_letter : String
  date : String
  label : String
  old_value : CellValue
  new_value : CellValue
deriving DecidableEq

/-- `str(v).strip() if v else ""` — the merge's value normalization. -/
def pyNorm (v : CellValue) : String :=
  if truthy v then pyStrip (pyStr v) else ""

/-- The body of the inner merge loop for one (row, existing column,
export column) cell. -/
def processCell (sheet_type date label : String) (export_ws : Ws) (dry_run : Bool)
    (r ecol xcol : Nat) (acc : Ws × List ChangeRec) : Ws × List ChangeRec :=
  let ws := acc.1
  let existing_val := ws r ecol
  if is_formula existing_val then acc
  else
    let new_val := export_ws r xcol
    if pyNorm existing_val ≠ pyNorm new_val then
      let change : ChangeRec :=
        { sheet_type := sheet_type, row := r, col := ecol,
          col_letter := get_column_letter ecol, date := date, label := label,
          old_value := existing_val, new_value := new_val }
      (if dry_run then ws else wsW ws r ecol new_val, acc.2 ++ [change])
    else acc

/-- The `for row, label in row_labels.items()` loop of
`update_raw_data_sheet`, for one matched date column pair. -/
def mergeInner (sheet_type : String) (export_ws : Ws) (date : String)
    (ecol xcol : Nat) (dry_run : Bool) (row_labels : List (Nat × String))
    (a : Ws × List ChangeRec) : Ws × List ChangeRec :=
  row_labels.foldl (fun a q =>
    processCell sheet_type date q.2 export_ws dry_run q.1 ecol xcol a) a

/-- The `for date, export_col in date_to_export_col.items()` loop of
`update_raw_data_sheet`. -/
def mergeOuter (sheet_type : String) (export_ws : Ws)
    (date_to_existing_col : List (String × Nat)) (row_labels : List (Nat × String))
    (dry_run : Bool) (date_to_export_col : List (String × Nat))
    (acc : Ws × List ChangeRec) : Ws × List ChangeRec :=
  date_to_export_col.foldl (fun acc p =>
    match lookupStr date_to_existing_col p.1 with
    | none => acc
    | some ecol => mergeInner sheet_type export_ws p.1 ecol p.2 dry_run row_labels acc)
    acc

/-- `update_raw_data_sheet(existing_ws, export_ws, result, sheet_type,
dry_run)`: returns the final worksheet and the list of changes. -/
def update_raw_data_sheet (existing_ws export_ws : Ws) (sheet_type : String)
    (dry_run : Bool) : Ws × List ChangeRec :=
  mergeOuter sheet_type export_ws
    (pyDictRev (extract_column_dates existing_ws))
    (extract_row_labels existing_ws) dry_run
    (pyDictRev (extract_column_dates export_ws)) (existing_ws, [])

/-! ## `replace_all_raw_data` (netnet_updater.py, lines 509–587) -/

/-- `build_label_to_row_map` (rows 12–60 inclusive, label column 3,
first occurrence of each normalized label kept). -/
def build_label_to_row_map (ws : Ws) : List (String × Nat) :=
  (List.range' 12 49).foldl (fun m r =>
    match ws r 3 with
    | .str s =>
        if pyStrip s = "" then m
        else
          let k := normalize_label s
          if m.any (fun p => p.1 == k) then m else m ++ [(k, r)]
    | _ => m) []

/-- Clearing phase: rows 8 and 10 (period codes, dates) and the data rows
12–59 (formulas kept), columns 4–99. -/
def clearPhase (ws : Ws) : Ws :=
  let ws1 := (List.range' 4 96).foldl (fun w c => wsW (wsW w 8 c .none) 10 c .none) ws
  (List.range' 12 48).foldl (fun w r =>
    (List.range' 4 96).foldl (fun w2 c =>
      if is_formula (w2 r c) then w2 else wsW w2 r c .none) w) ws1

/-- Header-copy loop with the `elif col > 4: break` semantics: a falsy
value at column 4 does not stop the scan, a falsy value later does. -/
def copyHeaderRow (row : Nat) (export_ws : Ws) (dry_run : Bool) :
    List Nat → Ws × Nat → Ws × Nat
  | [], acc => acc
  | c :: cs, (ws, n) =>
      let v := export_ws row c
      if truthy v then
        copyHeaderRow row export_ws dry_run cs
          (if dry_run then ws else wsW ws row c v, n + 1)
      else if c > 4 then (ws, n)
      else copyHeaderRow row export_ws dry_run cs (ws, n)

/-- Data-copy phase: export rows 12–59, matched to existing rows by
normalized label, columns 4 to the last export date column. -/
def copyDataRows (export_ws : Ws) (dry_run : Bool)
    (rowMap : Nat → Option Nat) (max_col : Nat) (acc : Ws × Nat) : Ws × Nat :=
  (List.range' 12 48).foldl (fun a er =>
    match rowMap er with
    | none => a
    | some exr =>
        (List.range' 4 (max_col + 1 - 4)).foldl (fun a2 c =>
          let v := export_ws er c
          if v ≠ .none then
            (if dry_run then a2.1 else wsW a2.1 exr c v, a2.2 + 1)
          else a2) a) acc

/-- `replace_all_raw_data(existing_ws, export_ws, result, sheet_type,
dry_run)`: returns the final worksheet and the `cells_written` count. -/
def replace_all_raw_data (existing_ws export_ws : Ws) (dry_run : Bool) : Ws × Nat :=
  let ws0 := if dry_run then existing_ws else clearPhase existing_ws
  let s1 := copyHeaderRow 8 export_ws dry_run (List.range' 4 96) (ws0, 0)
  let s2 := copyHeaderRow 10 export_ws dry_run (List.range' 4 96) s1
  let existing_labels := build_label_to_row_map existing_ws
  let export_labels := build_label_to_row_map export_ws
  let rowMap : Nat → Option Nat := fun er =>
    (export_labels.find? (fun p => p.2 == er)).bind (fun p => lookupStr existing_labels p.1)
  let export_dates := extract_column_dates export_ws
  let max_col := (export_dates.map Prod.fst).foldl max 4
  copyDataRows export_ws dry_run rowMap max_col s2

/-! ## `add_new_period_column` (netnet_updater.py, lines 746–819) -/

/-- `get_last_data_column(ws, date_row)`: last column (4–99) with a truthy
value in the date row, tolerating a single embedded gap. -/
def getLastDataColGo (ws : Ws) (date_row : Nat) : List Nat → Nat → Nat
  | [], last => last
  | c :: cs, last =>
      if truthy (ws date_row c) then getLastDataColGo ws date_row cs c
      else if truthy (ws date_row (c + 1)) then getLastDataColGo ws date_row cs last
      else last

def get_last_data_column (ws : Ws) (date_row : Nat) : Nat :=
  getLastDataColGo ws date_row (List.range' 4 96) 3

/-- Extend the last formula column of one calculation sheet by one column
(rows 2–59), shifting each formula with `adjust_formula_column`. -/
def extendCalcSheet (calc_ws : Ws) (new_date : String) : Ws × Nat :=
  let calc_last_col := get_last_data_column calc_ws 1
  if calc_last_col < 4 then (calc_ws, 0)
  else
    let calc_new_col := calc_last_col + 1
    let ws1 := wsW calc_ws 1 calc_new_col (.str new_date)
    (List.range' 2 58).foldl (fun acc r =>
      let v := acc.1 r calc_last_col
      match v with
      | .str s =>
          if startsEq s "=" then
            (wsW acc.1 r calc_new_col (.str (adjust_formula_column s calc_last_col calc_new_col)),
             acc.2 + 1)
          else acc
      | _ => acc) (ws1, 0)

/-- `add_new_period_column`: returns the workbook after the new raw-data
column and the calculation-sheet extensions, together with the number of
formulas extended.  Column formatting (`copy_column_formatting`) is
presentation-only and outside the value model. -/
def add_new_period_column (wb : Workbook) (sheet_name new_date new_period_code : String)
    (export_ws : Ws) (export_col : Nat) (calculation_sheets : List String)
    (dry_run : Bool) : Workbook × Nat :=
  match wbGet wb sheet_name with
  | none => (wb, 0)
  | some ws =>
      let last_col := get_last_data_column ws 10
      let new_col := last_col + 1
      if dry_run then (wb, 0)
      else
        let ws1 := wsW ws 8 new_col (.str new_period_code)
        let ws2 := wsW ws1 10 new_col (.str new_date)
        let row_labels := extract_row_labels ws
        let ws3 := row_labels.foldl (fun w p =>
          wsW w p.1 new_col (export_ws p.1 export_col)) ws2
        let wb1 := wbSet wb sheet_name ws3
        calculation_sheets.foldl (fun acc name =>
          match wbGet acc.1 name with
          | none => acc
          | some calc_ws =>
              let (calc_ws', n) := extendCalcSheet calc_ws new_date
              (wbSet acc.1 name calc_ws', acc.2 + n)) (wb1, 0)

/-! ## Sheet renaming (netnet_updater.py, lines 419–494) -/

/-- `detect_current_company_prefix` (source name kept in spirit; the
Lean identifier avoids a reserved spelling): first sheet whose lowercased
name ends in `_is` or `_bs`, with the three-character suffix removed. -/
def detect_company_pfx (wb : Workbook) : Option String :=
  wb.foldr (fun p acc =>
    let lower := pyLower p.1
    if endsEq lower "_is" || endsEq lower "_bs" then
      some (String.mk (p.1.data.take (p.1.data.length - 3)))
    else acc) none

/-- The rename map: `old_prefix` case-insensitively against `xxx_is` /
`xxx_bs`, mapping to `new_prefix_IS` / `new_prefix_bs`. -/
def buildRenameMap (wb : Workbook) (old_pfx new_pfx : String) : List (String × String) :=
  wb.foldr (fun p acc =>
    let lower := pyLower p.1
    if lower = pyLower old_pfx ++ "_is" then (p.1, new_pfx ++ "_IS") :: acc
    else if lower = pyLower old_pfx ++ "_bs" then (p.1, new_pfx ++ "_bs") :: acc
    else acc) []

/-- One formula rewritten through the rename map: the stored sheet name
and its lowercase variant, each followed by `!`, are textually replaced. -/
def renameFormula (rename_map : List (String × String)) (f : String) : String :=
  rename_map.foldl (fun s p =>
    pyReplace (pyReplace s (p.1 ++ "!") (p.2 ++ "!")) (pyLower p.1 ++ "!") (p.2 ++ "!")) f

/-- One cell of the formula-rewrite scan. -/
def renameCellStep (rename_map : List (String × String)) (dry_run : Bool)
    (r : Nat) (acc2 : Ws × Nat) (c : Nat) : Ws × Nat :=
  match acc2.1 r c with
  | .str s =>
      if startsEq s "=" then
        let nf := renameFormula rename_map s
        if nf ≠ s then
          (if dry_run then acc2.1 else wsW acc2.1 r c (.str nf), acc2.2 + 1)
        else acc2
      else acc2
  | _ => acc2

/-- One row of the formula-rewrite scan (columns 1–99). -/
def renameRowStep (rename_map : List (String × String)) (dry_run : Bool)
    (acc : Ws × Nat) (r : Nat) : Ws × Nat :=
  (List.range' 1 99).foldl (renameCellStep rename_map dry_run r) acc

/-- Rewrite every formula cell (rows and columns 1–99) of one sheet. -/
def renameSheetFormulas (rename_map : List (String × String)) (dry_run : Bool)
    (ws : Ws) : Ws × Nat :=
  (List.range' 1 99).foldl (renameRowStep rename_map dry_run) (ws, 0)

/-- One sheet of the formula-update pass. -/
def renameSheetStep (rename_map : List (String × String)) (dry_run : Bool)
    (acc : Workbook × Nat) (name : String) : Workbook × Nat :=
  match wbGet acc.1 name with
  | none => acc
  | some ws =>
      (wbSet acc.1 name (renameSheetFormulas rename_map dry_run ws).1,
       acc.2 + (renameSheetFormulas rename_map dry_run ws).2)

/-- The formula-update pass of `rename_sheets_and_update_references`:
every sheet is rewritten through the rename map. -/
def renameStep1 (rename_map : List (String × String)) (dry_run : Bool)
    (wb : Workbook) : Workbook × Nat :=
  (wbNames wb).foldl (renameSheetStep rename_map dry_run) (wb, 0)

/-- The sheet-retitling pass of `rename_sheets_and_update_references`. -/
def renameStep2 (rename_map : List (String × String)) (dry_run : Bool)
    (wb1 : Workbook) : Workbook × Nat :=
  rename_map.foldl (fun acc p =>
    if (wbNames acc.1).contains p.1 then
      (if dry_run then acc.1 else wbRename acc.1 p.1 p.2, acc.2 + 1)
    else acc) (wb1, 0)

/-- `rename_sheets_and_update_references`: returns the workbook and the
`(sheets_renamed, formulas_updated)` counts. -/
def rename_sheets_and_update_references (wb : Workbook) (old_pfx new_pfx : String)
    (dry_run : Bool) : Workbook × Nat × Nat :=
  let rename_map := buildRenameMap wb old_pfx new_pfx
  if rename_map.isEmpty then (wb, 0, 0)
  else
    let step1 := renameStep1 rename_map dry_run wb
    let step2 := renameStep2 rename_map dry_run step1.1
    (step2.1, step2.2, step1.2)

/-! ## Dependent-sheet synchronization (netnet_updater.py, lines 590–743) -/

/-- Date collection of `sync_calculation_sheet_dates`: datetime cells give
their ISO date, other truthy cells `str(val)[:10]`; same break pattern as
the header scans. -/
def collectSyncDates (ws : Ws) : List Nat → List String → List String
  | [], acc => acc
  | c :: cs, acc =>
      let v := ws 10 c
      if truthy v then
        let d := match v with
          | .date d => d
          | _ => String.mk ((pyStr v).data.take 10)
        collectSyncDates ws cs (acc ++ [d])
      else if c > 4 then acc
      else collectSyncDates ws cs acc

/-- `sync_calculation_sheet_dates`: returns the workbook and the count of
date headers written (counted only when not a dry run, as in the source). -/
def sync_calculation_sheet_dates (wb : Workbook) (is_sheet bs_sheet : Option String)
    (calculation_sheets : List String) (dry_run : Bool) : Workbook × Nat :=
  let source := match is_sheet with
    | some s => some s
    | none => bs_sheet
  match source with
  | none => (wb, 0)
  | some sname =>
      match wbGet wb sname with
      | none => (wb, 0)
      | some sws =>
          let dates := collectSyncDates sws (List.range' 4 96) []
          if dates.isEmpty then (wb, 0)
          else
            let cfg : List (String × Nat × Nat) :=
              [("ncav", 1, 4), ("profitability", 1, 3), ("ro", 1, 3)]
            calculation_sheets.foldl (fun acc sheet =>
              match cfg.find? (fun p => p.1 == sheet) with
              | none => acc
              | some (_, date_row, start_col) =>
                  match wbGet acc.1 sheet with
                  | none => acc
                  | some ws =>
                      if dry_run then acc
                      else
                        let ws1 := (List.range' start_col (100 - start_col)).foldl
                          (fun w c => wsW w date_row c .none) ws
                        let ws2 := dates.enum.foldl
                          (fun w p => wsW w date_row (start_col + p.1) (.str p.2)) ws1
                        (wbSet acc.1 sheet ws2, acc.2 + dates.length)) (wb, 0)

/-- Period counting of `extend_calculation_sheet_formulas`. -/
def countPeriods (ws : Ws) : List Nat → Nat → Nat
  | [], n => n
  | c :: cs, n =>
      if truthy (ws 10 c) then countPeriods ws cs (n + 1)
      else if c > 4 then n
      else countPeriods ws cs n

/-- Last column (from `start_col`) holding any formula in rows 2–max_row,
stopping six columns past `start_col` once formulas run out. -/
def findLastFormulaCol (ws : Ws) (start_col max_row : Nat) : List Nat → Nat → Nat
  | [], last => last
  | c :: cs, last =>
      if (List.range' 2 (max_row - 1)).any (fun r => is_formula (ws r c)) then
        findLastFormulaCol ws start_col max_row cs c
      else if c > start_col + 5 then last
      else findLastFormulaCol ws start_col max_row cs last

/-- Column-by-column formula extension (rows 1–max_row), each column
cloned from its immediate predecessor in the already-mutated sheet. -/
def extendCalcColumns (ws : Ws) (max_row : Nat) (cols : List Nat) : Ws × Nat :=
  cols.foldl (fun acc c =>
    (List.range' 1 max_row).foldl (fun acc2 r =>
      match acc2.1 r (c - 1) with
      | .str s =>
          if startsEq s "=" then
            (wsW acc2.1 r c (.str (adjust_formula_column s (c - 1) c)), acc2.2 + 1)
          else acc2
      | _ => acc2) acc) (ws, 0)

/-- `extend_calculation_sheet_formulas`. -/
def extend_calculation_sheet_formulas (wb : Workbook) (is_sheet bs_sheet : Option String)
    (calculation_sheets : List String) (dry_run : Bool) : Workbook × Nat :=
  let source := match is_sheet with
    | some s => some s
    | none => bs_sheet
  match source with
  | none => (wb, 0)
  | some sname =>
      match wbGet wb sname with
      | none => (wb, 0)
      | some sws =>
          let num_periods := countPeriods sws (List.range' 4 96) 0
          if num_periods = 0 then (wb, 0)
          else
            let cfg : List (String × Nat × Nat) :=
              [("ncav", 4, 30), ("profitability", 3, 15), ("ro", 3, 20)]
            calculation_sheets.foldl (fun acc sheet =>
              match cfg.find? (fun p => p.1 == sheet) with
              | none => acc
              | some (_, start_col, max_row) =>
                  match wbGet acc.1 sheet with
                  | none => acc
                  | some ws =>
                      let target_col := start_col + num_periods - 1
                      let last := findLastFormulaCol ws start_col max_row
                        (List.range' start_col (100 - start_col)) start_col
                      if target_col ≤ last then acc
                      else if dry_run then acc
                      else
                        let (ws', n) := extendCalcColumns ws max_row
                          (List.range' (last + 1) (target_col - last))
                        (wbSet acc.1 sheet ws', acc.2 + n)) (wb, 0)

/-! ## `update_ncav_price_formulas` (netnet_updater.py, lines 822–941) -/

/-- `(label_a or label_b or "").lower().strip()`; a truthy non-string
label raises `AttributeError` at the `.lower()` call. -/
def pyLabel (a b : CellValue) : Except String String :=
  let v := if truthy a then a else if truthy b then b else .str ""
  match v with
  | .str s => .ok (pyStrip (pyLower s))
  | _ => .error "AttributeError"

/-- The ncav sheet's last-data-column scan over row 1 (columns 4–99,
one-gap tolerance only past column 5). -/
def ncavLastDataCol (ws : Ws) : List Nat → Nat → Nat
  | [], last => last
  | c :: cs, last =>
      if truthy (ws 1 c) then ncavLastDataCol ws cs c
      else if c > 5 then
        if truthy (ws 1 (c + 1)) then ncavLastDataCol ws cs last else last
      else ncavLastDataCol ws cs last

def findPriceRowGo (ws : Ws) : List Nat → Except String (Option Nat)
  | [] => .ok none
  | r :: rs => do
      let lab ← pyLabel (ws r 1) (ws r 2)
      if lab = "price" then pure (some r) else findPriceRowGo ws rs

/-- The ratio-label → denominator-row dictionary (rows 1–59). -/
def buildRatioMap (ws : Ws) : Except String (List (String × Nat)) :=
  (List.range' 1 59).foldlM (fun m r => do
    let lab ← pyLabel (ws r 1) (ws r 2)
    if hasSub "ncav / share" lab || hasSub "ncav/share" lab then
      if hasSub "discounted" lab then
        pure (dictInsert (dictInsert m "p / discounted ncav" r) "p/discounted ncav" r)
      else
        pure (dictInsert (dictInsert m "p / ncav" r) "p/ncav" r)
    else if hasSub "net tangible assets / sha" lab || hasSub "nta / sha" lab
        || hasSub "nta/sha" lab then
      pure (dictInsert (dictInsert m "p / nta" r) "p/nta" r)
    else if hasSub "net cash / share" lab || hasSub "net cash/share" lab then
      pure (dictInsert (dictInsert m "p / net cash" r) "p/net cash" r)
    else pure m) []

/-- `update_ncav_price_formulas`: rewrites the price-ratio formulas of the
ncav sheet to reference the current last data column. -/
def update_ncav_price_formulas (wb : Workbook) (dry_run : Bool) :
    Except String (Workbook × Nat) := do
  match wbGet wb "ncav" with
  | none => pure (wb, 0)
  | some ws =>
      let last_data_col := ncavLastDataCol ws (List.range' 4 96) 4
      let letter := get_column_letter last_data_col
      let priceRowOpt ← findPriceRowGo ws (List.range' 40 10)
      match priceRowOpt with
      | none => pure (wb, 0)
      | some price_row => do
          let pfr ← (List.range' (price_row + 1) 9).foldlM (fun acc r => do
            let lab ← pyLabel (ws r 1) (ws r 2)
            if startsEq lab "p /" || startsEq lab "p/" then pure (acc ++ [r])
            else pure acc) ([] : List Nat)
          if pfr.isEmpty then pure (wb, 0)
          else do
            let ratios ← buildRatioMap ws
            let final ← pfr.foldlM (fun acc r => do
              let lab ← pyLabel (acc.1 r 1) (acc.1 r 2)
              match lookupStr ratios lab with
              | none => pure acc
              | some denom_row =>
                  let nf :=
                    if hasSub "net cash" lab then
                      "=IFERROR(" ++ letter ++ toString price_row ++ "/" ++ letter
                        ++ toString denom_row ++ ", \"NA\")"
                    else
                      "=" ++ letter ++ toString price_row ++ "/" ++ letter ++ toString denom_row
                  if acc.1 r last_data_col ≠ .str nf then
                    pure (if dry_run then acc.1 else wsW acc.1 r last_data_col (.str nf),
                          acc.2 + 1)
                  else pure acc) (ws, 0)
            pure (wbSet wb "ncav" final.1, final.2)

/-! ## Company-name helpers (netnet_updater.py, lines 329–379) -/

/-- `Path(filename).stem`. -/
def pyStem (filename : String) : String :=
  let base := ((splitStr filename "/").getLast?).getD filename
  let bd := base.data
  match bd.reverse.findIdx? (fun c => c == '.') with
  | some k =>
      let pos := bd.length - 1 - k
      if pos = 0 then base else String.mk (bd.take pos)
  | none => base

def extract_company_name_from_filename (filename : String) : Option String :=
  if filename = "" then none
  else
    let basename := pyStem filename
    let parts := splitStr basename " - "
    if 2 ≤ parts.length then some (pyStrip (parts.headD "")) else none

def normalize_company_name_for_sheet (company_name : String) : String :=
  if company_name = "" then ""
  else
    let words := pyWords (pyLower company_name)
    let sfx := ["co", "ltd", "inc", "corp", "mfg", "corporation", "company", "limited"]
    let name_words := words.filter (fun w => !sfx.contains w)
    let kept :=
      if name_words.isEmpty then
        if words.isEmpty then ["unknown"] else [words.headD ""]
      else name_words
    String.join kept

/-! ## `update_workbook` (netnet_updater.py, lines 944–1172) -/

structure UpdateResultR where
  success : Bool
  backup_path_set : Bool
  cells_updated : Nat
  is_cells_updated : Nat
  bs_cells_updated : Nat
  new_columns_added : Nat
  formulas_extended : Nat
  sheets_renamed : Nat
  formula_refs_updated : Nat
  price_formulas_updated : Nat
  old_company_pfx : Option String
  new_company_pfx : Option String
  errors : List String
  warnings : List String
  changes_log : List ChangeRec
deriving DecidableEq

def initUpdateResult : UpdateResultR :=
  { success := false, backup_path_set := false, cells_updated := 0,
    is_cells_updated := 0, bs_cells_updated := 0, new_columns_added := 0,
    formulas_extended := 0, sheets_renamed := 0, formula_refs_updated := 0,
    price_formulas_updated := 0, old_company_pfx := none, new_company_pfx := none,
    errors := [], warnings := [], changes_log := [] }

/-- Step 1 of `update_workbook`: the collected validation errors (only
collected when the force flag is off, as in the source). -/
def collectValidationErrors (st : WorkbookStructureR)
    (is_export bs_export : Option (String × Ws)) (force : Bool) : List String :=
  let e1 := match is_export with
    | some (_, xws) =>
        let v := validate_export_against_structure st xws "is"
        if !v.is_valid && !force then v.errors else []
    | none => []
  let e2 := match bs_export with
    | some (_, xws) =>
        let v := validate_export_against_structure st xws "bs"
        if !v.is_valid && !force then v.errors else []
    | none => []
  e1 ++ e2

/-- `for export_path in [is_export_path, bs_export_path]` name probing. -/
def autoCompanyName (is_export bs_export : Option (String × Ws)) : Option String :=
  let fromIs := match is_export with
    | some (p, _) => extract_company_name_from_filename p
    | none => none
  match fromIs with
  | some n => if n ≠ "" then some n else
      match bs_export with
      | some (p, _) => extract_company_name_from_filename p
      | none => none
  | none =>
      match bs_export with
      | some (p, _) => extract_company_name_from_filename p
      | none => none

/-- The per-sheet update of steps 4/5: incremental merge (with optional
period extension) or full replace.  Returns the workbook, the per-sheet
cell count, the change log entries, the formulas extended and the new
columns added. -/
def updateOneSheet (wb : Workbook) (sheet : String) (xws : Ws) (sheet_type : String)
    (calculation_sheets : List String)
    (extend_periods replace_all dry_run fresh_recheck : Bool) :
    Workbook × Nat × List ChangeRec × Nat × Nat :=
  match wbGet wb sheet with
  | none => (wb, 0, [], 0, 0)
  | some ws =>
      if replace_all then
        let (ws', cells) := replace_all_raw_data ws xws dry_run
        (wbSet wb sheet ws', cells, [], 0, 0)
      else
        let (ws', changes) := update_raw_data_sheet ws xws sheet_type dry_run
        let wb1 := wbSet wb sheet ws'
        if extend_periods then
          let existing_date_vals := (extract_column_dates ws').map Prod.snd
          let export_dates := extract_column_dates xws
          let export_codes := extract_period_codes xws
          let ext := export_dates.foldl (fun acc p =>
            if existing_date_vals.contains p.2 then acc
            else
              let fresh_ok :=
                if fresh_recheck then
                  match wbGet acc.1 sheet with
                  | some cur => !((extract_column_dates cur).map Prod.snd).contains p.2
                  | none => false
                else true
              if fresh_ok then
                let (wb', f) := add_new_period_column acc.1 sheet p.2
                  ((lookupNat export_codes p.1).getD "") xws p.1 calculation_sheets dry_run
                (wb', acc.2.1 + f, acc.2.2 + (if dry_run then 0 else 1))
              else acc) (wb1, 0, 0)
          (ext.1, changes.length, changes, ext.2.1, ext.2.2)
        else (wb1, changes.length, changes, 0, 0)

/-- `update_workbook`.  File I/O is abstracted: the workbook and exports
are passed as values (each export with its filename, used for company
detection); the returned triple is (result, final workbook, saved-flag);
`backup_path_set` in the result models the backup creation of step 2. -/
def update_workbook (wb : Workbook) (is_export bs_export : Option (String × Ws))
    (extend_periods replace_all dry_run force : Bool) (company_name : Option String) :
    Except String (UpdateResultR × Workbook × Bool) := do
  -- Step 1: validation (skipped in replace-all mode)
  let abortErrs ←
    if replace_all then pure ([] : List String)
    else do
      let st ← map_workbook_structure wb
      let verrs := collectValidationErrors st is_export bs_export force
      if !verrs.isEmpty && !force then pure verrs else pure []
  if !abortErrs.isEmpty then
    return ({ initUpdateResult with
              errors := abortErrs ++ ["Validation failed. Use --force to override."] },
            wb, false)
  -- Step 2: backup (models `create_backup`, skipped in dry runs)
  let backed := !dry_run
  -- Step 3: sheets
  let (is_sheet0, bs_sheet0) := find_sheets wb
  let calculation_sheets := ["ncav", "profitability", "piotrosky", "C7", "ro"]
  -- Step 3.5: company prefix and renaming
  let old_pfx := detect_company_pfx wb
  let new_company_name := match company_name with
    | some n => if n ≠ "" then some n else autoCompanyName is_export bs_export
    | none => autoCompanyName is_export bs_export
  let (wb1, sheets_renamed, formula_refs, new_pfx) :=
    match new_company_name with
    | none => (wb, 0, 0, none)
    | some ncn =>
        let np := normalize_company_name_for_sheet ncn
        match old_pfx with
        | some op =>
            if op ≠ "" && np ≠ "" && pyLower op ≠ pyLower np then
              let (wb', sr, fu) := rename_sheets_and_update_references wb op np dry_run
              (wb', sr, fu, some np)
            else (wb, 0, 0, some np)
        | none => (wb, 0, 0, some np)
  let (is_sheet, bs_sheet) := if 0 < sheets_renamed then find_sheets wb1 else (is_sheet0, bs_sheet0)
  -- Step 4: Income Statement
  let (wb2, is_cells, log1, f1, nc1) :=
    match is_export, is_sheet with
    | some (_, xws), some sheet =>
        updateOneSheet wb1 sheet xws "is" calculation_sheets
          extend_periods replace_all dry_run false
    | _, _ => (wb1, 0, [], 0, 0)
  -- Step 5: Balance Sheet (with the fresh re-check against dates added by IS)
  let (wb3, bs_cells, log2, f2, nc2) :=
    match bs_export, bs_sheet with
    | some (_, xws), some sheet =>
        updateOneSheet wb2 sheet xws "bs" calculation_sheets
          extend_periods replace_all dry_run true
    | _, _ => (wb2, 0, [], 0, 0)
  -- Step 6: dependent sheets
  let cells_updated := is_cells + bs_cells
  let (wb4, f3, price) ←
    if 0 < cells_updated then do
      let (wbA, _) := sync_calculation_sheet_dates wb3 is_sheet bs_sheet calculation_sheets dry_run
      let (wbB, fx) := extend_calculation_sheet_formulas wbA is_sheet bs_sheet calculation_sheets dry_run
      let (wbC, pn) ← update_ncav_price_formulas wbB dry_run
      pure (wbC, fx, pn)
    else pure (wb3, 0, 0)
  -- Step 7: save
  let saved := !dry_run && (0 < cells_updated || 0 < sheets_renamed)
  let res : UpdateResultR :=
    { initUpdateResult with
      success := true
      backup_path_set := backed
      cells_updated := cells_updated
      is_cells_updated := is_cells
      bs_cells_updated := bs_cells
      new_columns_added := nc1 + nc2
      formulas_extended := f1 + f2 + f3
      sheets_renamed := sheets_renamed
      formula_refs_updated := formula_refs
      price_formulas_updated := price
      old_company_pfx := old_pfx
      new_company_pfx := new_pfx
      changes_log := log1 ++ log2 }
  return (res, wb4, saved)

/-! ## Remaining definitions used by the proofs -/

/-- The head of `l` (if any) fails predicate `p`. -/
def HeadNot (p : Char → Bool) : List Char → Prop
  | [] => True
  | c :: _ => p c = false

/-- The head of `l` (if any) differs from character `b`. -/
def HeadNe (b : Char) : List Char → Prop
  | [] => True
  | c :: _ => c ≠ b

/-! ## Concrete fixtures used by witnesses and counterexamples -/

/-- A demonstration formula for the rewrite claim, as tokens:
`=D3*$C$3+almedio_bs!D12+C7:D7`. -/
def c1DemoToks : List FTok :=
  [.sep '=', .rel 4 3, .sep '*', .abs 3 3, .sep '+',
   .sheet "almedio_bs".data 4 12, .sep '+', .rng 3 7 4 7]

/-- A sheet whose cell C3 divides A1 (5.0) by B1 (0.0). -/
def wsC7 : Ws := fun r c =>
  if r = 1 ∧ c = 1 then .float 5
  else if r = 1 ∧ c = 2 then .float 0
  else if r = 3 ∧ c = 1 then .str "=A1/B1"
  else .none

def wbC7 : Workbook := [("s", wsC7)]

/-- A sheet whose cell A1 holds a NUMBERVALUE formula whose argument
contains two exclamation marks, so that `ref.split('!')` has three
parts. -/
def wsC7e : Ws := fun r c =>
  if r = 1 ∧ c = 1 then .str "=_xlfn.NUMBERVALUE(a!b!c)" else .none

def wbC7e : Workbook := [("e", wsC7e)]

/-- A raw-data sheet holding a single formula cell at D12, for the
formula-preservation witness. -/
def wsC3 : Ws := fun r c => if r = 12 ∧ c = 4 then .str "=D5" else .none

/-- Full-replace counterexample, existing sheet: its only label, `cash`,
sits in row 60. -/
def wsC10e : Ws := fun r c => if r = 60 ∧ c = 3 then .str "cash" else .none

/-- Full-replace counterexample, export sheet: label `cash` in row 12 with
value 7 in column D, one date and one period code. -/
def wsC10x : Ws := fun r c =>
  if r = 12 ∧ c = 3 then .str "cash"
  else if r = 12 ∧ c = 4 then .int 7
  else if r = 10 ∧ c = 4 then .str "2023-06-30"
  else if r = 8 ∧ c = 4 then .str "Q2 2023"
  else .none

/-- The empty worksheet. -/
def blankWs : Ws := fun _ _ => .none

/-- Rename-scenario calculation sheet: one formula referencing both raw
sheets in their stored (lowercase) spelling. -/
def wsCalcC5 : Ws := fun r c =>
  if r = 1 ∧ c = 1 then .str "=acme_is!D5/acme_bs!D10" else .none

def wbC5 : Workbook := [("acme_is", blankWs), ("acme_bs", blankWs), ("calc", wsCalcC5)]

/-- The rename map detected for prefix `acme` renamed to `acme2`. -/
def rmC5 : List (String × String) := [("acme_is", "acme2_IS"), ("acme_bs", "acme2_bs")]

/-- Rename counterexample: a formula referencing the IS sheet in UPPER
case, which the rewrite does not match. -/
def wsCalcC5e : Ws := fun r c =>
  if r = 1 ∧ c = 1 then .str "=ACME_IS!D5" else .none

def wbC5e : Workbook := [("acme_is", blankWs), ("acme_bs", blankWs), ("calc", wsCalcC5e)]

/-- Abort-scenario workbook: the IS sheet expects label `revenue` in
row 12. -/
def wsC9is : Ws := fun r c => if r = 12 ∧ c = 3 then .str "revenue" else .none

def wbC9 : Workbook := [("a_IS", wsC9is), ("a_bs", fun _ _ => .none)]

/-- An empty export sheet: it is missing the expected row 12. -/
def xwsC9 : Ws := fun _ _ => .none

/-- The structure snapshot of `wbC9`. -/
def stC9 : WorkbookStructureR :=
  { company_name := .str "", is_sheet_name := "a_IS", bs_sheet_name := "a_bs",
    is_row_labels := [(12, "revenue")], bs_row_labels := [],
    is_column_dates := [], bs_column_dates := [],
    is_period_codes := [], bs_period_codes := [] }

/-- Period-extension scenario, raw-data sheet: dates 2023-06-30 (col D)
and 2023-12-31 (col E), one label row (`cash`, row 12). -/
def wsC2raw : Ws := fun r c =>
  if r = 10 ∧ c = 4 then .str "2023-06-30"
  else if r = 10 ∧ c = 5 then .str "2023-12-31"
  else if r = 8 ∧ c = 4 then .str "Q2"
  else if r = 8 ∧ c = 5 then .str "Q4"
  else if r = 12 ∧ c = 3 then .str "cash"
  else if r = 12 ∧ c = 4 then .int 1
  else if r = 12 ∧ c = 5 then .int 2
  else .none

/-- Period-extension scenario, calculation sheet `ncav`: date headers in
row 1 and the dependent formula `=D5-D4` in its last (column-E) cell. -/
def wsC2ncav : Ws := fun r c =>
  if r = 1 ∧ c = 4 then .str "2023-06-30"
  else if r = 1 ∧ c = 5 then .str "2023-12-31"
  else if r = 5 ∧ c = 5 then .str "=D5-D4"
  else .none

def wbC2 : Workbook := [("raw", wsC2raw), ("ncav", wsC2ncav)]

/-- Period-extension scenario, export sheet: the two existing dates plus
the new 2024-06-30 in column F, values in the label row and — for the
counterexample — in rows 4 and 5 of the new column. -/
def xwsC2 : Ws := fun r c =>
  if r = 10 ∧ c = 4 then .str "2023-06-30"
  else if r = 10 ∧ c = 5 then .str "2023-12-31"
  else if r = 10 ∧ c = 6 then .str "2024-06-30"
  else if r = 8 ∧ c = 6 then .str "Q2 24"
  else if r = 12 ∧ c = 3 then .str "cash"
  else if r = 12 ∧ c = 4 then .int 1
  else if r = 12 ∧ c = 5 then .int 2
  else if r = 12 ∧ c = 6 then .int 3
  else if r = 4 ∧ c = 6 then .int 44
  else if r = 5 ∧ c = 6 then .int 55
  else .none

/-! # Theorems -/

/-! ## Character-class facts -/

theorem upper_word {c : Char} (h : isUpperC c = true) : isWordC c = true := by
  simp [isWordC, h]

theorem digit_word {c : Char} (h : isDigitC c = true) : isWordC c = true := by
  simp [isWordC, h]

theorem digit_not_upper {c : Char} (h : isDigitC c = true) : isUpperC c = false := by
  simp only [isDigitC, Bool.and_eq_true, decide_eq_true_eq] at h
  simp only [isUpperC, Bool.and_eq_false_iff, decide_eq_false_iff_not]
  omega

theorem sepOK_cases {c : Char} (h : sepOK c = true) :
    c = '=' ∨ c = '(' ∨ c = ')' ∨ c = '+' ∨ c = '-' ∨ c = '*' ∨ c = '/' ∨ c = ',' ∨ c = ' ' := by
  simp only [sepOK, Bool.or_eq_true, beq_iff_eq] at h
  tauto

theorem sep_not_word {c : Char} (h : sepOK c = true) : isWordC c = false := by
  rcases sepOK_cases h with rfl | rfl | rfl | rfl | rfl | rfl | rfl | rfl | rfl <;> decide

theorem sep_not_upper {c : Char} (h : sepOK c = true) : isUpperC c = false := by
  rcases sepOK_cases h with rfl | rfl | rfl | rfl | rfl | rfl | rfl | rfl | rfl <;> decide

theorem sep_not_digit {c : Char} (h : sepOK c = true) : isDigitC c = false := by
  rcases sepOK_cases h with rfl | rfl | rfl | rfl | rfl | rfl | rfl | rfl | rfl <;> decide

theorem sep_ne_bang {c : Char} (h : sepOK c = true) : c ≠ '!' := by
  rcases sepOK_cases h with rfl | rfl | rfl | rfl | rfl | rfl | rfl | rfl | rfl <;> decide

theorem sep_ne_colon {c : Char} (h : sepOK c = true) : c ≠ ':' := by
  rcases sepOK_cases h with rfl | rfl | rfl | rfl | rfl | rfl | rfl | rfl | rfl <;> decide

theorem sep_allowPre {c : Char} (h : sepOK c = true) : allowPre c = true := by
  rcases sepOK_cases h with rfl | rfl | rfl | rfl | rfl | rfl | rfl | rfl | rfl <;> decide

theorem sheetChar_word {c : Char} (h : sheetChar c = true) : isWordC c = true := by
  simp only [sheetChar, Bool.or_eq_true, beq_iff_eq] at h
  rcases h with (h | h) | rfl
  · simp [isWordC, h]
  · simp [isWordC, h]
  · decide

theorem sheetChar_not_upper {c : Char} (h : sheetChar c = true) : isUpperC c = false := by
  simp only [sheetChar, Bool.or_eq_true, beq_iff_eq] at h
  rcases h with (h | h) | rfl
  · simp only [isLowerC, Bool.and_eq_true, decide_eq_true_eq] at h
    simp only [isUpperC, Bool.and_eq_false_iff, decide_eq_false_iff_not]
    omega
  · exact digit_not_upper h
  · decide

/-! ## takeWhile / dropWhile on explicit runs -/

theorem tw_run {p : Char → Bool} :
    ∀ {w rest : List Char}, (∀ c ∈ w, p c = true) → HeadNot p rest →
      (w ++ rest).takeWhile p = w := by
  intro w
  induction w with
  | nil =>
      intro rest _ hr
      cases rest with
      | nil => rfl
      | cons c cs =>
          have hc : p c = false := hr
          simp [List.takeWhile_cons, hc]
  | cons c w' ih =>
      intro rest hw hr
      have hc : p c = true := hw c (by simp)
      simp [List.takeWhile_cons, hc, ih (fun d hd => hw d (by simp [hd])) hr]

theorem dw_run {p : Char → Bool} :
    ∀ {w rest : List Char}, (∀ c ∈ w, p c = true) → HeadNot p rest →
      (w ++ rest).dropWhile p = rest := by
  intro w
  induction w with
  | nil =>
      intro rest _ hr
      cases rest with
      | nil => rfl
      | cons c cs => simp [List.dropWhile_cons, show p c = false from hr]
  | cons c w' ih =>
      intro rest hw hr
      have hc : p c = true := hw c (by simp)
      simp [List.dropWhile_cons, hc, ih (fun d hd => hw d (by simp [hd])) hr]

/-! ## Column letters and digit strings -/

theorem upChar_upper (r : Nat) : isUpperC (upChar r) = true := by
  have h : r % 26 < 26 := Nat.mod_lt _ (by decide)
  unfold upChar
  set k := r % 26 with hk
  clear_value k
  interval_cases k <;> decide

def letterIdx (c : Char) : Nat := c.toNat - 65

theorem upChar_decode (r : Nat) : letterIdx (upChar r) = r % 26 := by
  have h : r % 26 < 26 := Nat.mod_lt _ (by decide)
  unfold upChar
  set k := r % 26 with hk
  clear_value k
  interval_cases k <;> decide

theorem colLettersAux_congr : ∀ f1 f2 n, n ≤ f1 → n ≤ f2 →
    colLettersAux f1 n = colLettersAux f2 n := by
  intro f1
  induction f1 with
  | zero =>
      intro f2 n h1 _
      have : n = 0 := Nat.le_zero.mp h1
      subst this
      cases f2 <;> rfl
  | succ f ih =>
      intro f2 n h1 h2
      cases n with
      | zero => cases f2 <;> rfl
      | succ m =>
          cases f2 with
          | zero => omega
          | succ g =>
              show colLettersAux f (m / 26) ++ [upChar m]
                  = colLettersAux g (m / 26) ++ [upChar m]
              have hm : m / 26 ≤ m := Nat.div_le_self m 26
              rw [ih g (m / 26) (by omega) (by omega)]

theorem colLetters_succ (n : Nat) :
    colLetters (n + 1) = colLetters (n / 26) ++ [upChar n] := by
  show colLettersAux n (n / 26) ++ [upChar n] = colLettersAux (n / 26) (n / 26) ++ [upChar n]
  have hm : n / 26 ≤ n := Nat.div_le_self n 26
  rw [colLettersAux_congr n (n / 26) (n / 26) hm le_rfl]

theorem colLetters_upper : ∀ n, ∀ c ∈ colLetters n, isUpperC c = true := by
  intro n
  induction n using Nat.strong_induction_on with
  | _ n ih =>
      cases n with
      | zero => intro c hc; simp [colLetters, colLettersAux] at hc
      | succ m =>
          intro c hc
          rw [colLetters_succ] at hc
          rcases List.mem_append.mp hc with h | h
          · exact ih (m / 26) (by have := Nat.div_le_self m 26; omega) c h
          · simp at h
            simpa [h] using upChar_upper m

theorem colLetters_ne_nil {n : Nat} (h : 1 ≤ n) : colLetters n ≠ [] := by
  cases n with
  | zero => omega
  | succ m => rw [colLetters_succ]; simp

theorem colLetters_inj : ∀ m n, colLetters m = colLetters n → m = n := by
  intro m
  induction m using Nat.strong_induction_on with
  | _ m ih =>
      intro n h
      cases m with
      | zero =>
          cases n with
          | zero => rfl
          | succ k =>
              rw [show colLetters 0 = [] from rfl] at h
              exact absurd h.symm (colLetters_ne_nil (show 1 ≤ k + 1 by omega))
      | succ j =>
          cases n with
          | zero =>
              rw [show colLetters 0 = [] from rfl] at h
              exact absurd h (colLetters_ne_nil (show 1 ≤ j + 1 by omega))
          | succ k =>
              rw [colLetters_succ, colLetters_succ] at h
              have hlen : (colLetters (j / 26)).length = (colLetters (k / 26)).length := by
                have := congrArg List.length h
                simpa using this
              obtain ⟨h1, h2⟩ := List.append_inj h hlen
              have hmod : j % 26 = k % 26 := by
                have := congrArg letterIdx (List.head_eq_of_cons_eq h2)
                simpa [upChar_decode] using this
              have hdiv : j / 26 = k / 26 := ih (j / 26)
                (by have := Nat.div_le_self j 26; omega) (k / 26) h1
              omega

theorem digitChar_digit (d : Nat) : isDigitC (digitChar d) = true := by
  have h : d % 10 < 10 := Nat.mod_lt _ (by decide)
  unfold digitChar
  set k := d % 10 with hk
  clear_value k
  interval_cases k <;> decide

theorem natDigitsCore_acc : ∀ f n acc,
    natDigitsCore f n acc = natDigitsCore f n [] ++ acc := by
  intro f
  induction f with
  | zero => intro n acc; rfl
  | succ f ih =>
      intro n acc
      cases n with
      | zero => rfl
      | succ m =>
          show natDigitsCore f ((m + 1) / 10) (digitChar ((m + 1) % 10) :: acc)
              = natDigitsCore f ((m + 1) / 10) [digitChar ((m + 1) % 10)] ++ acc
          rw [ih ((m + 1) / 10) (digitChar ((m + 1) % 10) :: acc),
            ih ((m + 1) / 10) [digitChar ((m + 1) % 10)]]
          simp

theorem natDigits_ne_nil (n : Nat) : natDigits n ≠ [] := by
  unfold natDigits
  by_cases h : n = 0
  · simp [h]
  · simp only [h, if_false]
    cases n with
    | zero => omega
    | succ m =>
        show natDigitsCore m ((m + 1) / 10) [digitChar ((m + 1) % 10)] ≠ []
        rw [natDigitsCore_acc]
        simp

theorem natDigits_digit : ∀ n, ∀ c ∈ natDigits n, isDigitC c = true := by
  have core : ∀ f n acc, (∀ c ∈ acc, isDigitC c = true) →
      ∀ c ∈ natDigitsCore f n acc, isDigitC c = true := by
    intro f
    induction f with
    | zero => intro n acc hacc c hc; exact hacc c hc
    | succ f ih =>
        intro n acc hacc c hc
        cases n with
        | zero => exact hacc c hc
        | succ m =>
            refine ih ((m + 1) / 10) _ ?_ c hc
            intro d hd
            rcases List.mem_cons.mp hd with rfl | hd'
            · exact digitChar_digit _
            · exact hacc d hd'
  intro n c hc
  unfold natDigits at hc
  by_cases h : n = 0
  · simp [h] at hc; simpa [hc] using (by decide : isDigitC '0' = true)
  · exact core n n [] (by simp) c (by simpa [h] using hc)

/-! ## Pass-1 scanner lemmas -/

theorem dw_len_le (p : Char → Bool) : ∀ l : List Char, (l.dropWhile p).length ≤ l.length := by
  intro l
  induction l with
  | nil => simp
  | cons c cs ih =>
      rw [List.dropWhile_cons]
      by_cases h : p c = true
      · simp only [h, if_true]
        exact Nat.le_succ_of_le ih
      · simp [h]

theorem tryM1_rest_lt : ∀ {l : List Char} {m : M1}, tryM1 l = some m →
    m.rest.length < l.length := by
  intro l m h
  unfold tryM1 at h
  rcases hdw : l.dropWhile isWordC with _ | ⟨c, r2⟩ <;> rw [hdw] at h
  · simp at h
  · by_cases hc : c = '!'
    · subst hc
      simp only at h
      split at h
      · simp at h
      · rename_i hne
        obtain rfl := Option.some.inj h
        simp only
        have hl : l.takeWhile isWordC ++ l.dropWhile isWordC = l :=
          List.takeWhile_append_dropWhile isWordC l
        have h3 : (r2.dropWhile isUpperC).takeWhile isDigitC ++
            (r2.dropWhile isUpperC).dropWhile isDigitC = r2.dropWhile isUpperC :=
          List.takeWhile_append_dropWhile isDigitC (r2.dropWhile isUpperC)
        have hup : (r2.dropWhile isUpperC).length ≤ r2.length :=
          dw_len_le isUpperC r2
        have e1 := congrArg List.length hl
        have e3 := congrArg List.length h3
        rw [hdw] at e1
        simp only [List.length_append, List.length_cons] at e1 e3
        omega
    · exfalso
      revert h
      split <;> simp_all

theorem pass1Aux_congr (sL tL : List Char) :
    ∀ f1 f2 l, l.length ≤ f1 → l.length ≤ f2 →
      pass1Aux sL tL f1 l = pass1Aux sL tL f2 l := by
  intro f1
  induction f1 with
  | zero =>
      intro f2 l h1 _
      have : l = [] := List.length_eq_zero.mp (Nat.le_zero.mp h1)
      subst this
      cases f2 <;> rfl
  | succ f ih =>
      intro f2 l h1 h2
      cases l with
      | nil => cases f2 <;> rfl
      | cons c cs =>
          cases f2 with
          | zero => simp at h2
          | succ g =>
              simp only [pass1Aux]
              rcases htm : tryM1 (c :: cs) with _ | m <;> dsimp only
              · have hcs : cs.length ≤ f := by simpa using Nat.le_of_succ_le_succ h1
                have hcs2 : cs.length ≤ g := by simpa using Nat.le_of_succ_le_succ h2
                rw [ih g cs hcs hcs2]
              · have hr := tryM1_rest_lt htm
                simp only [List.length_cons] at hr h1 h2
                rw [ih g m.rest (by omega) (by omega)]

theorem pass1_cons_none {sL tL : List Char} {c : Char} {cs : List Char}
    (h : tryM1 (c :: cs) = none) :
    pass1 sL tL (c :: cs) = c :: pass1 sL tL cs := by
  unfold pass1
  simp only [List.length_cons, pass1Aux, h]

theorem pass1_match {sL tL : List Char} {l : List Char} {m : M1}
    (h : tryM1 l = some m) :
    pass1 sL tL l = repl1 sL tL m ++ pass1 sL tL m.rest := by
  cases l with
  | nil => simp [tryM1] at h
  | cons c cs =>
      unfold pass1
      simp only [List.length_cons, pass1Aux, h]
      congr 1
      have := tryM1_rest_lt h
      simp only [List.length_cons] at this
      exact pass1Aux_congr sL tL cs.length m.rest.length m.rest (by omega) le_rfl

theorem pass1_skip {sL tL : List Char} :
    ∀ {u rest : List Char}, (∀ v, v ≠ [] → v <:+ u → tryM1 (v ++ rest) = none) →
      pass1 sL tL (u ++ rest) = u ++ pass1 sL tL rest := by
  intro u
  induction u with
  | nil => intro rest _; simp
  | cons c u' ih =>
      intro rest h
      have h0 : tryM1 (c :: (u' ++ rest)) = none := by
        have := h (c :: u') (by simp) (List.suffix_refl _)
        simpa using this
      rw [List.cons_append, pass1_cons_none h0,
        ih (fun v hv hs => h v hv (hs.trans (List.suffix_cons c u')))]
      simp

theorem suffix_append_cases {v a b : List Char} (h : v <:+ a ++ b) :
    v <:+ b ∨ ∃ a', a' <:+ a ∧ a' ≠ [] ∧ v = a' ++ b := by
  obtain ⟨p, hp⟩ := h
  rcases List.append_eq_append_iff.mp hp with ⟨a', ha1, ha2⟩ | ⟨c', hc1, hc2⟩
  · rcases a' with _ | ⟨x, xs⟩
    · left; simpa using ha2.symm ▸ List.suffix_refl b
    · right
      exact ⟨x :: xs, ⟨p, ha1.symm⟩, by simp, ha2⟩
  · left
    exact ⟨c', hc2.symm⟩

theorem tryM1_none_notword {c : Char} {cs : List Char} (h : isWordC c = false) :
    tryM1 (c :: cs) = none := by
  unfold tryM1
  rw [List.dropWhile_cons]
  simp only [h, Bool.false_eq_true, if_false]
  split
  · rename_i r2 heq
    have hc : c = '!' := List.head_eq_of_cons_eq heq
    subst hc
    simp [List.takeWhile_cons, h]
  · rfl

theorem tryM1_none_wordrun {w rest : List Char}
    (hall : ∀ c ∈ w, isWordC c = true) (h1 : HeadNot isWordC rest)
    (h2 : HeadNe '!' rest) : tryM1 (w ++ rest) = none := by
  unfold tryM1
  rw [dw_run hall h1]
  cases rest with
  | nil => rfl
  | cons d ds =>
      have hd : d ≠ '!' := h2
      split
      · rename_i r2 heq
        exact absurd (List.head_eq_of_cons_eq heq) hd
      · rfl

theorem tryM1_some_sheet {n L D rest : List Char}
    (hn : n ≠ []) (hnall : ∀ c ∈ n, isWordC c = true)
    (hL : L ≠ []) (hLall : ∀ c ∈ L, isUpperC c = true)
    (hD : D ≠ []) (hDall : ∀ c ∈ D, isDigitC c = true)
    (hr : HeadNot isDigitC rest) :
    tryM1 (n ++ '!' :: (L ++ (D ++ rest))) = some ⟨n, L, D, rest⟩ := by
  have hw : (n ++ '!' :: (L ++ (D ++ rest))).takeWhile isWordC = n :=
    tw_run hnall (by simp [HeadNot]; decide)
  have hdw : (n ++ '!' :: (L ++ (D ++ rest))).dropWhile isWordC = '!' :: (L ++ (D ++ rest)) :=
    dw_run hnall (by simp [HeadNot]; decide)
  have hupD : HeadNot isUpperC (D ++ rest) := by
    cases D with
    | nil => exact absurd rfl hD
    | cons d ds =>
        simp only [List.cons_append, HeadNot]
        exact digit_not_upper (hDall d (by simp))
  have hcl : (L ++ (D ++ rest)).takeWhile isUpperC = L := tw_run hLall hupD
  have hcldw : (L ++ (D ++ rest)).dropWhile isUpperC = D ++ rest := dw_run hLall hupD
  have hdg : (D ++ rest).takeWhile isDigitC = D := tw_run hDall hr
  have hdgdw : (D ++ rest).dropWhile isDigitC = rest := dw_run hDall hr
  unfold tryM1
  rw [hw, hdw]
  simp only [hcl, hcldw, hdg, hdgdw]
  simp [hn, hL, hD]

/-! ## Render facts -/

theorem renderL_nil : renderL [] = [] := rfl

theorem renderL_cons (t : FTok) (ts : List FTok) :
    renderL (t :: ts) = renderT t ++ renderL ts := by
  simp [renderL]

theorem wfT_render_sepLed {ts : List FTok} (h : WfT ts) :
    renderL ts = [] ∨ ∃ d r, renderL ts = d :: r ∧ sepOK d = true := by
  cases h with
  | nil => left; rfl
  | sep c ts hc hts =>
      right
      exact ⟨c, renderL ts, by simp [renderL_cons, renderT], hc⟩
  | ref c t ts hc ht hts =>
      right
      exact ⟨c, renderT t ++ renderL ts, by simp [renderL_cons, renderT], hc⟩

theorem sepLed_heads {l : List Char}
    (h : l = [] ∨ ∃ d r, l = d :: r ∧ sepOK d = true) :
    HeadNot isWordC l ∧ HeadNot isUpperC l ∧ HeadNot isDigitC l ∧
      HeadNe '!' l ∧ HeadNe ':' l := by
  rcases h with rfl | ⟨d, r, rfl, hd⟩
  · exact ⟨trivial, trivial, trivial, trivial, trivial⟩
  · exact ⟨sep_not_word hd, sep_not_upper hd, sep_not_digit hd,
      sep_ne_bang hd, sep_ne_colon hd⟩

theorem suffix_all {v u : List Char} {p : Char → Bool} (hs : v <:+ u)
    (hall : ∀ c ∈ u, p c = true) : ∀ c ∈ v, p c = true :=
  fun c hc => hall c (hs.subset hc)

theorem colLetters_word {n : Nat} : ∀ c ∈ colLetters n, isWordC c = true :=
  fun c hc => upper_word (colLetters_upper n c hc)

theorem natDigits_word {n : Nat} : ∀ c ∈ natDigits n, isWordC c = true :=
  fun c hc => digit_word (natDigits_digit n c hc)

theorem colNat_word {a b : Nat} : ∀ c ∈ colLetters a ++ natDigits b, isWordC c = true := by
  intro c hc
  rcases List.mem_append.mp hc with h | h
  · exact colLetters_word c h
  · exact natDigits_word c h

/-! ## Pass 1 on well-formed token lists -/

theorem pass1_hom (src tgt : Nat) :
    ∀ {toks : List FTok}, WfT toks →
      pass1 (colLetters src) (colLetters tgt) (renderL toks)
        = renderL (toks.map (shift1 src tgt)) := by
  intro toks h
  induction h with
  | nil => rfl
  | sep c ts hc hts ih =>
      rw [renderL_cons, show renderT (.sep c) = [c] from rfl, List.singleton_append,
        pass1_cons_none (tryM1_none_notword (sep_not_word hc)), ih]
      simp [renderL_cons, shift1, renderT]
  | ref c t ts hc ht hts ih =>
      have hheads := sepLed_heads (wfT_render_sepLed hts)
      rw [renderL_cons, show renderT (.sep c) = [c] from rfl, List.singleton_append,
        renderL_cons, pass1_cons_none (tryM1_none_notword (sep_not_word hc))]
      have goalR : renderL ((FTok.sep c :: t :: ts).map (shift1 src tgt))
          = c :: (renderT (shift1 src tgt t) ++ renderL (ts.map (shift1 src tgt))) := by
        simp [renderL_cons, shift1, renderT]
      rw [goalR]
      cases t with
      | sep d => simp [refOK] at ht
      | rel col row =>
          rw [pass1_skip (fun v hv hs => by
            have hall : ∀ x ∈ v, isWordC x = true := by
              refine suffix_all hs ?_
              intro x hx
              rcases List.mem_append.mp hx with hx | hx
              · exact colLetters_word x hx
              · exact natDigits_word x hx
            exact tryM1_none_wordrun hall hheads.1 hheads.2.2.2.1), ih]
          simp [shift1, renderT]
      | abs col row =>
          have habs : renderT (FTok.abs col row)
              = ('$' :: colLetters col) ++ ('$' :: natDigits row) := by
            simp [renderT]
          rw [habs, pass1_skip (fun v hv hs => ?_), ih]
          · simp [shift1, renderT]
          · rcases suffix_append_cases hs with hvB | ⟨a', ha', hane, rfl⟩
            · rcases List.suffix_cons_iff.mp hvB with rfl | hvD
              · exact tryM1_none_notword (by decide)
              · cases v with
                | nil => exact absurd rfl hv
                | cons d ds =>
                    exact tryM1_none_wordrun
                      (suffix_all hvD natDigits_word) hheads.1 hheads.2.2.2.1
            · rcases List.suffix_cons_iff.mp ha' with rfl | haL
              · exact tryM1_none_notword (by decide)
              · have : (a' ++ ('$' :: natDigits row)) ++ renderL ts
                    = a' ++ ('$' :: (natDigits row ++ renderL ts)) := by simp
                rw [this]
                exact tryM1_none_wordrun
                  (fun x hx => upper_word (suffix_all haL (colLetters_upper col) x hx))
                  (by simp [HeadNot]; decide) (by simp [HeadNe])
      | sheet n col row =>
          have hok : (1 ≤ col ∧ n ≠ []) ∧ ∀ x ∈ n, sheetChar x = true := by
            simpa [refOK, Bool.and_eq_true, List.all_eq_true] using ht
          have hshape : renderT (FTok.sheet n col row) ++ renderL ts
              = n ++ '!' :: (colLetters col ++ (natDigits row ++ renderL ts)) := by
            simp [renderT]
          rw [hshape, pass1_match (tryM1_some_sheet hok.1.2
            (fun x hx => sheetChar_word (hok.2 x hx))
            (colLetters_ne_nil hok.1.1) (colLetters_upper col)
            (natDigits_ne_nil row) (natDigits_digit row) hheads.2.2.1), ih]
          simp only [repl1, shift1, renderT]
          by_cases hcs : col = src
          · subst hcs
            simp
          · have : colLetters col ≠ colLetters src := fun he => hcs (colLetters_inj _ _ he)
            simp [this, hcs]
      | rng c1 r1 c2 r2 =>
          have hshape : renderT (FTok.rng c1 r1 c2 r2)
              = (colLetters c1 ++ natDigits r1) ++
                  (':' :: (colLetters c2 ++ natDigits r2)) := by
            simp [renderT]
          rw [hshape, pass1_skip (fun v hv hs => ?_), ih]
          · simp [shift1, renderT]
          · rcases suffix_append_cases hs with hvB | ⟨a', ha', hane, rfl⟩
            · rcases List.suffix_cons_iff.mp hvB with rfl | hvW
              · exact tryM1_none_notword (by decide)
              · exact tryM1_none_wordrun (suffix_all hvW colNat_word)
                  hheads.1 hheads.2.2.2.1
            · have hsh : (a' ++ (':' :: (colLetters c2 ++ natDigits r2))) ++ renderL ts
                  = a' ++ (':' :: (colLetters c2 ++ natDigits r2 ++ renderL ts)) := by
                simp
              rw [hsh]
              exact tryM1_none_wordrun (suffix_all ha' colNat_word)
                (by simp [HeadNot]; decide) (by simp [HeadNe])

/-! ## Pass-2 scanner lemmas -/

theorem colIte (a src tgt : Nat) :
    (if colLetters a = colLetters src then colLetters tgt else colLetters a)
      = colLetters (if a = src then tgt else a) := by
  by_cases h : a = src
  · subst h; simp
  · have : colLetters a ≠ colLetters src := fun he => h (colLetters_inj _ _ he)
    simp [this, h]

theorem tryM2_rest_lt : ∀ {l : List Char} {m : M2}, tryM2 l = some m →
    m.rest.length < l.length := by
  intro l m h
  unfold tryM2 at h
  dsimp only at h
  rcases hdw : (l.dropWhile isUpperC).dropWhile isDigitC with _ | ⟨c, r3⟩ <;> rw [hdw] at h
  · simp at h
  · by_cases hc : c = ':'
    · subst hc
      simp only at h
      split at h
      · simp at h
      · obtain rfl := Option.some.inj h
        simp only
        have e1 := congrArg List.length (List.takeWhile_append_dropWhile isUpperC l)
        have e2 := congrArg List.length
          (List.takeWhile_append_dropWhile isDigitC (l.dropWhile isUpperC))
        have e3 := congrArg List.length (List.takeWhile_append_dropWhile isUpperC r3)
        have e4 := congrArg List.length
          (List.takeWhile_append_dropWhile isDigitC (r3.dropWhile isUpperC))
        have h5 : (r3.dropWhile isUpperC).length ≤ r3.length := dw_len_le _ _
        rw [hdw] at e2
        simp only [List.length_append, List.length_cons] at e1 e2 e3 e4
        omega
    · exfalso
      revert h
      split <;> simp_all

theorem pass2Aux_congr (sL tL : List Char) :
    ∀ f1 f2 l, l.length ≤ f1 → l.length ≤ f2 →
      pass2Aux sL tL f1 l = pass2Aux sL tL f2 l := by
  intro f1
  induction f1 with
  | zero =>
      intro f2 l h1 _
      have : l = [] := List.length_eq_zero.mp (Nat.le_zero.mp h1)
      subst this
      cases f2 <;> rfl
  | succ f ih =>
      intro f2 l h1 h2
      cases l with
      | nil => cases f2 <;> rfl
      | cons c cs =>
          cases f2 with
          | zero => simp at h2
          | succ g =>
              simp only [pass2Aux]
              rcases htm : tryM2 (c :: cs) with _ | m <;> dsimp only
              · have hcs : cs.length ≤ f := by simpa using Nat.le_of_succ_le_succ h1
                have hcs2 : cs.length ≤ g := by simpa using Nat.le_of_succ_le_succ h2
                rw [ih g cs hcs hcs2]
              · have hr := tryM2_rest_lt htm
                simp only [List.length_cons] at hr h1 h2
                rw [ih g m.rest (by omega) (by omega)]

theorem pass2_cons_none {sL tL : List Char} {c : Char} {cs : List Char}
    (h : tryM2 (c :: cs) = none) :
    pass2 sL tL (c :: cs) = c :: pass2 sL tL cs := by
  unfold pass2
  simp only [List.length_cons, pass2Aux, h]

theorem pass2_match {sL tL : List Char} {l : List Char} {m : M2}
    (h : tryM2 l = some m) :
    pass2 sL tL l = repl2 sL tL m ++ pass2 sL tL m.rest := by
  cases l with
  | nil => simp [tryM2] at h
  | cons c cs =>
      unfold pass2
      simp only [List.length_cons, pass2Aux, h]
      congr 1
      have := tryM2_rest_lt h
      simp only [List.length_cons] at this
      exact pass2Aux_congr sL tL cs.length m.rest.length m.rest (by omega) le_rfl

theorem pass2_skip {sL tL : List Char} :
    ∀ {u rest : List Char}, (∀ v, v ≠ [] → v <:+ u → tryM2 (v ++ rest) = none) →
      pass2 sL tL (u ++ rest) = u ++ pass2 sL tL rest := by
  intro u
  induction u with
  | nil => intro rest _; simp
  | cons c u' ih =>
      intro rest h
      have h0 : tryM2 (c :: (u' ++ rest)) = none := by
        have := h (c :: u') (by simp) (List.suffix_refl _)
        simpa using this
      rw [List.cons_append, pass2_cons_none h0,
        ih (fun v hv hs => h v hv (hs.trans (List.suffix_cons c u')))]
      simp

theorem tryM2_none_notupper : ∀ {l : List Char}, HeadNot isUpperC l → tryM2 l = none := by
  intro l h
  have hc1 : l.takeWhile isUpperC = [] := by
    cases l with
    | nil => rfl
    | cons c cs =>
        have : isUpperC c = false := h
        simp [List.takeWhile_cons, this]
  unfold tryM2
  dsimp only
  split
  · simp [hc1]
  · rfl

theorem tryM2_none_up {U rest : List Char}
    (hU : ∀ c ∈ U, isUpperC c = true) (h1 : HeadNot isUpperC rest)
    (h2 : HeadNot isDigitC rest) : tryM2 (U ++ rest) = none := by
  have hd1 : rest.takeWhile isDigitC = [] := by
    cases rest with
    | nil => rfl
    | cons c cs =>
        have : isDigitC c = false := h2
        simp [List.takeWhile_cons, this]
  have hd2 : rest.dropWhile isDigitC = rest := by
    cases rest with
    | nil => rfl
    | cons c cs =>
        have : isDigitC c = false := h2
        simp [List.dropWhile_cons, this]
  unfold tryM2
  dsimp only
  rw [dw_run hU h1, hd2]
  split
  · simp [hd1]
  · rfl

theorem tryM2_none_updig {U D rest : List Char} (hD : D ≠ [])
    (hU : ∀ c ∈ U, isUpperC c = true) (hDall : ∀ c ∈ D, isDigitC c = true)
    (h1 : HeadNot isDigitC rest) (h2 : HeadNe ':' rest) :
    tryM2 (U ++ (D ++ rest)) = none := by
  have hupD : HeadNot isUpperC (D ++ rest) := by
    cases D with
    | nil => exact absurd rfl hD
    | cons d ds => exact digit_not_upper (hDall d (by simp))
  unfold tryM2
  dsimp only
  rw [dw_run hU hupD, dw_run hDall h1]
  cases rest with
  | nil => rfl
  | cons d ds =>
      have hd : d ≠ ':' := h2
      split
      · rename_i r3 heq
        exact absurd (List.head_eq_of_cons_eq heq) hd
      · rfl

theorem tryM2_some_rng {L1 D1 L2 D2 rest : List Char}
    (hL1 : L1 ≠ []) (hL1a : ∀ c ∈ L1, isUpperC c = true)
    (hD1 : D1 ≠ []) (hD1a : ∀ c ∈ D1, isDigitC c = true)
    (hL2 : L2 ≠ []) (hL2a : ∀ c ∈ L2, isUpperC c = true)
    (hD2 : D2 ≠ []) (hD2a : ∀ c ∈ D2, isDigitC c = true)
    (hr : HeadNot isDigitC rest) :
    tryM2 (L1 ++ (D1 ++ ':' :: (L2 ++ (D2 ++ rest))))
      = some ⟨L1, D1, L2, D2, rest⟩ := by
  have hupD1 : HeadNot isUpperC (D1 ++ ':' :: (L2 ++ (D2 ++ rest))) := by
    cases D1 with
    | nil => exact absurd rfl hD1
    | cons d ds => exact digit_not_upper (hD1a d (by simp))
  have hdigC : HeadNot isDigitC (':' :: (L2 ++ (D2 ++ rest))) := by
    show isDigitC ':' = false
    decide
  have hupD2 : HeadNot isUpperC (D2 ++ rest) := by
    cases D2 with
    | nil => exact absurd rfl hD2
    | cons d ds => exact digit_not_upper (hD2a d (by simp))
  unfold tryM2
  dsimp only
  rw [dw_run hL1a hupD1, dw_run hD1a hdigC]
  simp only
  rw [tw_run hL1a hupD1, tw_run hD1a hdigC, tw_run hL2a hupD2, dw_run hL2a hupD2,
    tw_run hD2a hr, dw_run hD2a hr]
  simp [hL1, hD1, hL2, hD2]

/-! ## Pass 2 on well-formed token lists -/

theorem pass2_hom (src tgt : Nat) :
    ∀ {toks : List FTok}, WfT toks →
      pass2 (colLetters src) (colLetters tgt) (renderL toks)
        = renderL (toks.map (shift2 src tgt)) := by
  intro toks h
  induction h with
  | nil => rfl
  | sep c ts hc hts ih =>
      rw [renderL_cons, show renderT (.sep c) = [c] from rfl, List.singleton_append,
        pass2_cons_none (tryM2_none_notupper (show HeadNot isUpperC (c :: renderL ts)
          from sep_not_upper hc)), ih]
      simp [renderL_cons, shift2, renderT]
  | ref c t ts hc ht hts ih =>
      have hheads := sepLed_heads (wfT_render_sepLed hts)
      rw [renderL_cons, show renderT (.sep c) = [c] from rfl, List.singleton_append,
        renderL_cons, pass2_cons_none (tryM2_none_notupper
          (show HeadNot isUpperC (c :: (renderT t ++ renderL ts)) from sep_not_upper hc))]
      have goalR : renderL ((FTok.sep c :: t :: ts).map (shift2 src tgt))
          = c :: (renderT (shift2 src tgt t) ++ renderL (ts.map (shift2 src tgt))) := by
        simp [renderL_cons, shift2, renderT]
      rw [goalR]
      cases t with
      | sep d => simp [refOK] at ht
      | rel col row =>
          rw [show renderT (FTok.rel col row) = colLetters col ++ natDigits row from rfl,
            pass2_skip (fun v hv hs => ?_), ih]
          · simp [shift2, renderT]
          · rcases suffix_append_cases hs with hvD | ⟨a', ha', hane, rfl⟩
            · cases v with
              | nil => exact absurd rfl hv
              | cons d ds =>
                  refine tryM2_none_notupper ?_
                  show isUpperC d = false
                  exact digit_not_upper (natDigits_digit row d (hvD.subset (by simp)))
            · have hsh : (a' ++ natDigits row) ++ renderL ts
                  = a' ++ (natDigits row ++ renderL ts) := by simp
              rw [hsh]
              exact tryM2_none_updig (natDigits_ne_nil row)
                (suffix_all ha' (colLetters_upper col)) (natDigits_digit row)
                hheads.2.2.1 hheads.2.2.2.2
      | abs col row =>
          have habs : renderT (FTok.abs col row)
              = ('$' :: colLetters col) ++ ('$' :: natDigits row) := by
            simp [renderT]
          rw [habs, pass2_skip (fun v hv hs => ?_), ih]
          · simp [shift2, renderT]
          · rcases suffix_append_cases hs with hvB | ⟨a', ha', hane, rfl⟩
            · rcases List.suffix_cons_iff.mp hvB with rfl | hvD
              · refine tryM2_none_notupper ?_
                show isUpperC '$' = false
                decide
              · cases v with
                | nil => exact absurd rfl hv
                | cons d ds =>
                    refine tryM2_none_notupper ?_
                    show isUpperC d = false
                    exact digit_not_upper (natDigits_digit row d (hvD.subset (by simp)))
            · rcases List.suffix_cons_iff.mp ha' with rfl | haL
              · refine tryM2_none_notupper ?_
                show isUpperC '$' = false
                decide
              · have hsh : (a' ++ ('$' :: natDigits row)) ++ renderL ts
                    = a' ++ ('$' :: (natDigits row ++ renderL ts)) := by simp
                rw [hsh]
                refine tryM2_none_up (suffix_all haL (colLetters_upper col)) ?_ ?_
                · show isUpperC '$' = false
                  decide
                · show isDigitC '$' = false
                  decide
      | sheet n col row =>
          have hok : (1 ≤ col ∧ n ≠ []) ∧ ∀ x ∈ n, sheetChar x = true := by
            simpa [refOK, Bool.and_eq_true, List.all_eq_true] using ht
          have hsheet : renderT (FTok.sheet n col row)
              = n ++ ('!' :: (colLetters col ++ natDigits row)) := by
            simp [renderT]
          rw [hsheet, pass2_skip (fun v hv hs => ?_), ih]
          · simp [shift2, renderT]
          · rcases suffix_append_cases hs with hvB | ⟨a', ha', hane, rfl⟩
            · rcases List.suffix_cons_iff.mp hvB with rfl | hvLD
              · refine tryM2_none_notupper ?_
                show isUpperC '!' = false
                decide
              · rcases suffix_append_cases hvLD with hvD | ⟨b', hb', hbne, rfl⟩
                · cases v with
                  | nil => exact absurd rfl hv
                  | cons d ds =>
                      refine tryM2_none_notupper ?_
                      show isUpperC d = false
                      exact digit_not_upper (natDigits_digit row d (hvD.subset (by simp)))
                · have hsh : (b' ++ natDigits row) ++ renderL ts
                      = b' ++ (natDigits row ++ renderL ts) := by simp
                  rw [hsh]
                  exact tryM2_none_updig (natDigits_ne_nil row)
                    (suffix_all hb' (colLetters_upper col)) (natDigits_digit row)
                    hheads.2.2.1 hheads.2.2.2.2
            · cases a' with
              | nil => exact absurd rfl hane
              | cons x xs =>
                  refine tryM2_none_notupper ?_
                  show isUpperC x = false
                  exact sheetChar_not_upper (hok.2 x ((ha'.subset) (by simp)))
      | rng c1 r1 c2 r2 =>
          have hok : 1 ≤ c1 ∧ 1 ≤ c2 := by
            simpa [refOK, Bool.and_eq_true] using ht
          have hshape : renderT (FTok.rng c1 r1 c2 r2) ++ renderL ts
              = colLetters c1 ++ (natDigits r1 ++ ':' ::
                  (colLetters c2 ++ (natDigits r2 ++ renderL ts))) := by
            simp [renderT]
          rw [hshape, pass2_match (tryM2_some_rng
            (colLetters_ne_nil hok.1) (colLetters_upper c1)
            (natDigits_ne_nil r1) (natDigits_digit r1)
            (colLetters_ne_nil hok.2) (colLetters_upper c2)
            (natDigits_ne_nil r2) (natDigits_digit r2) hheads.2.2.1), ih]
          simp only [repl2, shift2, renderT, colIte]
          simp

/-! ## Pass-3 scanner lemmas -/

theorem coreM3_rest_lt : ∀ {l : List Char} {m : M3}, coreM3 l = some m →
    m.rest.length < l.length := by
  intro l m h
  unfold coreM3 at h
  dsimp only at h
  split at h
  · simp at h
  · rename_i hne
    have e1 := congrArg List.length (List.takeWhile_append_dropWhile isUpperC l)
    have e2 := congrArg List.length
      (List.takeWhile_append_dropWhile isDigitC (l.dropWhile isUpperC))
    simp only [List.length_append] at e1 e2
    have hclne : (l.takeWhile isUpperC).length ≠ 0 := by
      intro hz
      simp [List.length_eq_zero.mp hz] at hne
    have hdgne : ((l.dropWhile isUpperC).takeWhile isDigitC).length ≠ 0 := by
      intro hz
      simp [List.length_eq_zero.mp hz] at hne
    split at h
    · obtain rfl := Option.some.inj h
      simp only [List.length_nil]
      omega
    · rename_i c r2tail heq
      split at h
      · split at h
        · obtain rfl := Option.some.inj h
          simp only [List.length_cons]
          omega
        · simp at h
      · obtain rfl := Option.some.inj h
        simp only
        have := congrArg List.length heq
        simp only [List.length_cons] at this
        omega

theorem pass3Aux_congr (sL tL : List Char) :
    ∀ f1 f2 b l, l.length ≤ f1 → l.length ≤ f2 →
      pass3Aux sL tL b f1 l = pass3Aux sL tL b f2 l := by
  intro f1
  induction f1 with
  | zero =>
      intro f2 b l h1 _
      have : l = [] := List.length_eq_zero.mp (Nat.le_zero.mp h1)
      subst this
      cases f2 <;> rfl
  | succ f ih =>
      intro f2 b l h1 h2
      cases l with
      | nil => cases f2 <;> rfl
      | cons c cs =>
          cases f2 with
          | zero => simp at h2
          | succ g =>
              simp only [pass3Aux]
              rcases hst : (if b then coreM3 (c :: cs) else none) with _ | m <;> dsimp only
              · rcases hcr : coreM3 cs with _ | m' <;> dsimp only
                · by_cases hap : allowPre c
                  · simp only [hap, hcr]
                    rw [ih g false cs (by simpa using Nat.le_of_succ_le_succ h1)
                      (by simpa using Nat.le_of_succ_le_succ h2)]
                  · simp only [Bool.not_eq_true] at hap
                    simp only [hap, hcr]
                    rw [ih g false cs (by simpa using Nat.le_of_succ_le_succ h1)
                      (by simpa using Nat.le_of_succ_le_succ h2)]
                · by_cases hap : allowPre c
                  · simp only [hap, hcr]
                    have hr := coreM3_rest_lt hcr
                    simp only [List.length_cons] at h1 h2
                    rw [ih g false m'.rest (by omega) (by omega),
                      ih g false cs (by omega) (by omega)]
                  · simp only [Bool.not_eq_true] at hap
                    simp only [hap, hcr]
                    simp only [List.length_cons] at h1 h2
                    rw [ih g false m'.rest (by have := coreM3_rest_lt hcr; omega)
                        (by have := coreM3_rest_lt hcr; omega),
                      ih g false cs (by omega) (by omega)]
              · have hb : b = true := by
                  cases b
                  · simp at hst
                  · rfl
                subst hb
                simp only at hst
                have hr := coreM3_rest_lt hst
                simp only [List.length_cons] at h1 h2 hr
                rw [ih g false m.rest (by omega) (by omega)]

theorem pass3_eq_run {sL tL l} : pass3 sL tL l = pass3Run sL tL true l := rfl

theorem pass3Run_start_match {sL tL : List Char} {c : Char} {cs : List Char} {m : M3}
    (h : coreM3 (c :: cs) = some m) :
    pass3Run sL tL true (c :: cs) = repl3 sL tL m ++ pass3Run sL tL false m.rest := by
  unfold pass3Run
  have hlt := coreM3_rest_lt h
  simp only [List.length_cons] at hlt
  have hcg : pass3Aux sL tL false cs.length m.rest
      = pass3Aux sL tL false m.rest.length m.rest :=
    pass3Aux_congr sL tL cs.length m.rest.length false m.rest (by omega) le_rfl
  simp only [List.length_cons, pass3Aux, h, if_true, hcg]

theorem pass3Run_pre_match {sL tL : List Char} {b : Bool} {c : Char} {cs : List Char} {m : M3}
    (hb : b = true → coreM3 (c :: cs) = none) (hc : allowPre c = true)
    (h : coreM3 cs = some m) :
    pass3Run sL tL b (c :: cs) = c :: (repl3 sL tL m ++ pass3Run sL tL false m.rest) := by
  unfold pass3Run
  have hst : (if b = true then coreM3 (c :: cs) else none) = none := by
    cases b
    · rfl
    · simpa using hb rfl
  have hlt := coreM3_rest_lt h
  have hcg : pass3Aux sL tL false cs.length m.rest
      = pass3Aux sL tL false m.rest.length m.rest :=
    pass3Aux_congr sL tL cs.length m.rest.length false m.rest (by omega) le_rfl
  simp only [List.length_cons, pass3Aux, hst, hc, h, if_true, hcg]

theorem pass3Run_step {sL tL : List Char} {b : Bool} {c : Char} {cs : List Char}
    (hb : b = true → coreM3 (c :: cs) = none)
    (h : allowPre c = false ∨ coreM3 cs = none) :
    pass3Run sL tL b (c :: cs) = c :: pass3Run sL tL false cs := by
  unfold pass3Run
  have hst : (if b = true then coreM3 (c :: cs) else none) = none := by
    cases b
    · rfl
    · simpa using hb rfl
  simp only [List.length_cons, pass3Aux, hst]
  rcases h with h | h
  · simp only [h, Bool.false_eq_true, if_false]
  · simp only [h]
    split <;> rfl

theorem pass3_skip_chars {sL tL : List Char} :
    ∀ {u rest : List Char},
      (∀ x c y, u = x ++ c :: y → allowPre c = false ∨ coreM3 (y ++ rest) = none) →
      pass3Run sL tL false (u ++ rest) = u ++ pass3Run sL tL false rest := by
  intro u
  induction u with
  | nil => intro rest _; simp
  | cons c u' ih =>
      intro rest h
      have h0 := h [] c u' rfl
      rw [List.cons_append, pass3Run_step (fun hb => by simp at hb) h0,
        ih (fun x d y hxy => h (c :: x) d y (by simp [hxy]))]
      simp

theorem coreM3_none_notupper : ∀ {l : List Char}, HeadNot isUpperC l → coreM3 l = none := by
  intro l h
  have hc1 : l.takeWhile isUpperC = [] := by
    cases l with
    | nil => rfl
    | cons c cs =>
        have : isUpperC c = false := h
        simp [List.takeWhile_cons, this]
  unfold coreM3
  dsimp only
  simp [hc1]

theorem coreM3_some_ref {L D rest : List Char}
    (hL : L ≠ []) (hLa : ∀ c ∈ L, isUpperC c = true)
    (hD : D ≠ []) (hDa : ∀ c ∈ D, isDigitC c = true)
    (h1 : HeadNot isDigitC rest) (h2 : HeadNot isUpperC rest) :
    coreM3 (L ++ (D ++ rest)) = some ⟨L, D, rest⟩ := by
  have hupD : HeadNot isUpperC (D ++ rest) := by
    cases D with
    | nil => exact absurd rfl hD
    | cons d ds => exact digit_not_upper (hDa d (by simp))
  have hLe : L.isEmpty = false := by
    cases L with
    | nil => exact absurd rfl hL
    | cons a as => rfl
  have hDe : D.isEmpty = false := by
    cases D with
    | nil => exact absurd rfl hD
    | cons a as => rfl
  unfold coreM3
  dsimp only
  rw [tw_run hLa hupD, dw_run hLa hupD, tw_run hDa h1, dw_run hDa h1]
  simp only [hLe, hDe, Bool.or_self, Bool.false_eq_true, if_false]
  cases rest with
  | nil => rfl
  | cons d ds =>
      have : isUpperC d = false := h2
      simp [this]

theorem upper_not_allowPre {c : Char} (h : isUpperC c = true) : allowPre c = false := by
  simp [allowPre, h]

/-! ## Pass 3 on well-formed token lists -/

theorem pass3_hom (src tgt : Nat) :
    ∀ {toks : List FTok}, WfT toks →
      (∀ t ∈ toks, NoSrcT (colLetters src) t) →
      ∀ b, pass3Run (colLetters src) (colLetters tgt) b (renderL toks)
        = renderL (toks.map (shift3 src tgt)) := by
  intro toks h
  induction h with
  | nil => intro _ b; rfl
  | sep c ts hc hts ih =>
      intro hns b
      have hheads := sepLed_heads (wfT_render_sepLed hts)
      rw [renderL_cons, show renderT (.sep c) = [c] from rfl, List.singleton_append,
        pass3Run_step (fun _ => coreM3_none_notupper
          (show HeadNot isUpperC (c :: renderL ts) from sep_not_upper hc))
          (Or.inr (coreM3_none_notupper hheads.2.1)),
        ih (fun t ht => hns t (by simp [ht])) false]
      simp [renderL_cons, shift3, renderT]
  | ref c t ts hc ht hts ih =>
      intro hns b
      have hheads := sepLed_heads (wfT_render_sepLed hts)
      have hrestnone : coreM3 (renderL ts) = none := coreM3_none_notupper hheads.2.1
      have ihts := ih (fun t' ht' => hns t' (by simp [ht'])) false
      have hbnone : ∀ l : List Char, HeadNot isUpperC (c :: l) :=
        fun l => sep_not_upper hc
      rw [renderL_cons, show renderT (.sep c) = [c] from rfl, List.singleton_append,
        renderL_cons]
      have goalR : renderL ((FTok.sep c :: t :: ts).map (shift3 src tgt))
          = c :: (renderT (shift3 src tgt t) ++ renderL (ts.map (shift3 src tgt))) := by
        simp [renderL_cons, shift3, renderT]
      rw [goalR]
      cases t with
      | sep d => simp [refOK] at ht
      | rel col row =>
          have hok : 1 ≤ col := by simpa [refOK] using ht
          have hshape : renderT (FTok.rel col row) ++ renderL ts
              = colLetters col ++ (natDigits row ++ renderL ts) := by
            simp [renderT]
          rw [hshape, pass3Run_pre_match
            (fun _ => coreM3_none_notupper (hbnone _)) (sep_allowPre hc)
            (coreM3_some_ref (colLetters_ne_nil hok) (colLetters_upper col)
              (natDigits_ne_nil row) (natDigits_digit row) hheads.2.2.1 hheads.2.1),
            ihts]
          simp only [repl3, shift3, renderT, colIte]
      | abs col row =>
          have habs : renderT (FTok.abs col row)
              = ('$' :: colLetters col) ++ ('$' :: natDigits row) := by
            simp [renderT]
          have hstep : coreM3 (renderT (FTok.abs col row) ++ renderL ts) = none := by
            rw [habs]
            exact coreM3_none_notupper (by
              show isUpperC '$' = false
              decide)
          rw [pass3Run_step (fun _ => coreM3_none_notupper (hbnone _)) (Or.inr hstep),
            habs, pass3_skip_chars (fun x ch y hxy => ?_), ihts]
          · simp [shift3, renderT]
          · have hsfx : (ch :: y) <:+ ('$' :: colLetters col) ++ ('$' :: natDigits row) :=
              ⟨x, hxy.symm⟩
            rcases suffix_append_cases hsfx with hvB | ⟨a', ha', hane, heq⟩
            · rcases List.suffix_cons_iff.mp hvB with heq2 | hvD
              · left
                have : ch = '$' := List.head_eq_of_cons_eq heq2
                subst this
                decide
              · right
                cases y with
                | nil => exact hrestnone
                | cons d ds =>
                    refine coreM3_none_notupper ?_
                    show isUpperC d = false
                    exact digit_not_upper (natDigits_digit row d (hvD.subset (by simp)))
            · left
              cases a' with
              | nil => exact absurd rfl hane
              | cons a0 a0s =>
                  have hch : ch = a0 := by
                    have := congrArg (fun l => List.head? l) heq
                    simpa using this
                  subst hch
                  rcases List.suffix_cons_iff.mp ha' with heq2 | haL
                  · have : ch = '$' := List.head_eq_of_cons_eq heq2
                    subst this
                    decide
                  · exact upper_not_allowPre
                      (colLetters_upper col ch (haL.subset (by simp)))
      | sheet n col row =>
          have hok : (1 ≤ col ∧ n ≠ []) ∧ ∀ x ∈ n, sheetChar x = true := by
            simpa [refOK, Bool.and_eq_true, List.all_eq_true] using ht
          have hns_t : NoSrcT (colLetters src) (FTok.sheet n col row) :=
            hns _ (by simp)
          have hLne : colLetters col ≠ colLetters src := hns_t
          have hshape : renderT (FTok.sheet n col row) ++ renderL ts
              = n ++ ('!' :: (colLetters col ++ (natDigits row ++ renderL ts))) := by
            simp [renderT]
          have hstep : coreM3 (renderT (FTok.sheet n col row) ++ renderL ts) = none := by
            rw [hshape]
            cases n with
            | nil => exact absurd rfl hok.1.2
            | cons n0 n' =>
                refine coreM3_none_notupper ?_
                show isUpperC n0 = false
                exact sheetChar_not_upper (hok.2 n0 (by simp))
          rw [pass3Run_step (fun _ => coreM3_none_notupper (hbnone _)) (Or.inr hstep),
            hshape, pass3_skip_chars (fun x ch y hxy => ?_)]
          · rw [pass3Run_pre_match (fun hb => by simp at hb) (by decide)
              (coreM3_some_ref (colLetters_ne_nil hok.1.1) (colLetters_upper col)
                (natDigits_ne_nil row) (natDigits_digit row) hheads.2.2.1 hheads.2.1),
              ihts]
            simp [repl3, shift3, renderT, hLne]
          · right
            cases y with
            | nil =>
                refine coreM3_none_notupper ?_
                show isUpperC '!' = false
                decide
            | cons d ds =>
                refine coreM3_none_notupper ?_
                show isUpperC d = false
                refine sheetChar_not_upper (hok.2 d ?_)
                rw [hxy]
                simp
      | rng c1 r1 c2 r2 =>
          have hok : 1 ≤ c1 ∧ 1 ≤ c2 := by
            simpa [refOK, Bool.and_eq_true] using ht
          have hns_t : NoSrcT (colLetters src) (FTok.rng c1 r1 c2 r2) := hns _ (by simp)
          have hL1ne : colLetters c1 ≠ colLetters src := hns_t.1
          have hL2ne : colLetters c2 ≠ colLetters src := hns_t.2
          have hshape : renderT (FTok.rng c1 r1 c2 r2) ++ renderL ts
              = colLetters c1 ++ (natDigits r1 ++
                  (':' :: (colLetters c2 ++ (natDigits r2 ++ renderL ts)))) := by
            simp [renderT]
          rw [hshape, pass3Run_pre_match
            (fun _ => coreM3_none_notupper (hbnone _)) (sep_allowPre hc)
            (coreM3_some_ref (colLetters_ne_nil hok.1) (colLetters_upper c1)
              (natDigits_ne_nil r1) (natDigits_digit r1)
              (by show isDigitC ':' = false; decide)
              (by show isUpperC ':' = false; decide)),
            pass3Run_pre_match (fun hb => by simp at hb) (by decide)
              (coreM3_some_ref (colLetters_ne_nil hok.2) (colLetters_upper c2)
                (natDigits_ne_nil r2) (natDigits_digit r2) hheads.2.2.1 hheads.2.1),
            ihts]
          simp [repl3, shift3, renderT, hL1ne, hL2ne]

/-! ## Assembling the three passes -/

theorem wfT_map_shift1 {src tgt : Nat} (htgt : 1 ≤ tgt) :
    ∀ {toks : List FTok}, WfT toks → WfT (toks.map (shift1 src tgt)) := by
  intro toks h
  induction h with
  | nil => exact WfT.nil
  | sep c ts hc hts ih => exact WfT.sep c _ hc ih
  | ref c t ts hc ht hts ih =>
      refine WfT.ref c _ _ hc ?_ ih
      cases t with
      | sep d => simpa [refOK] using ht
      | rel col row => simpa [shift1, refOK] using ht
      | abs col row => simpa [shift1, refOK] using ht
      | rng c1 r1 c2 r2 => simpa [shift1, refOK] using ht
      | sheet n col row =>
          have hok : (1 ≤ col ∧ n ≠ []) ∧ ∀ x ∈ n, sheetChar x = true := by
            simpa [refOK, Bool.and_eq_true, List.all_eq_true] using ht
          simp only [shift1, refOK, Bool.and_eq_true, List.all_eq_true]
          refine ⟨⟨?_, by simpa using hok.1.2⟩, hok.2⟩
          by_cases hcs : col = src
          · simpa [hcs] using htgt
          · simpa [hcs] using hok.1.1

theorem wfT_map_shift2 {src tgt : Nat} (htgt : 1 ≤ tgt) :
    ∀ {toks : List FTok}, WfT toks → WfT (toks.map (shift2 src tgt)) := by
  intro toks h
  induction h with
  | nil => exact WfT.nil
  | sep c ts hc hts ih => exact WfT.sep c _ hc ih
  | ref c t ts hc ht hts ih =>
      refine WfT.ref c _ _ hc ?_ ih
      cases t with
      | sep d => simpa [refOK] using ht
      | rel col row => simpa [shift2, refOK] using ht
      | abs col row => simpa [shift2, refOK] using ht
      | sheet n col row => simpa [shift2, refOK] using ht
      | rng c1 r1 c2 r2 =>
          have hok : 1 ≤ c1 ∧ 1 ≤ c2 := by
            simpa [refOK, Bool.and_eq_true] using ht
          simp only [shift2, refOK, Bool.and_eq_true]
          constructor
          · by_cases hcs : c1 = src
            · simpa [hcs] using htgt
            · simpa [hcs] using hok.1
          · by_cases hcs : c2 = src
            · simpa [hcs] using htgt
            · simpa [hcs] using hok.2

theorem noSrc_after_shifts {src tgt : Nat} (hne : src ≠ tgt) :
    ∀ {toks : List FTok}, ∀ t ∈ (toks.map (shift1 src tgt)).map (shift2 src tgt),
      NoSrcT (colLetters src) t := by
  intro toks t ht
  simp only [List.mem_map] at ht
  obtain ⟨t1, ⟨t0, _, rfl⟩, rfl⟩ := ht
  have key : ∀ a : Nat, (if a = src then tgt else a) ≠ src := by
    intro a
    by_cases hcs : a = src
    · simpa [hcs] using Ne.symm hne
    · simp [hcs]
  have keyL : ∀ a : Nat, colLetters (if a = src then tgt else a) ≠ colLetters src :=
    fun a he => key a (colLetters_inj _ _ he)
  cases t0 with
  | sep c => trivial
  | rel col row => trivial
  | abs col row => trivial
  | sheet n col row => exact keyL col
  | rng c1 r1 c2 r2 => exact ⟨keyL c1, keyL c2⟩

theorem shift_compose (src tgt : Nat) (t : FTok) :
    shift3 src tgt (shift2 src tgt (shift1 src tgt t)) = shiftTok src tgt t := by
  cases t <;> rfl

/-- C1 (amended): for every formula built from separators, fully absolute
references (`$X$n`), relative references (`Xn`), lowercase-sheet-qualified
relative references (`name!Xn`) and relative ranges (`Xn:Ym`), and every
pair of distinct column indices, `adjust_formula_column` moves exactly the
relative, sheet-qualified and range-endpoint references whose column
equals the source column to the target column, preserving rows, sheet
names, absolute references and every other character.  (The original
claim extended the absolute-reference guarantee to column-anchored
endpoints such as `$C7`, which the range pass rewrites; see the
counterexample.) -/
theorem adjust_formula_column_correct (toks : List FTok) (src tgt : Nat)
    (h1 : 1 ≤ src) (h2 : 1 ≤ tgt) (hne : src ≠ tgt) (hwf : WfT toks) :
    adjust_formula_column (String.mk (renderL toks)) src tgt
      = String.mk (renderL (toks.map (shiftTok src tgt))) := by
  unfold adjust_formula_column
  dsimp only
  rw [pass1_hom src tgt hwf, pass2_hom src tgt (wfT_map_shift1 h2 hwf),
    pass3_eq_run, pass3_hom src tgt (wfT_map_shift2 h2 (wfT_map_shift1 h2 hwf))
      (noSrc_after_shifts hne) true]
  have hmaps : ((toks.map (shift1 src tgt)).map (shift2 src tgt)).map (shift3 src tgt)
      = toks.map (shiftTok src tgt) := by
    simp only [List.map_map]
    exact List.map_congr_left (fun t _ => shift_compose src tgt t)
  rw [hmaps]

/-! ## C1: reference-rewrite correctness -/

/-- C1 counterexample: the claim states that every `$`-anchored reference
is left unchanged and references to other column letters are untouched, so
on `=AVERAGE($C7:D7)` with source column 3 (C) and target 4 (D) the output
would have to equal the input (the only C-reference is the anchored `$C7`,
and `D7` references a different column).  The range pass of the code has
no `$` guard and rewrites the anchored endpoint. -/
theorem C1_counterexample :
    adjust_formula_column "=AVERAGE($C7:D7)" 3 4 = "=AVERAGE($D7:D7)" ∧
    adjust_formula_column "=AVERAGE($C7:D7)" 3 4 ≠ "=AVERAGE($C7:D7)" := by
  constructor
  · decide
  · decide

/-- C1 witness: the amended theorem applied to the concrete formula
`=D3*$C$3+almedio_bs!D12+C7:D7`, shifting column 4 (D) to 5 (E). -/
theorem adjust_formula_column_correct_witness :
    WfT c1DemoToks ∧
    String.mk (renderL c1DemoToks) = "=D3*$C$3+almedio_bs!D12+C7:D7" ∧
    adjust_formula_column "=D3*$C$3+almedio_bs!D12+C7:D7" 4 5
      = "=E3*$C$3+almedio_bs!E12+C7:E7" := by
  have hwf : WfT c1DemoToks := by
    refine WfT.ref '=' _ _ (by decide) (by decide) ?_
    refine WfT.ref '*' _ _ (by decide) (by decide) ?_
    refine WfT.ref '+' _ _ (by decide) (by decide) ?_
    exact WfT.ref '+' _ _ (by decide) (by decide) WfT.nil
  refine ⟨hwf, by decide, ?_⟩
  have h := adjust_formula_column_correct c1DemoToks 4 5 (by decide) (by decide)
    (by decide) hwf
  have e1 : String.mk (renderL c1DemoToks) = "=D3*$C$3+almedio_bs!D12+C7:D7" := by decide
  have e2 : String.mk (renderL (c1DemoToks.map (shiftTok 4 5)))
      = "=E3*$C$3+almedio_bs!E12+C7:E7" := by decide
  rw [← e1, ← e2]
  exact h

/-! ## C6: `_parse_value` -/

/-- C6: `_parse_value` agrees everywhere with the spec's description
(null for `None`/empty/`NA`/`-`; numeric input passed through as a float;
strings cleaned of `%`, commas and surrounding whitespace then parsed as a
float, divided by 100 when the original contained `%`; null on parse
failure — and, being a total function, it never raises), together with the
spec's three examples `12.5% ↦ 0.125`, `- ↦ null`, `1,234 ↦ 1234.0`. -/
theorem parse_value_spec_correct :
    (∀ v, _parse_value v = parseValueSpec v) ∧
    _parse_value .none = none ∧
    _parse_value (.str "") = none ∧
    _parse_value (.str "NA") = none ∧
    _parse_value (.str "-") = none ∧
    (∀ n : Int, _parse_value (.int n) = some (n : Rat)) ∧
    (∀ q : Rat, _parse_value (.float q) = some q) ∧
    _parse_value (.str "12.5%") = some (1 / 8 : Rat) ∧
    _parse_value (.str "1,234") = some 1234 := by
  refine ⟨?_, rfl, by decide, by decide, by decide, fun n => rfl, fun q => rfl,
    ?_, ?_⟩
  case refine_2 =>
    rw [show _parse_value (.str "12.5%")
        = some ((1 * mantVal ['1','2'] ['5']) / 100) from rfl]
    norm_num [mantVal, show digitsVal ['1','2'] = 12 from rfl,
      show digitsVal ['5'] = 5 from rfl]
  case refine_3 =>
    rw [show _parse_value (.str "1,234")
        = some (1 * mantVal ['1','2','3','4'] []) from rfl]
    norm_num [mantVal, show digitsVal ['1','2','3','4'] = 1234 from rfl,
      show digitsVal [] = 0 from rfl]
  intro v
  cases v with
  | str s =>
      simp only [_parse_value, parseValueSpec]
      split
      · rfl
      · rcases h : pyFloat (cleanNumStr s) with _ | r <;> simp [h]
  | none => rfl
  | int n => rfl
  | float q => rfl
  | date d => rfl

/-! ## C7: totality of the formula micro-evaluator -/

theorem upper_not_digit {c : Char} (h : isUpperC c = true) : isDigitC c = false := by
  simp only [isUpperC, Bool.and_eq_true, decide_eq_true_eq] at h
  simp only [isDigitC, Bool.and_eq_false_iff, decide_eq_false_iff_not]
  omega

theorem endsDollar_cons {c : Char} {l : List Char} (hc : c ≠ '\n') :
    endsDollar (c :: l) = false := by
  have hne : (c :: l) ≠ ['\n'] := by intro h; cases h; exact hc rfl
  simp only [endsDollar, hne]
  simp
  intro h
  exact absurd h hc

theorem parseRef_head {f ref rest : List Char} (h : parseRef f = some (ref, rest)) :
    ∃ c t, f = c :: t ∧ isUpperC c = true := by
  match f with
  | [] => simp [parseRef] at h
  | c :: t =>
      refine ⟨c, t, rfl, ?_⟩
      by_contra hc
      rw [Bool.not_eq_true] at hc
      simp [parseRef, List.takeWhile, hc] at h

theorem parseRef_parts {f ref rest : List Char} (h : parseRef f = some (ref, rest)) :
    ref = f.takeWhile isUpperC ++ (f.dropWhile isUpperC).takeWhile isDigitC ∧
    rest = (f.dropWhile isUpperC).dropWhile isDigitC := by
  unfold parseRef at h
  dsimp only at h
  split at h
  · simp at h
  · simp only [Option.some.injEq, Prod.mk.injEq] at h
    exact ⟨h.1.symm, h.2.symm⟩

theorem matchFullRef_none_rest {f ref : List Char} {c : Char} {rest : List Char}
    (h : parseRef f = some (ref, c :: rest)) (hc : c ≠ '\n') :
    matchFullRef f = none := by
  have hp := parseRef_parts h
  unfold matchFullRef
  dsimp only
  rw [← hp.2, endsDollar_cons hc]
  simp

theorem matchNV_none_head {c : Char} {t : List Char} (hu : isUpperC c = true) :
    matchNV (c :: t) = none := by
  have hne : (('_' : Char) == c) = false := by
    rw [beq_eq_false_iff_ne]
    intro he
    rw [← he] at hu
    exact absurd hu (by decide)
  have hpre : nvPat.isPrefixOf (c :: t) = false := by
    rw [show nvPat = '_' :: "xlfn.NUMBERVALUE(".data from rfl]
    simp [List.isPrefixOf, hne]
  simp [matchNV, hpre]

theorem matchNV_none_upper {f ref rest : List Char}
    (h : parseRef f = some (ref, rest)) : matchNV f = none := by
  obtain ⟨c, t, rfl, hu⟩ := parseRef_head h
  exact matchNV_none_head hu

theorem matchTimesConst_elim {f ref : List Char} {q : Rat}
    (h : matchTimesConst f = some (ref, q)) :
    ∃ r2 r3, parseRef f = some (ref, '*' :: r2) ∧ parseConst r2 = some (q, r3) ∧
      endsDollar r3 = true := by
  unfold matchTimesConst at h
  split at h
  · rename_i ref1 r2 hp
    split at h
    · rename_i q1 r3 hq
      split at h
      · rename_i hd
        simp only [Option.some.injEq, Prod.mk.injEq] at h
        exact ⟨r2, r3, h.1 ▸ hp, h.2 ▸ hq, hd⟩
      · simp at h
    · simp at h
  · simp at h

theorem matchConstDiv_elim {f r1 r2c : List Char} {q : Rat}
    (h : matchConstDiv f = some (r1, q, r2c)) :
    ∃ r2 r4 r5, parseRef f = some (r1, '*' :: r2) ∧ parseConst r2 = some (q, '/' :: r4) ∧
      parseRef r4 = some (r2c, r5) ∧ endsDollar r5 = true := by
  unfold matchConstDiv at h
  split at h
  · rename_i ref1 r2 hp
    split at h
    · rename_i q1 r4 hq
      split at h
      · rename_i ref2 r5 hr
        split at h
        · rename_i hd
          simp only [Option.some.injEq, Prod.mk.injEq] at h
          exact ⟨r2, r4, r5, h.1 ▸ hp, h.2.1 ▸ hq, h.2.2 ▸ hr, hd⟩
        · simp at h
      · simp at h
    · simp at h
  · simp at h

theorem matchArith_elim {f r1 r2c : List Char} {op : Char}
    (h : matchArith f = some (r1, op, r2c)) :
    ∃ rr r3, parseRef f = some (r1, op :: rr) ∧
      (op = '-' ∨ op = '+' ∨ op = '*' ∨ op = '/') ∧
      parseRef rr = some (r2c, r3) ∧ endsDollar r3 = true := by
  unfold matchArith at h
  split at h
  · rename_i ref1 op1 rr hp
    split at h
    · rename_i hop
      split at h
      · rename_i ref2 r3 hq
        split at h
        · rename_i hd
          simp only [Option.some.injEq, Prod.mk.injEq] at h
          simp only [Bool.or_eq_true, beq_iff_eq] at hop
          refine ⟨rr, r3, ?_, ?_, h.2.2 ▸ hq, hd⟩
          · rw [h.1, h.2.1] at hp; exact hp
          · rw [← h.2.1]; tauto
        · simp at h
      · simp at h
    · simp at h
  · simp at h

theorem timesConst_prec {f ref : List Char} {q : Rat}
    (h : matchTimesConst f = some (ref, q)) :
    matchNV f = none ∧ matchFullRef f = none := by
  obtain ⟨r2, r3, hp, _, _⟩ := matchTimesConst_elim h
  exact ⟨matchNV_none_upper hp, matchFullRef_none_rest hp (by decide)⟩

theorem constDiv_prec {f r1 r2c : List Char} {q : Rat}
    (h : matchConstDiv f = some (r1, q, r2c)) :
    matchNV f = none ∧ matchFullRef f = none ∧ matchTimesConst f = none := by
  obtain ⟨r2, r4, r5, hp, hc, _, _⟩ := matchConstDiv_elim h
  refine ⟨matchNV_none_upper hp, matchFullRef_none_rest hp (by decide), ?_⟩
  unfold matchTimesConst
  rw [hp]
  simp [hc, endsDollar_cons (show ('/' : Char) ≠ '\n' by decide)]

theorem arith_prec {f r1 r2c : List Char} {op : Char}
    (h : matchArith f = some (r1, op, r2c)) :
    matchNV f = none ∧ matchFullRef f = none ∧
    matchTimesConst f = none ∧ matchConstDiv f = none := by
  obtain ⟨rr, r3, hp, hop, hq, _⟩ := matchArith_elim h
  have hopn : op ≠ '\n' := by rcases hop with rfl | rfl | rfl | rfl <;> decide
  obtain ⟨c2, t2, hrr, hu2⟩ := parseRef_head hq
  have hdig : isDigitC c2 = false := upper_not_digit hu2
  have hpc : parseConst rr = none := by
    rw [hrr]
    unfold parseConst
    simp [List.takeWhile, hdig]
  refine ⟨matchNV_none_upper hp, matchFullRef_none_rest hp hopn, ?_, ?_⟩
  · unfold matchTimesConst
    rw [hp]
    rcases hop with rfl | rfl | rfl | rfl
    · rfl
    · rfl
    · simp [hpc]
    · rfl
  · unfold matchConstDiv
    rw [hp]
    rcases hop with rfl | rfl | rfl | rfl
    · rfl
    · rfl
    · simp [hpc]
    · rfl

theorem exbind_ok {α β : Type} (a : α) (f : α → Except String β) :
    (Except.ok a >>= f) = f a := rfl

/-- C7 (amended): the formula micro-evaluator returns null (without
raising) when the formula's shape is unrecognized, when a referenced
operand of a recognized shape is unresolved, and when the denominator of a
recognized division evaluates to zero — but evaluation failures CAN
surface as thrown errors: `_resolve_reference` raises `ValueError` on a
reference containing two `!` separators (see the counterexample), a
cross-sheet reference to a missing sheet raises `KeyError`, and cyclic
references exhaust the recursion limit. -/
theorem evaluate_formula_null_on_failure :
    (∀ ev formula cs,
        matchNV (formula.data.drop 1) = none →
        matchFullRef (formula.data.drop 1) = none →
        matchTimesConst (formula.data.drop 1) = none →
        matchConstDiv (formula.data.drop 1) = none →
        matchArith (formula.data.drop 1) = none →
        matchAvg (formula.data.drop 1) = none →
        _evaluate_formula ev formula cs = .ok none) ∧
    (∀ ev formula cs ref, matchNV (formula.data.drop 1) = some ref →
        _resolve_reference ev ref cs = .ok none →
        _evaluate_formula ev formula cs = .ok none) ∧
    (∀ ev formula cs ref q, matchTimesConst (formula.data.drop 1) = some (ref, q) →
        _resolve_reference ev ref cs = .ok none →
        _evaluate_formula ev formula cs = .ok none) ∧
    (∀ ev formula cs r1 q r2 a, matchConstDiv (formula.data.drop 1) = some (r1, q, r2) →
        _resolve_reference ev r1 cs = .ok (some a) →
        _resolve_reference ev r2 cs = .ok (some 0) →
        _evaluate_formula ev formula cs = .ok none) ∧
    (∀ ev formula cs r1 r2 a, matchArith (formula.data.drop 1) = some (r1, '/', r2) →
        _resolve_reference ev r1 cs = .ok (some a) →
        _resolve_reference ev r2 cs = .ok (some 0) →
        _evaluate_formula ev formula cs = .ok none) ∧
    (∀ ev formula cs r1 op r2 w, matchArith (formula.data.drop 1) = some (r1, op, r2) →
        _resolve_reference ev r1 cs = .ok none →
        _resolve_reference ev r2 cs = .ok w →
        _evaluate_formula ev formula cs = .ok none) := by
  refine ⟨?_, ?_, ?_, ?_, ?_, ?_⟩
  · intro ev formula cs h1 h2 h3 h4 h5 h6
    unfold _evaluate_formula
    simp only [h1, h2, h3, h4, h5, h6]
    rfl
  · intro ev formula cs ref hnv hr
    unfold _evaluate_formula
    simp only [hnv, hr]
  · intro ev formula cs ref q htc hr
    obtain ⟨hnv, hfr⟩ := timesConst_prec htc
    unfold _evaluate_formula
    simp only [hnv, hfr, htc, hr]
    rfl
  · intro ev formula cs r1 q r2 a hcd hr1 hr2
    obtain ⟨hnv, hfr, htc⟩ := constDiv_prec hcd
    unfold _evaluate_formula
    simp only [hnv, hfr, htc, hcd, hr1, hr2, exbind_ok]
    simp
    rfl
  · intro ev formula cs r1 r2 a har hr1 hr2
    obtain ⟨hnv, hfr, htc, hcd⟩ := arith_prec har
    unfold _evaluate_formula
    simp only [hnv, hfr, htc, hcd, har, hr1, hr2, exbind_ok]
    simp
    rfl
  · intro ev formula cs r1 op r2 w har hr1 hr2
    obtain ⟨hnv, hfr, htc, hcd⟩ := arith_prec har
    unfold _evaluate_formula
    simp only [hnv, hfr, htc, hcd, har, hr1, hr2, exbind_ok]
    cases w <;> rfl

theorem evaluate_formula_null_on_failure_witness :
    evaluate_cell wbC7 5 "s" 3 1 = .ok none := by
  have h := evaluate_formula_null_on_failure.2.2.2.2.1
    (fun s1 r1 c1 => evaluate_cell wbC7 4 s1 r1 c1) "=A1/B1" "s"
    ['A', '1'] ['B', '1'] 5 (by decide) rfl rfl
  exact h

/-- C7 counterexample to "no parse or evaluate failure ever surfaces as a
thrown error": the formula `=_xlfn.NUMBERVALUE(a!b!c)` is matched by the
NUMBERVALUE shape, and `sheet_name, cell_ref = ref.split('!')` on its
three-part reference raises `ValueError`. -/
theorem C7_counterexample :
    evaluate_cell wbC7e 3 "e" 1 1 = .error "ValueError" := rfl

/-! ## C8: validity of a ValidationResult -/

theorem valid_foldl_inv {α : Type} {g : ValidationResultR → α → ValidationResultR}
    (P : ValidationResultR → Prop)
    (hg : ∀ r x, P r → P (g r x)) :
    ∀ (l : List α) (r : ValidationResultR), P r → P (l.foldl g r) := by
  intro l
  induction l with
  | nil => intro r h; exact h
  | cons x xs ih => intro r h; exact ih (g r x) (hg r x h)

theorem checkExpectedRow_inv (el : List (Nat × String)) (r : ValidationResultR)
    (p : Nat × String)
    (h1 : r.is_valid = true ↔ r.errors = [])
    (h2 : r.errors.length = r.missing_rows.length + r.row_mismatches.length)
    (h3 : r.warnings.length = r.new_rows.length) :
    ((checkExpectedRow el r p).is_valid = true ↔ (checkExpectedRow el r p).errors = []) ∧
    (checkExpectedRow el r p).errors.length =
      (checkExpectedRow el r p).missing_rows.length +
      (checkExpectedRow el r p).row_mismatches.length ∧
    (checkExpectedRow el r p).warnings.length = (checkExpectedRow el r p).new_rows.length := by
  unfold checkExpectedRow add_error
  split
  · refine ⟨by simp, by simp [h2]; omega, by simp [h3]⟩
  · split
    · refine ⟨by simp, by simp [h2]; omega, by simp [h3]⟩
    · exact ⟨h1, h2, h3⟩

theorem checkNewRow_inv (el : List (Nat × String)) (r : ValidationResultR)
    (p : Nat × String)
    (h1 : r.is_valid = true ↔ r.errors = [])
    (h2 : r.errors.length = r.missing_rows.length + r.row_mismatches.length)
    (h3 : r.warnings.length = r.new_rows.length) :
    ((checkNewRow el r p).is_valid = true ↔ (checkNewRow el r p).errors = []) ∧
    (checkNewRow el r p).errors.length =
      (checkNewRow el r p).missing_rows.length +
      (checkNewRow el r p).row_mismatches.length ∧
    (checkNewRow el r p).warnings.length = (checkNewRow el r p).new_rows.length := by
  unfold checkNewRow
  split
  · exact ⟨h1, h2, h3⟩
  · exact ⟨h1, by simp [h2], by simp [h3]⟩

theorem addNewPeriod_inv (ec : List (Nat × String)) (ds : List String)
    (r : ValidationResultR) (p : Nat × String)
    (h1 : r.is_valid = true ↔ r.errors = [])
    (h2 : r.errors.length = r.missing_rows.length + r.row_mismatches.length)
    (h3 : r.warnings.length = r.new_rows.length) :
    ((addNewPeriod ec ds r p).is_valid = true ↔ (addNewPeriod ec ds r p).errors = []) ∧
    (addNewPeriod ec ds r p).errors.length =
      (addNewPeriod ec ds r p).missing_rows.length +
      (addNewPeriod ec ds r p).row_mismatches.length ∧
    (addNewPeriod ec ds r p).warnings.length = (addNewPeriod ec ds r p).new_rows.length := by
  unfold addNewPeriod
  split
  · exact ⟨h1, h2, h3⟩
  · exact ⟨h1, h2, h3⟩

theorem addRemovedPeriod_inv (ec : List (Nat × String)) (ds : List String)
    (r : ValidationResultR) (p : Nat × String)
    (h1 : r.is_valid = true ↔ r.errors = [])
    (h2 : r.errors.length = r.missing_rows.length + r.row_mismatches.length)
    (h3 : r.warnings.length = r.new_rows.length) :
    ((addRemovedPeriod ec ds r p).is_valid = true ↔ (addRemovedPeriod ec ds r p).errors = []) ∧
    (addRemovedPeriod ec ds r p).errors.length =
      (addRemovedPeriod ec ds r p).missing_rows.length +
      (addRemovedPeriod ec ds r p).row_mismatches.length ∧
    (addRemovedPeriod ec ds r p).warnings.length =
      (addRemovedPeriod ec ds r p).new_rows.length := by
  unfold addRemovedPeriod
  split
  · exact ⟨h1, h2, h3⟩
  · exact ⟨h1, h2, h3⟩

theorem valPhases_inv (sheet_type : String) (el xl xc ec : List (Nat × String))
    (eds xds : List String) (xd ed : List (Nat × String)) :
    ((valPhases sheet_type el xl xc ec eds xds xd ed).is_valid = true ↔
      (valPhases sheet_type el xl xc ec eds xds xd ed).errors = []) ∧
    (valPhases sheet_type el xl xc ec eds xds xd ed).errors.length =
      (valPhases sheet_type el xl xc ec eds xds xd ed).missing_rows.length +
      (valPhases sheet_type el xl xc ec eds xds xd ed).row_mismatches.length ∧
    (valPhases sheet_type el xl xc ec eds xds xd ed).warnings.length =
      (valPhases sheet_type el xl xc ec eds xds xd ed).new_rows.length +
      (if (valPhases sheet_type el xl xc ec eds xds xd ed).new_periods = [] then 0 else 1) +
      (if (valPhases sheet_type el xl xc ec eds xds xd ed).removed_periods = [] then 0 else 1)
    := by
  have h4 := valid_foldl_inv
    (fun r => (r.is_valid = true ↔ r.errors = []) ∧
      r.errors.length = r.missing_rows.length + r.row_mismatches.length ∧
      r.warnings.length = r.new_rows.length)
    (fun r x h => addRemovedPeriod_inv ec xds r x h.1 h.2.1 h.2.2) ed
    (xd.foldl (addNewPeriod xc eds)
      (xl.foldl (checkNewRow el)
        (el.foldl (checkExpectedRow xl) (initValidation sheet_type))))
    (valid_foldl_inv
      (fun r => (r.is_valid = true ↔ r.errors = []) ∧
        r.errors.length = r.missing_rows.length + r.row_mismatches.length ∧
        r.warnings.length = r.new_rows.length)
      (fun r x h => addNewPeriod_inv xc eds r x h.1 h.2.1 h.2.2) xd _
      (valid_foldl_inv
        (fun r => (r.is_valid = true ↔ r.errors = []) ∧
          r.errors.length = r.missing_rows.length + r.row_mismatches.length ∧
          r.warnings.length = r.new_rows.length)
        (fun r x h => checkNewRow_inv el r x h.1 h.2.1 h.2.2) xl _
        (valid_foldl_inv
          (fun r => (r.is_valid = true ↔ r.errors = []) ∧
            r.errors.length = r.missing_rows.length + r.row_mismatches.length ∧
            r.warnings.length = r.new_rows.length)
          (fun r x h => checkExpectedRow_inv xl r x h.1 h.2.1 h.2.2) el _
          ⟨by simp [initValidation], by simp [initValidation], by simp [initValidation]⟩)))
  obtain ⟨h1, h2, h3⟩ := h4
  unfold valPhases
  dsimp only
  split
  · rename_i hnp
    rw [List.isEmpty_iff] at hnp
    split
    · rename_i hrp
      rw [List.isEmpty_iff] at hrp
      exact ⟨h1, h2, by simp [hnp, hrp, h3]⟩
    · rename_i hrp
      rw [Bool.not_eq_true, List.isEmpty_eq_false_iff_exists_mem] at hrp
      have hrp2 : (ed.foldl (addRemovedPeriod ec xds)
          (xd.foldl (addNewPeriod xc eds)
            (xl.foldl (checkNewRow el)
              (el.foldl (checkExpectedRow xl) (initValidation sheet_type))))).removed_periods
          ≠ [] := by
        obtain ⟨x, hx⟩ := hrp
        intro he
        rw [he] at hx
        exact absurd hx (List.not_mem_nil x)
      exact ⟨h1, h2, by simp [hnp, hrp2, h3]⟩
  · rename_i hnp
    rw [Bool.not_eq_true, List.isEmpty_eq_false_iff_exists_mem] at hnp
    have hnp2 : (ed.foldl (addRemovedPeriod ec xds)
        (xd.foldl (addNewPeriod xc eds)
          (xl.foldl (checkNewRow el)
            (el.foldl (checkExpectedRow xl) (initValidation sheet_type))))).new_periods
        ≠ [] := by
      obtain ⟨x, hx⟩ := hnp
      intro he
      rw [he] at hx
      exact absurd hx (List.not_mem_nil x)
    split
    · rename_i hrp
      rw [List.isEmpty_iff] at hrp
      simp only at hrp
      exact ⟨by simpa using h1, by simpa using h2, by simp [hnp2, hrp, h3]⟩
    · rename_i hrp
      have hrp2 : (ed.foldl (addRemovedPeriod ec xds)
          (xd.foldl (addNewPeriod xc eds)
            (xl.foldl (checkNewRow el)
              (el.foldl (checkExpectedRow xl) (initValidation sheet_type))))).removed_periods
          ≠ [] := by
        rw [Bool.not_eq_true, List.isEmpty_eq_false_iff_exists_mem] at hrp
        obtain ⟨x, hx⟩ := hrp
        intro he
        simp only [he] at hx
        exact absurd hx (List.not_mem_nil x)
      exact ⟨by simpa using h1, by simpa using h2, by simp [hnp2, hrp2, h3]⟩

/-- C8: in every result of `validate_export_against_structure`, `is_valid`
is true exactly when the errors list is empty; the errors are exactly one
per missing expected row plus one per row-label mismatch; and the warnings
are one per new export row, plus one summary warning when any new periods
exist and one when any removed periods exist — so new rows, new periods
and removed periods produce only warnings and never change validity. -/
theorem validate_is_valid_iff (st : WorkbookStructureR) (export_ws : Ws)
    (sheet_type : String) :
    ((validate_export_against_structure st export_ws sheet_type).is_valid = true ↔
      (validate_export_against_structure st export_ws sheet_type).errors = []) ∧
    (validate_export_against_structure st export_ws sheet_type).errors.length =
      (validate_export_against_structure st export_ws sheet_type).missing_rows.length +
      (validate_export_against_structure st export_ws sheet_type).row_mismatches.length ∧
    (validate_export_against_structure st export_ws sheet_type).warnings.length =
      (validate_export_against_structure st export_ws sheet_type).new_rows.length +
      (if (validate_export_against_structure st export_ws sheet_type).new_periods = []
        then 0 else 1) +
      (if (validate_export_against_structure st export_ws sheet_type).removed_periods = []
        then 0 else 1) := by
  have hb : validate_export_against_structure st export_ws sheet_type =
      valPhases sheet_type
        (if sheet_type = "is" then st.is_row_labels else st.bs_row_labels)
        (extract_row_labels export_ws)
        (extract_period_codes export_ws)
        (if sheet_type = "is" then st.is_period_codes else st.bs_period_codes)
        ((if sheet_type = "is" then st.is_column_dates else st.bs_column_dates).map Prod.snd)
        ((extract_column_dates export_ws).map Prod.snd)
        (extract_column_dates export_ws)
        (if sheet_type = "is" then st.is_column_dates else st.bs_column_dates) := rfl
  rw [hb]
  exact valPhases_inv sheet_type _ _ _ _ _ _ _ _

/-! ## C3: the incremental merge never overwrites formulas -/

theorem foldl_pres {α β : Type} (P : β → Prop) (g : β → α → β)
    (hg : ∀ b x, P b → P (g b x)) :
    ∀ (l : List α) (b : β), P b → P (l.foldl g b) := by
  intro l
  induction l with
  | nil => intro b h; exact h
  | cons x xs ih => intro b h; exact ih (g b x) (hg b x h)

theorem processCell_pres (stt date label : String) (xws : Ws) (dry : Bool)
    (ews : Ws) (r0 ecol xcol : Nat) (acc : Ws × List ChangeRec)
    (hacc : ∀ r c, is_formula (ews r c) = true → acc.1 r c = ews r c) :
    ∀ r c, is_formula (ews r c) = true →
      (processCell stt date label xws dry r0 ecol xcol acc).1 r c = ews r c := by
  intro r c hf
  unfold processCell
  dsimp only
  split
  · exact hacc r c hf
  · rename_i hnf
    split
    · dsimp only
      show (if dry then acc.1 else wsW acc.1 r0 ecol (xws r0 xcol)) r c = ews r c
      split
      · exact hacc r c hf
      · unfold wsW
        by_cases he : r = r0 ∧ c = ecol
        · exfalso
          obtain ⟨he1, he2⟩ := he
          rw [he1, he2] at hf
          rw [hacc r0 ecol hf, hf] at hnf
          exact hnf rfl
        · have hb : (r = r0 && c = ecol) = false := by
            rcases Decidable.not_and_iff_or_not.mp he with h | h <;> simp [h]
          rw [hb]
          simp only [Bool.false_eq_true, if_false]
          exact hacc r c hf
    · exact hacc r c hf

/-- C3: for every cell of the existing raw-data sheet holding a formula
(a string beginning with `=`), `update_raw_data_sheet` leaves the cell
unchanged, for every export sheet, sheet type and dry-run flag. -/
theorem update_raw_preserves_formulas (existing_ws export_ws : Ws)
    (sheet_type : String) (dry_run : Bool) (r c : Nat)
    (hf : is_formula (existing_ws r c) = true) :
    (update_raw_data_sheet existing_ws export_ws sheet_type dry_run).1 r c
      = existing_ws r c := by
  unfold update_raw_data_sheet mergeOuter
  refine foldl_pres
    (fun acc : Ws × List ChangeRec =>
      ∀ r c, is_formula (existing_ws r c) = true → acc.1 r c = existing_ws r c)
    _ ?_ _ (existing_ws, []) (fun _ _ _ => rfl) r c hf
  intro b x hb
  split
  · exact hb
  · rename_i ecol hx
    unfold mergeInner
    exact foldl_pres
      (fun acc : Ws × List ChangeRec =>
        ∀ r c, is_formula (existing_ws r c) = true → acc.1 r c = existing_ws r c)
      _ (fun a q ha => processCell_pres sheet_type x.1 q.2 export_ws dry_run
          existing_ws q.1 ecol x.2 a ha) _ b hb

theorem update_raw_preserves_formulas_witness :
    is_formula (wsC3 12 4) = true ∧
    (update_raw_data_sheet wsC3 wsC3 "is" false).1 12 4 = wsC3 12 4 :=
  ⟨by decide, update_raw_preserves_formulas wsC3 wsC3 "is" false 12 4 (by decide)⟩

/-! ## C10: the write region of the full replace -/

theorem foldl_pres_mem {α β : Type} (P : β → Prop) (g : β → α → β) :
    ∀ (l : List α), (∀ b x, x ∈ l → P b → P (g b x)) →
    ∀ b, P b → P (l.foldl g b) := by
  intro l
  induction l with
  | nil => intro _ b h; exact h
  | cons x xs ih =>
      intro hg b h
      exact ih (fun b y hy hb => hg b y (List.mem_cons_of_mem x hy) hb) (g b x)
        (hg b x (List.mem_cons_self x xs) h)

theorem foldr_pres_mem {α β : Type} (P : β → Prop) (g : α → β → β) :
    ∀ (l : List α), (∀ x b, x ∈ l → P b → P (g x b)) →
    ∀ b, P b → P (l.foldr g b) := by
  intro l
  induction l with
  | nil => intro _ b h; exact h
  | cons x xs ih =>
      intro hg b h
      exact hg x _ (List.mem_cons_self x xs)
        (ih (fun y b2 hy hb => hg y b2 (List.mem_cons_of_mem x hy) hb) b h)

theorem wsW_ne {ws : Ws} {r0 c0 r c : Nat} (h : ¬(r = r0 ∧ c = c0)) (v : CellValue) :
    wsW ws r0 c0 v r c = ws r c := by
  unfold wsW
  have hb : (r = r0 && c = c0) = false := by
    rcases Decidable.not_and_iff_or_not.mp h with h | h <;> simp [h]
  rw [hb]
  simp

theorem clearPhase_frame (ws : Ws) (r c : Nat)
    (h : (r ≠ 8 ∧ r ≠ 10 ∧ ¬(12 ≤ r ∧ r ≤ 60)) ∨ c < 4 ∨ 100 ≤ c) :
    clearPhase ws r c = ws r c := by
  have hcol : ∀ x, x ∈ List.range' 4 96 → c ≠ x ∨ (r ≠ 8 ∧ r ≠ 10 ∧ ¬(12 ≤ r ∧ r ≤ 60)) := by
    intro x hx
    rw [List.mem_range'_1] at hx
    rcases h with hrow | hc | hc
    · exact Or.inr hrow
    · exact Or.inl (by omega)
    · exact Or.inl (by omega)
  unfold clearPhase
  refine foldl_pres_mem (fun w : Ws => w r c = ws r c) _ _ ?_ _ ?_
  · intro w r2 hr2 hw
    rw [List.mem_range'_1] at hr2
    refine foldl_pres_mem (fun w2 : Ws => w2 r c = ws r c) _ _ ?_ _ hw
    intro w2 x hx hw2
    rw [List.mem_range'_1] at hx
    split
    · exact hw2
    · rw [wsW_ne ?_ _]
      · exact hw2
      · rintro ⟨rfl, rfl⟩
        rcases h with hrow | hc | hc
        · exact hrow.2.2 (by omega)
        · omega
        · omega
  · refine foldl_pres_mem (fun w : Ws => w r c = ws r c) _ _ ?_ _ rfl
    intro w x hx hw
    rw [List.mem_range'_1] at hx
    rw [wsW_ne ?_ _, wsW_ne ?_ _]
    · exact hw
    · rintro ⟨rfl, rfl⟩
      rcases h with hrow | hc | hc
      · exact hrow.1 rfl
      · omega
      · omega
    · rintro ⟨rfl, rfl⟩
      rcases h with hrow | hc | hc
      · exact hrow.2.1 rfl
      · omega
      · omega

theorem copyHeaderRow_frame (row : Nat) (xws : Ws) (r c : Nat) :
    ∀ (l : List Nat) (acc : Ws × Nat),
      (∀ x ∈ l, ¬(r = row ∧ c = x)) →
      (copyHeaderRow row xws false l acc).1 r c = acc.1 r c := by
  intro l
  induction l with
  | nil => intro acc _; rfl
  | cons x xs ih =>
      intro acc h
      obtain ⟨w, n⟩ := acc
      show (copyHeaderRow row xws false (x :: xs) (w, n)).1 r c = w r c
      unfold copyHeaderRow
      dsimp only
      split
      · rw [ih _ (fun y hy => h y (List.mem_cons_of_mem x hy))]
        show wsW w row x (xws row x) r c = w r c
        exact wsW_ne (h x (List.mem_cons_self x xs)) _
      · split
        · rfl
        · exact ih (w, n) (fun y hy => h y (List.mem_cons_of_mem x hy))

theorem copyDataRows_frame (xws : Ws) (rowMap : Nat → Option Nat) (mc : Nat)
    (r c : Nat) (acc : Ws × Nat)
    (h : ∀ er ∈ List.range' 12 48, ∀ exr, rowMap er = some exr →
         ∀ x ∈ List.range' 4 (mc + 1 - 4), ¬(r = exr ∧ c = x)) :
    (copyDataRows xws false rowMap mc acc).1 r c = acc.1 r c := by
  unfold copyDataRows
  refine foldl_pres_mem (fun a : Ws × Nat => a.1 r c = acc.1 r c) _ _ ?_ _ rfl
  intro a er her ha
  split
  · exact ha
  · rename_i exr hmap
    refine foldl_pres_mem (fun a2 : Ws × Nat => a2.1 r c = acc.1 r c) _ _ ?_ _ ha
    intro a2 x hx ha2
    dsimp only
    split
    · show wsW a2.1 exr x (xws er x) r c = acc.1 r c
      rw [wsW_ne (h er her exr hmap x hx) _]
      exact ha2
    · exact ha2

theorem build_label_bounds (ws : Ws) :
    ∀ p ∈ build_label_to_row_map ws, 12 ≤ p.2 ∧ p.2 ≤ 60 := by
  unfold build_label_to_row_map
  refine foldl_pres_mem
    (fun m : List (String × Nat) => ∀ p ∈ m, 12 ≤ p.2 ∧ p.2 ≤ 60) _ _ ?_ _ ?_
  · intro m r hr hm
    rw [List.mem_range'_1] at hr
    split
    · split
      · exact hm
      · dsimp only
        split
        · exact hm
        · intro p hp
          rcases List.mem_append.mp hp with hp | hp
          · exact hm p hp
          · rcases List.mem_singleton.mp hp with rfl
            exact ⟨by omega, by omega⟩
    · exact hm
  · intro p hp
    exact absurd hp (List.not_mem_nil p)

theorem lookupStr_mem {l : List (String × Nat)} {k : String} {v : Nat}
    (h : lookupStr l k = some v) : ∃ p ∈ l, p.2 = v := by
  unfold lookupStr at h
  rw [Option.map_eq_some'] at h
  obtain ⟨p, hf, hp⟩ := h
  exact ⟨p, List.mem_of_find?_eq_some hf, hp⟩

theorem extract_dates_bounds (ws : Ws) :
    ∀ p ∈ extract_column_dates ws, 4 ≤ p.1 ∧ p.1 ≤ 50 := by
  unfold extract_column_dates
  refine foldr_pres_mem
    (fun m : List (Nat × String) => ∀ p ∈ m, 4 ≤ p.1 ∧ p.1 ≤ 50) _ _ ?_ _ ?_
  · intro x b hx hb
    rw [List.mem_range'_1] at hx
    split
    · intro p hp
      rcases List.mem_cons.mp hp with rfl | hp
      · exact ⟨by omega, by omega⟩
      · exact hb p hp
    · split
      · exact hb
      · intro p hp
        rcases List.mem_cons.mp hp with rfl | hp
        · exact ⟨by omega, by omega⟩
        · exact hb p hp
    · exact hb
  · intro p hp
    exact absurd hp (List.not_mem_nil p)

theorem foldl_max_le (b : Nat) : ∀ (l : List Nat) (a : Nat), a ≤ b →
    (∀ x ∈ l, x ≤ b) → l.foldl max a ≤ b := by
  intro l
  induction l with
  | nil => intro a ha _; exact ha
  | cons x xs ih =>
      intro a ha hl
      exact ih (max a x) (by
          have := hl x (List.mem_cons_self x xs)
          omega)
        (fun y hy => hl y (List.mem_cons_of_mem x hy))

/-- C10 (amended): with `dry_run = False`, `replace_all_raw_data` writes
only rows 8, 10 and 12–60 and only columns 4–99: every cell with a row
outside `{8, 10} ∪ [12, 60]` or a column outside `[4, 99]` is unchanged.
The clearing phase never touches row 60; but — contrary to the claim —
row 60 CAN be repopulated, as a label-match target of the data-copy phase
(see the counterexample). -/
theorem replace_all_write_region :
    (∀ ews xws r c,
        (r ≠ 8 ∧ r ≠ 10 ∧ ¬(12 ≤ r ∧ r ≤ 60)) ∨ c < 4 ∨ 100 ≤ c →
        (replace_all_raw_data ews xws false).1 r c = ews r c) ∧
    (∀ ews c, clearPhase ews 60 c = ews 60 c) := by
  constructor
  · intro ews xws r c h
    have hb : replace_all_raw_data ews xws false = copyDataRows xws false
        (fun er => ((build_label_to_row_map xws).find? (fun p => p.2 == er)).bind
          (fun p => lookupStr (build_label_to_row_map ews) p.1))
        (((extract_column_dates xws).map Prod.fst).foldl max 4)
        (copyHeaderRow 10 xws false (List.range' 4 96)
          (copyHeaderRow 8 xws false (List.range' 4 96) (clearPhase ews, 0))) := rfl
    have h1 := copyDataRows_frame xws
      (fun er => ((build_label_to_row_map xws).find? (fun p => p.2 == er)).bind
        (fun p => lookupStr (build_label_to_row_map ews) p.1))
      (((extract_column_dates xws).map Prod.fst).foldl max 4) r c
      (copyHeaderRow 10 xws false (List.range' 4 96)
        (copyHeaderRow 8 xws false (List.range' 4 96) (clearPhase ews, 0)))
    have h2 := copyHeaderRow_frame 10 xws r c (List.range' 4 96)
      (copyHeaderRow 8 xws false (List.range' 4 96) (clearPhase ews, 0))
    have h3 := copyHeaderRow_frame 8 xws r c (List.range' 4 96) (clearPhase ews, 0)
    have hm1 : ∀ er ∈ List.range' 12 48, ∀ exr,
        ((build_label_to_row_map xws).find? (fun p => p.2 == er)).bind
          (fun p => lookupStr (build_label_to_row_map ews) p.1) = some exr →
        ∀ x ∈ List.range' 4
          ((((extract_column_dates xws).map Prod.fst).foldl max 4) + 1 - 4),
          ¬(r = exr ∧ c = x) := by
      intro er her exr hmap x hx
      rw [List.mem_range'_1] at hx
      obtain ⟨p, hfind, hlook⟩ := Option.bind_eq_some.mp hmap
      obtain ⟨q, hq, hq2⟩ := lookupStr_mem hlook
      have hb2 := build_label_bounds ews q hq
      have hmc : (List.map Prod.fst (extract_column_dates xws)).foldl max 4 ≤ 99 := by
        refine foldl_max_le 99 _ 4 (by omega) ?_
        intro y hy
        obtain ⟨p2, hp2, hp2e⟩ := List.mem_map.mp hy
        have := extract_dates_bounds xws p2 hp2
        omega
      rintro ⟨rfl, rfl⟩
      rcases h with hrow | hc | hc
      · exact hrow.2.2 (by omega)
      · omega
      · omega
    have hm2 : ∀ x ∈ List.range' 4 96, ¬(r = 10 ∧ c = x) := by
      intro x hx
      rw [List.mem_range'_1] at hx
      rintro ⟨rfl, rfl⟩
      rcases h with hrow | hc | hc
      · exact hrow.2.1 rfl
      · omega
      · omega
    have hm3 : ∀ x ∈ List.range' 4 96, ¬(r = 8 ∧ c = x) := by
      intro x hx
      rw [List.mem_range'_1] at hx
      rintro ⟨rfl, rfl⟩
      rcases h with hrow | hc | hc
      · exact hrow.1 rfl
      · omega
      · omega
    have hfst : ∀ (w : Ws) (n : Nat), ((w, n) : Ws × Nat).1 = w := fun _ _ => rfl
    rw [hb, h1 hm1, h2 hm2, h3 hm3, hfst]
    exact clearPhase_frame ews r c h
  · intro ews c
    unfold clearPhase
    refine foldl_pres_mem (fun w : Ws => w 60 c = ews 60 c) _ _ ?_ _ ?_
    · intro w r2 hr2 hw
      rw [List.mem_range'_1] at hr2
      refine foldl_pres_mem (fun w2 : Ws => w2 60 c = ews 60 c) _ _ ?_ _ hw
      intro w2 x hx hw2
      split
      · exact hw2
      · rw [wsW_ne ?_ _]
        · exact hw2
        · rintro ⟨h60, rfl⟩
          omega
    · refine foldl_pres_mem (fun w : Ws => w 60 c = ews 60 c) _ _ ?_ _ rfl
      intro w x hx hw
      rw [wsW_ne (by rintro ⟨h8, rfl⟩; omega) _, wsW_ne (by rintro ⟨h10, rfl⟩; omega) _]
      exact hw

theorem replace_all_write_region_witness :
    ((7 ≠ 8 ∧ 7 ≠ 10 ∧ ¬(12 ≤ 7 ∧ 7 ≤ 60)) ∨ 4 < 4 ∨ 100 ≤ 4) ∧
    (replace_all_raw_data wsC10e wsC10x false).1 7 4 = wsC10e 7 4 :=
  ⟨by decide, replace_all_write_region.1 wsC10e wsC10x 7 4 (by decide)⟩

/-- C10 counterexample: the existing label `cash` in row 60 is matched by
the export label in row 12, so the data-copy phase writes the export value
into row 60 — row 60 is repopulated. -/
theorem C10_counterexample :
    (replace_all_raw_data wsC10e wsC10x false).1 60 4 = .int 7 ∧
    wsC10e 60 4 = .none :=
  ⟨by decide, by decide⟩

/-! ## C5: sheet renaming and formula-reference rewriting -/

theorem renameCellStep_noop {rm : List (String × String)} {W : Ws} {n r c : Nat}
    (h : match W r c with
         | .str s => startsEq s "=" = false ∨ renameFormula rm s = s
         | _ => True) :
    renameCellStep rm false r (W, n) c = (W, n) := by
  unfold renameCellStep
  rw [show ((W, n) : Ws × Nat).1 = W from rfl]
  rcases hv : W r c with _ | s | k | q | d
  case str =>
    rw [hv] at h
    have h2 : startsEq s "=" = false ∨ renameFormula rm s = s := h
    rcases h2 with h2 | h2 <;> simp [h2]
  all_goals rfl

theorem renameCells_noop {rm : List (String × String)} {W : Ws} {r n : Nat} :
    ∀ cols : List Nat,
    (∀ c ∈ cols, (match W r c with
      | .str s => startsEq s "=" = false ∨ renameFormula rm s = s
      | _ => True)) →
    cols.foldl (renameCellStep rm false r) (W, n) = (W, n) := by
  intro cols
  induction cols with
  | nil => intro _; rfl
  | cons c cs ih =>
      intro h
      rw [List.foldl_cons, renameCellStep_noop (h c (List.mem_cons_self c cs))]
      exact ih (fun c2 hc2 => h c2 (List.mem_cons_of_mem c hc2))

theorem renameRows_noop {rm : List (String × String)} {W : Ws} {n : Nat} :
    ∀ rows : List Nat,
    (∀ r ∈ rows, ∀ c ∈ List.range' 1 99, (match W r c with
      | .str s => startsEq s "=" = false ∨ renameFormula rm s = s
      | _ => True)) →
    rows.foldl (renameRowStep rm false) (W, n) = (W, n) := by
  intro rows
  induction rows with
  | nil => intro _; rfl
  | cons r rs ih =>
      intro h
      rw [List.foldl_cons]
      have hrow : renameRowStep rm false (W, n) r = (W, n) := by
        unfold renameRowStep
        exact renameCells_noop _ (h r (List.mem_cons_self r rs))
      rw [hrow]
      exact ih (fun r2 hr2 => h r2 (List.mem_cons_of_mem r hr2))

theorem renameSheet_noop {rm : List (String × String)} {ws : Ws}
    (h : ∀ r ∈ List.range' 1 99, ∀ c ∈ List.range' 1 99, (match ws r c with
      | .str s => startsEq s "=" = false ∨ renameFormula rm s = s
      | _ => True)) :
    renameSheetFormulas rm false ws = (ws, 0) := by
  unfold renameSheetFormulas
  exact renameRows_noop _ h

theorem renameSheet_blank (rm : List (String × String)) :
    renameSheetFormulas rm false blankWs = (blankWs, 0) :=
  renameSheet_noop (fun _ _ _ _ => trivial)

theorem renameSheet_calcC5 :
    renameSheetFormulas rmC5 false wsCalcC5
      = (wsW wsCalcC5 1 1 (.str "=acme2_IS!D5/acme2_bs!D10"), 1) := by
  have hoff : ∀ r c : Nat, ¬(r = 1 ∧ c = 1) →
      wsW wsCalcC5 1 1 (.str "=acme2_IS!D5/acme2_bs!D10") r c = .none := by
    intro r c hne
    unfold wsW wsCalcC5
    have hb : (r = 1 && c = 1) = false := by
      rcases Decidable.not_and_iff_or_not.mp hne with h | h <;> simp [h]
    rw [hb]
    simp only [Bool.false_eq_true, if_false, if_neg hne]
  unfold renameSheetFormulas
  rw [show List.range' 1 99 = 1 :: List.range' 2 98 from rfl, List.foldl_cons]
  have h1 : renameRowStep rmC5 false (wsCalcC5, 0) 1
      = (wsW wsCalcC5 1 1 (.str "=acme2_IS!D5/acme2_bs!D10"), 1) := by
    unfold renameRowStep
    rw [show List.range' 1 99 = 1 :: List.range' 2 98 from rfl, List.foldl_cons]
    have hc : renameCellStep rmC5 false 1 (wsCalcC5, 0) 1
        = (wsW wsCalcC5 1 1 (.str "=acme2_IS!D5/acme2_bs!D10"), 1) := rfl
    rw [hc]
    refine renameCells_noop _ ?_
    intro c hc2
    rw [List.mem_range'_1] at hc2
    rw [hoff 1 c (by omega)]
    trivial
  rw [h1]
  refine renameRows_noop _ ?_
  intro r hr c _
  rw [List.mem_range'_1] at hr
  rw [hoff r c (by omega)]
  trivial

theorem renameSheet_calcC5e :
    renameSheetFormulas rmC5 false wsCalcC5e = (wsCalcC5e, 0) := by
  refine renameSheet_noop ?_
  intro r _ c _
  by_cases h11 : r = 1 ∧ c = 1
  · obtain ⟨rfl, rfl⟩ := h11
    show (match wsCalcC5e 1 1 with
          | .str s => startsEq s "=" = false ∨ renameFormula rmC5 s = s
          | _ => True)
    rw [show wsCalcC5e 1 1 = .str "=ACME_IS!D5" from rfl]
    exact Or.inr (by decide)
  · rw [show wsCalcC5e r c = .none from by unfold wsCalcC5e; rw [if_neg h11]]
    trivial

theorem rename_unfold (wb : Workbook) (o n : String) (d : Bool)
    (rm : List (String × String)) (hrm : buildRenameMap wb o n = rm)
    (hne : rm.isEmpty = false) :
    rename_sheets_and_update_references wb o n d
      = ((renameStep2 rm d (renameStep1 rm d wb).1).1,
         (renameStep2 rm d (renameStep1 rm d wb).1).2,
         (renameStep1 rm d wb).2) := by
  unfold rename_sheets_and_update_references
  rw [hrm]
  dsimp only
  rw [hne]
  simp only [Bool.false_eq_true, if_false]

theorem renameSheetStep_eq (rm : List (String × String)) (a : Workbook × Nat)
    (name : String) (ws : Ws) (hget : wbGet a.1 name = some ws)
    (ws2 : Ws) (n2 : Nat) (hren : renameSheetFormulas rm false ws = (ws2, n2)) :
    renameSheetStep rm false a name = (wbSet a.1 name ws2, a.2 + n2) := by
  unfold renameSheetStep
  rw [hget]
  dsimp only
  rw [hren]

theorem renameStep1_C5 :
    renameStep1 rmC5 false wbC5
      = ([("acme_is", blankWs), ("acme_bs", blankWs),
          ("calc", wsW wsCalcC5 1 1 (.str "=acme2_IS!D5/acme2_bs!D10"))], 1) := by
  unfold renameStep1
  rw [show wbNames wbC5 = ["acme_is", "acme_bs", "calc"] from rfl]
  simp only [List.foldl_cons, List.foldl_nil]
  rw [renameSheetStep_eq rmC5 (wbC5, 0) "acme_is" blankWs rfl blankWs 0
    (renameSheet_blank rmC5)]
  rw [show ((wbSet ((wbC5, 0) : Workbook × Nat).1 "acme_is" blankWs,
      ((wbC5, 0) : Workbook × Nat).2 + 0) : Workbook × Nat) = (wbC5, 0) from rfl]
  rw [renameSheetStep_eq rmC5 (wbC5, 0) "acme_bs" blankWs rfl blankWs 0
    (renameSheet_blank rmC5)]
  rw [show ((wbSet ((wbC5, 0) : Workbook × Nat).1 "acme_bs" blankWs,
      ((wbC5, 0) : Workbook × Nat).2 + 0) : Workbook × Nat) = (wbC5, 0) from rfl]
  rw [renameSheetStep_eq rmC5 (wbC5, 0) "calc" wsCalcC5 rfl
    (wsW wsCalcC5 1 1 (.str "=acme2_IS!D5/acme2_bs!D10")) 1 renameSheet_calcC5]
  rfl

theorem renameStep1_C5e :
    renameStep1 rmC5 false wbC5e
      = ([("acme_is", blankWs), ("acme_bs", blankWs), ("calc", wsCalcC5e)], 0) := by
  unfold renameStep1
  rw [show wbNames wbC5e = ["acme_is", "acme_bs", "calc"] from rfl]
  simp only [List.foldl_cons, List.foldl_nil]
  rw [renameSheetStep_eq rmC5 (wbC5e, 0) "acme_is" blankWs rfl blankWs 0
    (renameSheet_blank rmC5)]
  rw [show ((wbSet ((wbC5e, 0) : Workbook × Nat).1 "acme_is" blankWs,
      ((wbC5e, 0) : Workbook × Nat).2 + 0) : Workbook × Nat) = (wbC5e, 0) from rfl]
  rw [renameSheetStep_eq rmC5 (wbC5e, 0) "acme_bs" blankWs rfl blankWs 0
    (renameSheet_blank rmC5)]
  rw [show ((wbSet ((wbC5e, 0) : Workbook × Nat).1 "acme_bs" blankWs,
      ((wbC5e, 0) : Workbook × Nat).2 + 0) : Workbook × Nat) = (wbC5e, 0) from rfl]
  rw [renameSheetStep_eq rmC5 (wbC5e, 0) "calc" wsCalcC5e rfl
    (wsCalcC5e) 0 renameSheet_calcC5e]
  rfl

theorem renameC5_pipeline :
    rename_sheets_and_update_references wbC5 "acme" "acme2" false
      = ([("acme2_IS", blankWs), ("acme2_bs", blankWs),
          ("calc", wsW wsCalcC5 1 1 (.str "=acme2_IS!D5/acme2_bs!D10"))], 2, 1) := by
  rw [rename_unfold wbC5 "acme" "acme2" false rmC5 rfl rfl, renameStep1_C5]
  rfl

theorem renameC5e_pipeline :
    rename_sheets_and_update_references wbC5e "acme" "acme2" false
      = ([("acme2_IS", blankWs), ("acme2_bs", blankWs), ("calc", wsCalcC5e)], 2, 0) := by
  rw [rename_unfold wbC5e "acme" "acme2" false rmC5 rfl rfl, renameStep1_C5e]
  rfl

/-- C5 (amended): renaming prefix `acme` to `acme2` on a workbook with
sheets `acme_is`, `acme_bs` and `calc` rewrites the `calc` formula
`=acme_is!D5/acme_bs!D10` to `=acme2_IS!D5/acme2_bs!D10` before renaming
the sheets to `acme2_IS` and `acme2_bs`, and returns the counts
(2 sheets renamed, 1 formula updated).  The textual substitution matches
the stored sheet name and its all-lowercase variant only — NOT arbitrary
case variations (see the counterexample). -/
theorem rename_sheets_scenario :
    wbNames (rename_sheets_and_update_references wbC5 "acme" "acme2" false).1
      = ["acme2_IS", "acme2_bs", "calc"] ∧
    (wbGet (rename_sheets_and_update_references wbC5 "acme" "acme2" false).1 "calc").map
      (fun ws => ws 1 1) = some (.str "=acme2_IS!D5/acme2_bs!D10") ∧
    (rename_sheets_and_update_references wbC5 "acme" "acme2" false).2.1 = 2 ∧
    (rename_sheets_and_update_references wbC5 "acme" "acme2" false).2.2 = 1 := by
  rw [renameC5_pipeline]
  refine ⟨rfl, ?_, rfl, rfl⟩
  rw [show wbGet ([("acme2_IS", blankWs), ("acme2_bs", blankWs),
      ("calc", wsW wsCalcC5 1 1 (.str "=acme2_IS!D5/acme2_bs!D10"))] : Workbook) "calc"
      = some (wsW wsCalcC5 1 1 (.str "=acme2_IS!D5/acme2_bs!D10")) from rfl]
  rfl

/-- C5 counterexample to case-insensitive matching: the `calc` formula
`=ACME_IS!D5` references the old IS sheet in upper case; the rename leaves
it untouched and reports zero formulas updated (while still renaming both
sheets). -/
theorem C5_counterexample :
    (wbGet (rename_sheets_and_update_references wbC5e "acme" "acme2" false).1 "calc").map
      (fun ws => ws 1 1) = some (.str "=ACME_IS!D5") ∧
    (rename_sheets_and_update_references wbC5e "acme" "acme2" false).2.2 = 0 ∧
    (rename_sheets_and_update_references wbC5e "acme" "acme2" false).2.1 = 2 := by
  rw [renameC5e_pipeline]
  refine ⟨?_, rfl, rfl⟩
  rw [show wbGet ([("acme2_IS", blankWs), ("acme2_bs", blankWs),
      ("calc", wsCalcC5e)] : Workbook) "calc" = some wsCalcC5e from rfl]
  rfl

/-! ## C9: the validation abort of update_workbook -/

theorem expure_bind {α β : Type} (a : α) (f : α → Except String β) :
    (pure a >>= f) = f a := rfl

/-- C9: without replace-all and without force, when validation of the
provided exports against the workbook structure records at least one
error, `update_workbook` aborts: it returns before any mutation with the
input workbook unchanged and unsaved, a result whose `success` is false,
whose backup flag is unset (no backup file is created), and whose error
list is non-empty. -/
theorem update_workbook_validation_abort
    (wb : Workbook) (is_e bs_e : Option (String × Ws)) (ep dry : Bool)
    (cn : Option String) (st : WorkbookStructureR)
    (hs : map_workbook_structure wb = .ok st)
    (hv : collectValidationErrors st is_e bs_e false ≠ []) :
    ∃ res : UpdateResultR,
      update_workbook wb is_e bs_e ep false dry false cn = .ok (res, wb, false) ∧
      res.success = false ∧ res.backup_path_set = false ∧ res.errors ≠ [] := by
  have hvE : (collectValidationErrors st is_e bs_e false).isEmpty = false := by
    cases hE : (collectValidationErrors st is_e bs_e false).isEmpty
    · rfl
    · exact absurd (List.isEmpty_iff.mp hE) hv
  refine ⟨{ initUpdateResult with
            errors := collectValidationErrors st is_e bs_e false ++
              ["Validation failed. Use --force to override."] }, ?_, rfl, rfl, by simp⟩
  unfold update_workbook
  simp only [Bool.false_eq_true, if_false, hs, exbind_ok, expure_bind, hvE,
    Bool.not_false, Bool.and_self, if_true]
  rfl

theorem update_workbook_validation_abort_witness :
    map_workbook_structure wbC9 = .ok stC9 ∧
    collectValidationErrors stC9 (some ("f", xwsC9)) none false ≠ [] ∧
    ∃ res : UpdateResultR,
      update_workbook wbC9 (some ("f", xwsC9)) none false false false false none
        = .ok (res, wbC9, false) ∧
      res.success = false ∧ res.backup_path_set = false ∧ res.errors ≠ [] :=
  ⟨rfl, by decide,
   update_workbook_validation_abort wbC9 (some ("f", xwsC9)) none false false none stC9
     rfl (by decide)⟩

/-! ## C2: the period-extension scenario -/

/-- C2 (amended): in the spec's period-extension scenario, the merge with
period extension adds column F to the raw-data sheet with date 2024-06-30
and period code, copies the export value of the LABEL-MATCHED row 12 into
the new raw column (rows 4 and 5 are not label rows and are not copied),
and extends the `ncav` formula column with the UNCHANGED formula `=D5-D4`:
`adjust_formula_column` shifts only references to the source column E, and
`=D5-D4` contains none. -/
theorem add_new_period_scenario :
    (wbGet (updateOneSheet wbC2 "raw" xwsC2 "is" ["ncav"] true false false false).1
        "raw").map (fun ws => (ws 10 6, ws 8 6, ws 12 6))
      = some (.str "2024-06-30", .str "Q2 24", .int 3) ∧
    (wbGet (updateOneSheet wbC2 "raw" xwsC2 "is" ["ncav"] true false false false).1
        "ncav").map (fun ws => (ws 1 6, ws 5 6))
      = some (.str "2024-06-30", .str "=D5-D4") ∧
    (updateOneSheet wbC2 "raw" xwsC2 "is" ["ncav"] true false false false).2.2.2
      = (1, 1) := by
  refine ⟨by decide, by decide, by decide⟩

/-- C2 counterexample: the export holds values in rows 4 and 5 of the new
column, yet the merged raw sheet leaves those rows empty; and the extended
calculation cell holds `=D5-D4`, not the claimed `=E5-E4`. -/
theorem C2_counterexample :
    (wbGet (updateOneSheet wbC2 "raw" xwsC2 "is" ["ncav"] true false false false).1
        "raw").map (fun ws => (ws 4 6, ws 5 6)) = some (.none, .none) ∧
    xwsC2 4 6 = .int 44 ∧ xwsC2 5 6 = .int 55 ∧
    (wbGet (updateOneSheet wbC2 "raw" xwsC2 "is" ["ncav"] true false false false).1
        "ncav").map (fun ws => ws 5 6) ≠ some (.str "=E5-E4") := by
  refine ⟨by decide, by decide, by decide, by decide⟩

/-! ## C4: idempotence of the incremental merge -/

theorem lookupStr_eq {l : List (String × Nat)} {k : String} {v : Nat}
    (h : lookupStr l k = some v) : (k, v) ∈ l := by
  unfold lookupStr at h
  rw [Option.map_eq_some'] at h
  obtain ⟨p, hf, hp⟩ := h
  have hm := List.mem_of_find?_eq_some hf
  have hk := List.find?_some hf
  rw [beq_iff_eq] at hk
  have he : p = (k, v) := by
    obtain ⟨p1, p2⟩ := p
    simp only at hk hp
    rw [hk, hp]
  rwa [he] at hm

theorem dictInsert_mem {m : List (String × Nat)} {k : String} {v : Nat} :
    ∀ q ∈ dictInsert m k v, (q ∈ m ∧ q.1 ≠ k) ∨ q = (k, v) := by
  intro q hq
  unfold dictInsert at hq
  split at hq
  · rw [List.mem_map] at hq
    obtain ⟨q0, hq0, he⟩ := hq
    rcases hbk : (q0.1 == k) with _ | _
    · rw [hbk] at he
      simp only [Bool.false_eq_true, if_false] at he
      rw [beq_eq_false_iff_ne] at hbk
      exact Or.inl ⟨he ▸ hq0, he ▸ hbk⟩
    · rw [hbk] at he
      simp only [if_true] at he
      rw [beq_iff_eq] at hbk
      exact Or.inr (by rw [← he, hbk])
  · rename_i hany
    rcases List.mem_append.mp hq with hq | hq
    · rw [Bool.not_eq_true, List.any_eq_false] at hany
      have h2 : q.1 ≠ k := by simpa using hany q hq
      exact Or.inl ⟨hq, h2⟩
    · exact Or.inr (List.mem_singleton.mp hq)

theorem dictInsert_keys_nodup {m : List (String × Nat)} {k : String} {v : Nat}
    (h : (m.map Prod.fst).Nodup) : ((dictInsert m k v).map Prod.fst).Nodup := by
  unfold dictInsert
  split
  · have he : (m.map (fun p => if p.1 == k then (p.1, v) else p)).map Prod.fst
        = m.map Prod.fst := by
      rw [List.map_map]
      apply List.map_congr_left
      intro p _
      simp only [Function.comp]
      split <;> rfl
    rw [he]
    exact h
  · rename_i hany
    have hany2 : m.any (fun p => p.1 == k) = false := by
      cases hA : m.any (fun p => p.1 == k)
      · rfl
      · exact absurd hA hany
    rw [List.any_eq_false] at hany2
    rw [List.map_append]
    simp only [List.map_cons, List.map_nil]
    rw [List.nodup_append]
    refine ⟨h, List.nodup_singleton k, ?_⟩
    intro a ha hak
    rw [List.mem_singleton] at hak
    rw [List.mem_map] at ha
    obtain ⟨p, hp, hpe⟩ := ha
    have h2 : p.1 ≠ k := by simpa using hany2 p hp
    exact h2 (hpe.trans hak)

theorem pyDictRev_keys_nodup (l : List (Nat × String)) :
    ((pyDictRev l).map Prod.fst).Nodup := by
  unfold pyDictRev
  refine foldl_pres_mem
    (fun m : List (String × Nat) => (m.map Prod.fst).Nodup) _ _ ?_ _ ?_
  · intro m x _ hm
    exact dictInsert_keys_nodup hm
  · simp

theorem pyDictRev_mem (l : List (Nat × String)) :
    ∀ q ∈ pyDictRev l, ∃ p ∈ l, q = (p.2, p.1) := by
  unfold pyDictRev
  refine foldl_pres_mem
    (fun m : List (String × Nat) => ∀ q ∈ m, ∃ p ∈ l, q = (p.2, p.1)) _ _ ?_ _ ?_
  · intro m x hx hm q hq
    rcases dictInsert_mem q hq with ⟨hq, _⟩ | hq
    · exact hm q hq
    · exact ⟨x, hx, hq⟩
  · intro q hq
    exact absurd hq (List.not_mem_nil q)

theorem pyDictRev_val_inj :
    ∀ (l : List (Nat × String)) (m : List (String × Nat)),
    (l.map Prod.fst).Nodup →
    (∀ q1 ∈ m, ∀ q2 ∈ m, q1.2 = q2.2 → q1.1 = q2.1) →
    (∀ q ∈ m, ∀ p ∈ l, q.2 ≠ p.1) →
    ∀ q1 ∈ l.foldl (fun m p => dictInsert m p.2 p.1) m,
    ∀ q2 ∈ l.foldl (fun m p => dictInsert m p.2 p.1) m,
    q1.2 = q2.2 → q1.1 = q2.1 := by
  intro l
  induction l with
  | nil => intro m _ hm _; exact hm
  | cons p t ih =>
      intro m hnd hm hfresh
      rw [List.map_cons, List.nodup_cons] at hnd
      simp only [List.foldl_cons]
      apply ih (dictInsert m p.2 p.1) hnd.2
      · intro q1 h1 q2 h2 he
        rcases dictInsert_mem q1 h1 with ⟨h1m, _⟩ | h1e <;>
          rcases dictInsert_mem q2 h2 with ⟨h2m, _⟩ | h2e
        · exact hm q1 h1m q2 h2m he
        · exact absurd (by rw [he, h2e] : q1.2 = p.1)
            (hfresh q1 h1m p (List.mem_cons_self p t))
        · exact absurd (by rw [← he, h1e] : q2.2 = p.1)
            (hfresh q2 h2m p (List.mem_cons_self p t))
        · rw [h1e, h2e]
      · intro q hq p2 hp2
        rcases dictInsert_mem q hq with ⟨hqm, _⟩ | hqe
        · exact hfresh q hqm p2 (List.mem_cons_of_mem p hp2)
        · rw [hqe]
          intro hc
          simp only at hc
          exact hnd.1 (by rw [hc]; exact List.mem_map_of_mem Prod.fst hp2)

theorem foldr_congr_mem {α β : Type} (g1 g2 : α → β → β) (init : β) :
    ∀ l : List α, (∀ x ∈ l, ∀ b, g1 x b = g2 x b) → l.foldr g1 init = l.foldr g2 init := by
  intro l
  induction l with
  | nil => intro _; rfl
  | cons x xs ih =>
      intro h
      simp only [List.foldr_cons]
      rw [ih (fun y hy b => h y (List.mem_cons_of_mem x hy) b),
        h x (List.mem_cons_self x xs)]

theorem extract_dates_congr {a b : Ws} (h : ∀ c, a 10 c = b 10 c) :
    extract_column_dates a = extract_column_dates b := by
  unfold extract_column_dates
  apply foldr_congr_mem
  intro x _ acc
  rw [h x]

theorem extract_labels_congr {a b : Ws} (h : ∀ r, a r 3 = b r 3) :
    extract_row_labels a = extract_row_labels b := by
  unfold extract_row_labels
  apply foldr_congr_mem
  intro x _ acc
  rw [h x]

theorem foldr_optcons_shape {β : Type} (f : Nat → Option β)
    (g : Nat → List (Nat × β) → List (Nat × β))
    (hg : ∀ r acc, g r acc
      = match f r with | some v => (r, v) :: acc | none => acc) :
    ∀ l : List Nat,
      (∀ q ∈ l.foldr g [], q.1 ∈ l) ∧
      (List.Pairwise (· < ·) l →
        List.Pairwise (fun a b : Nat × β => a.1 < b.1) (l.foldr g [])) := by
  intro l
  induction l with
  | nil => exact ⟨fun q hq => absurd hq (List.not_mem_nil q), fun _ => List.Pairwise.nil⟩
  | cons r t ih =>
      simp only [List.foldr_cons, hg r]
      rcases hf : f r with _ | v
      · exact ⟨fun q hq => List.mem_cons_of_mem r (ih.1 q hq),
          fun hpw => ih.2 (List.pairwise_cons.mp hpw).2⟩
      · constructor
        · intro q hq
          have hq2 : q ∈ (r, v) :: t.foldr g [] := hq
          rcases List.mem_cons.mp hq2 with rfl | hq3
          · exact List.mem_cons_self r t
          · exact List.mem_cons_of_mem r (ih.1 q hq3)
        · intro hpw
          rw [List.pairwise_cons] at hpw
          show List.Pairwise _ ((r, v) :: t.foldr g [])
          rw [List.pairwise_cons]
          exact ⟨fun q hq => hpw.1 q.1 (ih.1 q hq), ih.2 hpw.2⟩

theorem extract_labels_shape (ws : Ws) :
    (∀ q ∈ extract_row_labels ws, 12 ≤ q.1 ∧ q.1 ≤ 60) ∧
    List.Pairwise (fun a b : Nat × String => a.1 < b.1) (extract_row_labels ws) := by
  have hs := foldr_optcons_shape (fun r =>
      match ws r 3 with
      | .str s => if pyStrip s = "" then none else some (pyStrip s)
      | _ => none)
    (fun r acc =>
      match ws r 3 with
      | .str s => if pyStrip s = "" then acc else (r, pyStrip s) :: acc
      | _ => acc)
    (by
      intro r acc
      cases hv : ws r 3 <;> simp only [hv] <;> try rfl
      rename_i s
      by_cases hh : pyStrip s = "" <;> simp [hh])
    (List.range' 12 49)
  refine ⟨?_, hs.2 (List.pairwise_lt_range' 12 49)⟩
  intro q hq
  have := hs.1 q hq
  rw [List.mem_range'_1] at this
  omega

theorem extract_dates_shape (ws : Ws) :
    (∀ q ∈ extract_column_dates ws, 4 ≤ q.1 ∧ q.1 ≤ 50) ∧
    List.Pairwise (fun a b : Nat × String => a.1 < b.1) (extract_column_dates ws) := by
  have hs := foldr_optcons_shape (fun c =>
      match ws 10 c with
      | .date d => some d
      | .str s => if pyStrip s = "" then none else some (pyStrip s)
      | _ => none)
    (fun c acc =>
      match ws 10 c with
      | .date d => (c, d) :: acc
      | .str s => if pyStrip s = "" then acc else (c, pyStrip s) :: acc
      | _ => acc)
    (by
      intro c acc
      cases hv : ws 10 c <;> simp only [hv] <;> try rfl
      rename_i s
      by_cases hh : pyStrip s = "" <;> simp [hh])
    (List.range' 4 47)
  refine ⟨?_, hs.2 (List.pairwise_lt_range' 4 47)⟩
  intro q hq
  have := hs.1 q hq
  rw [List.mem_range'_1] at this
  omega

theorem extract_dates_cols_nodup (ws : Ws) :
    ((extract_column_dates ws).map Prod.fst).Nodup := by
  have hpw := (extract_dates_shape ws).2
  have h2 : List.Pairwise (· < ·) ((extract_column_dates ws).map Prod.fst) := by
    rw [List.pairwise_map]
    exact hpw
  exact h2.imp Nat.ne_of_lt

theorem processCell_frame (st d lab : String) (xws : Ws) (r0 e0 x0 : Nat)
    (a : Ws × List ChangeRec) (r c : Nat) (h : ¬(r = r0 ∧ c = e0)) :
    (processCell st d lab xws false r0 e0 x0 a).1 r c = a.1 r c := by
  unfold processCell
  dsimp only
  split
  · rfl
  · split
    · show wsW a.1 r0 e0 (xws r0 x0) r c = a.1 r c
      exact wsW_ne h _
    · rfl

theorem processCell_post (st d lab : String) (xws : Ws) (r0 e0 x0 : Nat)
    (a : Ws × List ChangeRec) :
    is_formula ((processCell st d lab xws false r0 e0 x0 a).1 r0 e0) = true ∨
    pyNorm ((processCell st d lab xws false r0 e0 x0 a).1 r0 e0)
      = pyNorm (xws r0 x0) := by
  unfold processCell
  dsimp only
  split
  · rename_i hf
    exact Or.inl hf
  · split
    · right
      show pyNorm (wsW a.1 r0 e0 (xws r0 x0) r0 e0) = _
      unfold wsW
      simp
    · rename_i hne
      right
      exact not_not.mp hne

theorem processCell_id (st d lab : String) (xws : Ws) (r0 e0 x0 : Nat)
    (W : Ws) (L : List ChangeRec)
    (h : is_formula (W r0 e0) = true ∨ pyNorm (W r0 e0) = pyNorm (xws r0 x0)) :
    processCell st d lab xws false r0 e0 x0 (W, L) = (W, L) := by
  unfold processCell
  dsimp only
  split
  · rfl
  · rename_i hf
    rcases h with h | h
    · exact absurd h hf
    · rw [if_neg (not_not.mpr h)]

theorem mergeInner_row_frame (st : String) (xws : Ws) (d : String)
    (ecol xcol : Nat) (r0 : Nat) :
    ∀ (RL : List (Nat × String)), (∀ q ∈ RL, q.1 ≠ r0) →
    ∀ (a : Ws × List ChangeRec) (c : Nat),
      (mergeInner st xws d ecol xcol false RL a).1 r0 c = a.1 r0 c := by
  intro RL
  induction RL with
  | nil => intro _ a c; rfl
  | cons q0 t ih =>
      intro h a c
      have hstep : mergeInner st xws d ecol xcol false (q0 :: t) a
          = mergeInner st xws d ecol xcol false t
              (processCell st d q0.2 xws false q0.1 ecol xcol a) := rfl
      rw [hstep, ih (fun q hq => h q (List.mem_cons_of_mem q0 hq)) _ c]
      exact processCell_frame st d q0.2 xws q0.1 ecol xcol a r0 c
        (fun he => h q0 (List.mem_cons_self q0 t) he.1.symm)

theorem mergeInner_col_frame (st : String) (xws : Ws) (d : String)
    (ecol xcol c0 : Nat) (hne : ecol ≠ c0) :
    ∀ (RL : List (Nat × String)) (a : Ws × List ChangeRec) (r : Nat),
      (mergeInner st xws d ecol xcol false RL a).1 r c0 = a.1 r c0 := by
  intro RL
  induction RL with
  | nil => intro a r; rfl
  | cons q0 t ih =>
      intro a r
      have hstep : mergeInner st xws d ecol xcol false (q0 :: t) a
          = mergeInner st xws d ecol xcol false t
              (processCell st d q0.2 xws false q0.1 ecol xcol a) := rfl
      rw [hstep, ih _ r]
      exact processCell_frame st d q0.2 xws q0.1 ecol xcol a r c0
        (fun he => hne he.2.symm)

theorem mergeInner_post (st : String) (xws : Ws) (d : String) (ecol xcol : Nat) :
    ∀ (RL : List (Nat × String)),
    List.Pairwise (fun a b : Nat × String => a.1 ≠ b.1) RL →
    ∀ (a : Ws × List ChangeRec) (q : Nat × String), q ∈ RL →
      is_formula ((mergeInner st xws d ecol xcol false RL a).1 q.1 ecol) = true ∨
      pyNorm ((mergeInner st xws d ecol xcol false RL a).1 q.1 ecol)
        = pyNorm (xws q.1 xcol) := by
  intro RL
  induction RL with
  | nil => intro _ a q hq; exact absurd hq (List.not_mem_nil q)
  | cons q0 t ih =>
      intro hpw a q hq
      rw [List.pairwise_cons] at hpw
      have hstep : mergeInner st xws d ecol xcol false (q0 :: t) a
          = mergeInner st xws d ecol xcol false t
              (processCell st d q0.2 xws false q0.1 ecol xcol a) := rfl
      rcases List.mem_cons.mp hq with rfl | hq
      · rw [hstep,
          mergeInner_row_frame st xws d ecol xcol q.1 t
            (fun q2 hq2 => (hpw.1 q2 hq2).symm) _ ecol]
        exact processCell_post st d q.2 xws q.1 ecol xcol a
      · rw [hstep]
        exact ih hpw.2 _ q hq

theorem mergeInner_id (st : String) (xws : Ws) (d : String) (ecol xcol : Nat)
    (W : Ws) (L : List ChangeRec) :
    ∀ (RL : List (Nat × String)),
    (∀ q ∈ RL, is_formula (W q.1 ecol) = true ∨
      pyNorm (W q.1 ecol) = pyNorm (xws q.1 xcol)) →
    mergeInner st xws d ecol xcol false RL (W, L) = (W, L) := by
  intro RL
  induction RL with
  | nil => intro _; rfl
  | cons q0 t ih =>
      intro h
      have hstep : mergeInner st xws d ecol xcol false (q0 :: t) (W, L)
          = mergeInner st xws d ecol xcol false t
              (processCell st d q0.2 xws false q0.1 ecol xcol (W, L)) := rfl
      rw [hstep, processCell_id st d q0.2 xws q0.1 ecol xcol W L
        (h q0 (List.mem_cons_self q0 t))]
      exact ih (fun q hq => h q (List.mem_cons_of_mem q0 hq))

theorem mergeOuter_col_frame (st : String) (xws : Ws)
    (DE : List (String × Nat)) (RL : List (Nat × String)) (c0 : Nat) :
    ∀ (DX : List (String × Nat)),
    (∀ p ∈ DX, ∀ e, lookupStr DE p.1 = some e → e ≠ c0) →
    ∀ (acc : Ws × List ChangeRec) (r : Nat),
      (mergeOuter st xws DE RL false DX acc).1 r c0 = acc.1 r c0 := by
  intro DX
  induction DX with
  | nil => intro _ acc r; rfl
  | cons p0 t ih =>
      intro h acc r
      have hstep : mergeOuter st xws DE RL false (p0 :: t) acc
          = mergeOuter st xws DE RL false t
              (match lookupStr DE p0.1 with
               | none => acc
               | some ecol => mergeInner st xws p0.1 ecol p0.2 false RL acc) := rfl
      rw [hstep, ih (fun p hp e he => h p (List.mem_cons_of_mem p0 hp) e he) _ r]
      rcases hl : lookupStr DE p0.1 with _ | e0
      · rfl
      · exact mergeInner_col_frame st xws p0.1 e0 p0.2 c0
          (h p0 (List.mem_cons_self p0 t) e0 hl) RL acc r

theorem mergeOuter_row_frame (st : String) (xws : Ws)
    (DE : List (String × Nat)) (RL : List (Nat × String)) (r0 : Nat)
    (h : ∀ q ∈ RL, q.1 ≠ r0) :
    ∀ (DX : List (String × Nat)) (acc : Ws × List ChangeRec) (c : Nat),
      (mergeOuter st xws DE RL false DX acc).1 r0 c = acc.1 r0 c := by
  intro DX
  induction DX with
  | nil => intro acc c; rfl
  | cons p0 t ih =>
      intro acc c
      have hstep : mergeOuter st xws DE RL false (p0 :: t) acc
          = mergeOuter st xws DE RL false t
              (match lookupStr DE p0.1 with
               | none => acc
               | some ecol => mergeInner st xws p0.1 ecol p0.2 false RL acc) := rfl
      rw [hstep, ih _ c]
      rcases hl : lookupStr DE p0.1 with _ | e0
      · rfl
      · exact mergeInner_row_frame st xws p0.1 e0 p0.2 r0 RL h acc c

theorem mergeOuter_post (st : String) (xws : Ws) (DE : List (String × Nat))
    (RL : List (Nat × String))
    (hDE : ∀ d1 d2 c, lookupStr DE d1 = some c → lookupStr DE d2 = some c → d1 = d2)
    (hRL : List.Pairwise (fun a b : Nat × String => a.1 ≠ b.1) RL) :
    ∀ (DX : List (String × Nat)), (DX.map Prod.fst).Nodup →
    ∀ (acc : Ws × List ChangeRec) (p : String × Nat), p ∈ DX →
    ∀ ecol, lookupStr DE p.1 = some ecol → ∀ q ∈ RL,
      is_formula ((mergeOuter st xws DE RL false DX acc).1 q.1 ecol) = true ∨
      pyNorm ((mergeOuter st xws DE RL false DX acc).1 q.1 ecol)
        = pyNorm (xws q.1 p.2) := by
  intro DX
  induction DX with
  | nil => intro _ _ p hp; exact absurd hp (List.not_mem_nil p)
  | cons p0 t ih =>
      intro hnd acc p hp ecol hlook q hq
      rw [List.map_cons, List.nodup_cons] at hnd
      have hstep : mergeOuter st xws DE RL false (p0 :: t) acc
          = mergeOuter st xws DE RL false t
              (match lookupStr DE p0.1 with
               | none => acc
               | some ecol => mergeInner st xws p0.1 ecol p0.2 false RL acc) := rfl
      rcases List.mem_cons.mp hp with rfl | hp
      · rw [hstep, hlook]
        have hfr := mergeOuter_col_frame st xws DE RL ecol t
          (fun p2 hp2 e2 hl2 he => hnd.1 (by
            rw [← hDE p2.1 p.1 ecol (he ▸ hl2) hlook]
            exact List.mem_map_of_mem Prod.fst hp2))
          (mergeInner st xws p.1 ecol p.2 false RL acc) q.1
        rw [hfr]
        exact mergeInner_post st xws p.1 ecol p.2 RL hRL acc q hq
      · rw [hstep]
        exact ih hnd.2 _ p hp ecol hlook q hq

theorem mergeOuter_id (st : String) (xws : Ws) (DE : List (String × Nat))
    (RL : List (Nat × String)) (W : Ws) (L : List ChangeRec) :
    ∀ (DX : List (String × Nat)),
    (∀ p ∈ DX, ∀ ecol, lookupStr DE p.1 = some ecol →
      ∀ q ∈ RL, is_formula (W q.1 ecol) = true ∨
        pyNorm (W q.1 ecol) = pyNorm (xws q.1 p.2)) →
    mergeOuter st xws DE RL false DX (W, L) = (W, L) := by
  intro DX
  induction DX with
  | nil => intro _; rfl
  | cons p0 t ih =>
      intro h
      have hstep : mergeOuter st xws DE RL false (p0 :: t) (W, L)
          = mergeOuter st xws DE RL false t
              (match lookupStr DE p0.1 with
               | none => (W, L)
               | some ecol => mergeInner st xws p0.1 ecol p0.2 false RL (W, L)) := rfl
      rw [hstep]
      have hm : (match lookupStr DE p0.1 with
          | none => (W, L)
          | some ecol => mergeInner st xws p0.1 ecol p0.2 false RL (W, L)) = (W, L) := by
        rcases hl : lookupStr DE p0.1 with _ | e0
        · rfl
        · exact mergeInner_id st xws p0.1 e0 p0.2 W L RL
            (h p0 (List.mem_cons_self p0 t) e0 hl)
      rw [hm]
      exact ih (fun p hp e he => h p (List.mem_cons_of_mem p0 hp) e he)

/-- C4: the incremental merge is idempotent.  After a first
`update_raw_data_sheet` run with `dry_run = False`, a second run with the
same export produces an empty change list: the first run leaves the date
row and the label column untouched, so the second run revisits exactly the
same cells, each of which now either holds a formula (skipped) or already
normalizes equal to the export value. -/
theorem update_raw_idempotent (existing_ws export_ws : Ws) (sheet_type : String) :
    (update_raw_data_sheet
      (update_raw_data_sheet existing_ws export_ws sheet_type false).1
      export_ws sheet_type false).2 = [] := by
  have hb1 : update_raw_data_sheet existing_ws export_ws sheet_type false
      = mergeOuter sheet_type export_ws
          (pyDictRev (extract_column_dates existing_ws))
          (extract_row_labels existing_ws) false
          (pyDictRev (extract_column_dates export_ws)) (existing_ws, []) := rfl
  have hlab := extract_labels_shape existing_ws
  have hRLne : List.Pairwise (fun a b : Nat × String => a.1 ≠ b.1)
      (extract_row_labels existing_ws) := hlab.2.imp (fun h => Nat.ne_of_lt h)
  have hrow10 : ∀ c,
      (update_raw_data_sheet existing_ws export_ws sheet_type false).1 10 c
      = existing_ws 10 c := by
    intro c
    rw [hb1]
    exact mergeOuter_row_frame sheet_type export_ws _ _ 10
      (fun q hq => by have := hlab.1 q hq; omega) _ (existing_ws, []) c
  have hcol3 : ∀ r,
      (update_raw_data_sheet existing_ws export_ws sheet_type false).1 r 3
      = existing_ws r 3 := by
    intro r
    rw [hb1]
    refine mergeOuter_col_frame sheet_type export_ws _ _ 3 _ ?_ (existing_ws, []) r
    intro p hp e he hc
    have hm := lookupStr_eq he
    obtain ⟨p2, hp2, he2⟩ := pyDictRev_mem _ _ hm
    have hbnd := (extract_dates_shape existing_ws).1 p2 hp2
    have hee : e = p2.1 := by
      have := congrArg Prod.snd he2
      simpa using this
    omega
  have hdates := extract_dates_congr hrow10
  have hlabels := extract_labels_congr hcol3
  have hDE : ∀ d1 d2 c,
      lookupStr (pyDictRev (extract_column_dates existing_ws)) d1 = some c →
      lookupStr (pyDictRev (extract_column_dates existing_ws)) d2 = some c →
      d1 = d2 := by
    intro d1 d2 c h1 h2
    have hm1 := lookupStr_eq h1
    have hm2 := lookupStr_eq h2
    have hinj := pyDictRev_val_inj (extract_column_dates existing_ws) []
      (extract_dates_cols_nodup existing_ws)
      (fun q1 h1 => absurd h1 (List.not_mem_nil q1))
      (fun q hq => absurd hq (List.not_mem_nil q))
    exact hinj (d1, c) hm1 (d2, c) hm2 rfl
  have hPOST := mergeOuter_post sheet_type export_ws
      (pyDictRev (extract_column_dates existing_ws))
      (extract_row_labels existing_ws) hDE hRLne
      (pyDictRev (extract_column_dates export_ws))
      (pyDictRev_keys_nodup _) (existing_ws, [])
  have hp : ∀ p ∈ pyDictRev (extract_column_dates export_ws), ∀ ecol,
      lookupStr (pyDictRev (extract_column_dates existing_ws)) p.1 = some ecol →
      ∀ q ∈ extract_row_labels existing_ws,
      is_formula ((update_raw_data_sheet existing_ws export_ws sheet_type false).1
        q.1 ecol) = true ∨
      pyNorm ((update_raw_data_sheet existing_ws export_ws sheet_type false).1
        q.1 ecol) = pyNorm (export_ws q.1 p.2) := by
    intro p hpm ecol he q hq
    have h2 := hPOST p hpm ecol he q hq
    rw [← hb1] at h2
    exact h2
  have hid := mergeOuter_id sheet_type export_ws
      (pyDictRev (extract_column_dates existing_ws))
      (extract_row_labels existing_ws)
      (update_raw_data_sheet existing_ws export_ws sheet_type false).1 []
      (pyDictRev (extract_column_dates export_ws)) hp
  have hb2 : update_raw_data_sheet
      (update_raw_data_sheet existing_ws export_ws sheet_type false).1
      export_ws sheet_type false
      = mergeOuter sheet_type export_ws
          (pyDictRev (extract_column_dates
            (update_raw_data_sheet existing_ws export_ws sheet_type false).1))
          (extract_row_labels
            (update_raw_data_sheet existing_ws export_ws sheet_type false).1)
          false (pyDictRev (extract_column_dates export_ws))
          ((update_raw_data_sheet existing_ws export_ws sheet_type false).1, []) := rfl
  rw [hb2, hdates, hlabels, hid]
